import Mathlib

/-!
# taolang: expression evaluation, statements, calls and promises

A shallow embedding of the tree-walking evaluator of `taolang`
(`src/taolang/expression.go`), of its statements (`src/statement.go`) and of
its promises (`src/src/class_promise.go`), together with the properties of
its specification that concern operator evaluation, assignment, indexing, the
binding of arguments, the call protocol, the statements and the settlement of
promises.

Conventions of the embedding

* Go's `int` is the 64-bit two's-complement integer: a `Number` carries an
  `Int`, and every arithmetic result is reduced with `wrapInt`.
* A Go `panic` is an error result.  An evaluation is a function from the
  state of the world (contexts and heap) to a result *and* the state reached,
  so that the effects performed before a panic stay observable.
* `Expression` and `Assigner` are Go interfaces: an expression node is the
  record of its `Evaluate` method and, when its dynamic type implements
  `Assigner`, of its `Assign` method.
* Declarations of the package that are not part of the sources (`Value`, the
  error constructors, `Truth`, the `IObject`/`IArray` implementations,
  `math.Pow`, `Context`, `Async`, the execution of a block) are modelled from
  the specification or taken as parameters (`Runtime`, `CallRuntime`, the body
  of a `FunctionExpression`).
* Pointers are addresses: a `*Context` is an index into the contexts of the
  `Machine`, a `*Promise` an index into its heap.  The recursion of a promise
  along its forward targets is bounded by a fuel.
-/

namespace Taolang

/-! ## Data model -/

/-- Modelled from the spec: the kinds of the tagged union `Value` (§3,
"Kinds: Nil, Boolean, Number, String, VariableRef, Function, Builtin, Object,
Array, Constructor"); the declaration of `ValueType` is not in
`expression.go`, which names `vtNil`, `vtBoolean`, `vtNumber`, `vtString`,
`vtVariable` and `vtBuiltin`. -/
inductive ValueType where
  | vtNil
  | vtBoolean
  | vtNumber
  | vtString
  | vtVariable
  | vtFunction
  | vtBuiltin
  | vtObject
  | vtArray
  | vtConstructor
  deriving DecidableEq, Repr

/-- Modelled from the spec: the runtime datum `Value` (§3).  Reference kinds
carry the address of what they refer to; a builtin carries its receiver, its
name and the identity of its native function (`reflect.ValueOf(fn).Pointer()`
in the source); a function carries its captured context and its body. -/
inductive Value where
  | nil
  | boolean (b : Bool)
  | number (n : Int)
  | string (s : String)
  | variable (name : String)
  | function (this : Nat) (fn : Nat)
  | builtin (this : Nat) (name : String) (fn : Nat)
  | object (ref : Nat)
  | array (ref : Nat)
  | constructor (ref : Nat)
  deriving DecidableEq, Repr

/-- The field `Type` of a `Value`. -/
def Value.Type : Value → ValueType
  | .nil => .vtNil
  | .boolean _ => .vtBoolean
  | .number _ => .vtNumber
  | .string _ => .vtString
  | .variable _ => .vtVariable
  | .function _ _ => .vtFunction
  | .builtin _ _ _ => .vtBuiltin
  | .object _ => .vtObject
  | .array _ => .vtArray
  | .constructor _ => .vtConstructor

/-- Modelled from the spec: the error kinds of the taxonomy (§7); the error
constructors (`NewTypeError`, `NewSyntaxError`, `NewNotAssignableError`,
`NewNotIndexableError`, `NewKeyTypeError`, `NewNotCallableError`) are called
but not declared in `expression.go`.  `goPanic` is a Go `panic` that carries
no structured error: a plain string, or a run-time error of the Go runtime. -/
inductive Error where
  | TypeError (msg : String)
  | SyntaxError (msg : String)
  | NotAssignableError (v : Value)
  | NotIndexableError (v : Value)
  | KeyTypeError (key : Value)
  | NotCallableError (v : Value)
  | NameResolutionError (name : String)
  | DivideByZeroError
  | goPanic (msg : String)
  deriving DecidableEq, Repr

/-- The operators that `expression.go` names.  The declaration of `TokenType`
for this package is not among the sources; every token type that
`expression.go` does not name is `other`. -/
inductive TokenType where
  | ttAddition
  | ttSubtraction
  | ttMultiply
  | ttDivision
  | ttGreaterThan
  | ttGreaterThanOrEqual
  | ttLessThan
  | ttLessThanOrEqual
  | ttEqual
  | ttNotEqual
  | ttPercent
  | ttStarStar
  | ttLeftShift
  | ttRightShift
  | ttBitAnd
  | ttBitOr
  | ttBitXor
  | ttBitAndNot
  | ttLogicalAnd
  | ttLogicalOr
  | ttLogicalNot
  | ttIncrement
  | ttDecrement
  | other (code : Nat)
  deriving DecidableEq, Repr

/-- A `*Context`: the address of a context in the state of the world. -/
abbrev ContextPtr := Nat

/-! ## Evaluations -/

/-- An evaluation over a world `σ`: it returns a value or raises, and leaves
the world in a new state either way. -/
structure Eval (σ : Type) (α : Type) where
  run : σ → Except Error α × σ

/-- Return without any effect. -/
def Eval.ret {σ α : Type} (a : α) : Eval σ α := ⟨fun s => (.ok a, s)⟩

/-- Sequencing: a panic of the first evaluation skips the second. -/
def Eval.andThen {σ α β : Type} (m : Eval σ α) (f : α → Eval σ β) : Eval σ β :=
  ⟨fun s =>
    match m.run s with
    | (.ok a, s1) => (f a).run s1
    | (.error e, s1) => (.error e, s1)⟩

/-- A Go `panic` with the given error. -/
def Eval.raise {σ α : Type} (e : Error) : Eval σ α := ⟨fun s => (.error e, s)⟩

instance {σ : Type} : Monad (Eval σ) where
  pure := Eval.ret
  bind := Eval.andThen

instance {α : Type} [DecidableEq α] : DecidableEq (Except Error α)
  | .ok a, .ok b => if h : a = b then isTrue (by rw [h]) else isFalse (by simp [h])
  | .error e, .error f => if h : e = f then isTrue (by rw [h]) else isFalse (by simp [h])
  | .ok _, .error _ => isFalse (by simp)
  | .error _, .ok _ => isFalse (by simp)

/-- A pure computation that returns or panics. -/
def Eval.lift {σ α : Type} : Except Error α → Eval σ α
  | .ok a => Eval.ret a
  | .error e => Eval.raise e

/-! ## Expressions -/

/-- The interface `Expression`, with the outcome of the type assertion
`expr.(Assigner)`: `Assigner` is `some` of the node's `Assign` method when the
node implements the interface `Assigner`, and `none` otherwise. -/
structure Expression (σ : Type) where
  Evaluate : ContextPtr → Eval σ Value
  Assigner : Option (ContextPtr → Value → Eval σ Unit)

/-- The interface `IObject` as `expression.go` uses it. -/
structure IObject (σ : Type) where
  GetProp : String → Eval σ Value
  SetProp : String → Value → Eval σ Unit

/-- The interface `IArray` as `expression.go` uses it. -/
structure IArray (σ : Type) where
  GetElem : Int → Eval σ Value
  SetElem : Int → Value → Eval σ Unit

/-- What `expression.go` takes from the rest of the package and from the Go
library: `Truth` is `Value.Truth(ctx)`; `asIObject` and `asIArray` are the
type assertions `value.(IObject)` and `value.(IArray)`, `none` when the
assertion fails (the interface value is then `nil`); `pow a b` is
`int(math.Pow(float64(a), float64(b)))`. -/
structure Runtime (σ : Type) where
  Truth : Value → ContextPtr → σ → Bool
  asIObject : Value → Option (IObject σ)
  asIArray : Value → Option (IArray σ)
  pow : Int → Int → Int

/-- Source: `value.Truth(ctx)`, which reads the world and changes nothing. -/
def Runtime.truth {σ : Type} (rt : Runtime σ) (v : Value) (ctx : ContextPtr) : Eval σ Bool :=
  ⟨fun s => (.ok (rt.Truth v ctx s), s)⟩

/-! ## Fixed-width integers -/

/-- The least `int`. -/
def minInt : Int := -(2 ^ 63)

/-- The greatest `int`. -/
def maxInt : Int := 2 ^ 63 - 1

/-- An integer that an `int` can hold. -/
def IsInt (z : Int) : Prop := minInt ≤ z ∧ z ≤ maxInt

instance (z : Int) : Decidable (IsInt z) := by
  unfold IsInt
  exact inferInstance

/-- Two's-complement reduction of a mathematical integer to an `int`. -/
def wrapInt (z : Int) : Int := (z + 2 ^ 63) % 2 ^ 64 - 2 ^ 63

/-- Conversion `uint(x)` of an `int`. -/
def toUint (x : Int) : Nat := (x % 2 ^ 64).toNat

/-- Go's `x / y` on `int` for `y ≠ 0`: the quotient truncated toward zero,
reduced to the width (`minInt / -1` overflows to `minInt`). -/
def goDiv (x y : Int) : Int := wrapInt (Int.tdiv x y)

/-- Go's `x % y` on `int` for `y ≠ 0`: the remainder of the truncated
division. -/
def goRem (x y : Int) : Int := Int.tmod x y

/-- Go's `x << k` on `int` with an unsigned count. -/
def goShl (x : Int) (k : Nat) : Int := if 64 ≤ k then 0 else wrapInt (x * 2 ^ k)

/-- Go's `x >> k` on `int` with an unsigned count: the arithmetic shift. -/
def goShr (x : Int) (k : Nat) : Int :=
  if 64 ≤ k then (if x < 0 then -1 else 0) else x / 2 ^ k

/-! ## Binary expressions -/

/-- Source: `BinaryExpression`. -/
structure BinaryExpression (σ : Type) where
  left : Expression σ
  op : TokenType
  right : Expression σ

/-- Source: `BinaryExpression.Evaluate`, lines 129-135, the block guarded by
`lt == vtNil && rt == vtNil`; `none` when control leaves the block without
returning. -/
def nilBlock (op : TokenType) (lv rv : Value) : Option Value :=
  if lv.Type = .vtNil ∧ rv.Type = .vtNil then
    if op = .ttEqual then some (.boolean true)
    else if op = .ttNotEqual then some (.boolean false)
    else none
  else none

/-- Source: `BinaryExpression.Evaluate`, lines 137-144, the block guarded by
`lt == vtBoolean && rt == vtBoolean`. -/
def booleanBlock (op : TokenType) (lv rv : Value) : Option Value :=
  match lv, rv with
  | .boolean x, .boolean y =>
    match op with
    | .ttEqual => some (.boolean (x == y))
    | .ttNotEqual => some (.boolean (x != y))
    | _ => none
  | _, _ => none

/-- Source: `BinaryExpression.Evaluate`, lines 146-191, the block guarded by
`lt == vtNumber && rt == vtNumber`.  The division panics on a zero divisor
with the error the source constructs; the remainder has no such check and a
zero divisor stops the Go runtime. -/
def numberBlock (pow : Int → Int → Int) (op : TokenType) (lv rv : Value) :
    Option (Except Error Value) :=
  match lv, rv with
  | .number x, .number y =>
    match op with
    | .ttAddition => some (.ok (.number (wrapInt (x + y))))
    | .ttSubtraction => some (.ok (.number (wrapInt (x - y))))
    | .ttMultiply => some (.ok (.number (wrapInt (x * y))))
    | .ttDivision =>
      if y = 0 then some (.error (.TypeError "divide by zero"))
      else some (.ok (.number (goDiv x y)))
    | .ttGreaterThan => some (.ok (.boolean (decide (x > y))))
    | .ttGreaterThanOrEqual => some (.ok (.boolean (decide (x ≥ y))))
    | .ttLessThan => some (.ok (.boolean (decide (x < y))))
    | .ttLessThanOrEqual => some (.ok (.boolean (decide (x ≤ y))))
    | .ttEqual => some (.ok (.boolean (decide (x = y))))
    | .ttNotEqual => some (.ok (.boolean (decide (x ≠ y))))
    | .ttPercent =>
      if y = 0 then some (.error (.goPanic "runtime error: integer divide by zero"))
      else some (.ok (.number (goRem x y)))
    | .ttStarStar => some (.ok (.number (pow x y)))
    | .ttLeftShift => some (.ok (.number (goShl x (toUint y))))
    | .ttRightShift => some (.ok (.number (goShr x (toUint y))))
    | .ttBitAnd => some (.ok (.number (Int.land x y)))
    | .ttBitOr => some (.ok (.number (Int.lor x y)))
    | .ttBitXor => some (.ok (.number (Int.xor x y)))
    | .ttBitAndNot => some (.ok (.number (Int.ldiff x y)))
    | _ => none
  | _, _ => none

/-- Source: `BinaryExpression.Evaluate`, lines 193-204, the block guarded by
`lt == vtString && rt == vtString`; its `switch` has a `default` that panics,
so control never leaves the block on two strings. -/
def stringBlock (op : TokenType) (lv rv : Value) : Option (Except Error Value) :=
  match lv, rv with
  | .string x, .string y =>
    match op with
    | .ttAddition => some (.ok (.string (x ++ y)))
    | .ttEqual => some (.ok (.boolean (decide (x = y))))
    | .ttNotEqual => some (.ok (.boolean (decide (x ≠ y))))
    | _ => some (.error (.SyntaxError "not supported operator on two strings"))
  | _, _ => none

/-- Source: `BinaryExpression.Evaluate`, lines 219-230, the block guarded by
`lt == vtBuiltin && rt == vtBuiltin`: the two native functions are compared
by identity. -/
def builtinBlock (op : TokenType) (lv rv : Value) : Option (Except Error Value) :=
  match lv, rv with
  | .builtin _ _ p1, .builtin _ _ p2 =>
    match op with
    | .ttEqual => some (.ok (.boolean (decide (p1 = p2))))
    | .ttNotEqual => some (.ok (.boolean (decide (p1 ≠ p2))))
    | _ => some (.error (.SyntaxError "not supported operator on two builtins"))
  | _, _ => none

/-- Source: `BinaryExpression.Evaluate`, lines 206-217: the logical operators,
which evaluate their operands themselves. -/
def logicalBlock {σ : Type} (rt : Runtime σ) (b : BinaryExpression σ) (ctx : ContextPtr) :
    Option (Eval σ Value) :=
  if b.op = .ttLogicalAnd then
    some (do
      let l ← b.left.Evaluate ctx
      let lt ← rt.truth l ctx
      if lt then do
        let r ← b.right.Evaluate ctx
        let rtv ← rt.truth r ctx
        pure (.boolean rtv)
      else pure (.boolean false))
  else if b.op = .ttLogicalOr then
    some (do
      let lv ← b.left.Evaluate ctx
      let lt ← rt.truth lv ctx
      if lt then pure lv
      else b.right.Evaluate ctx)
  else none

/-- Source: `BinaryExpression.Evaluate`, lines 118-125: both operands are
evaluated, left first, unless the operator is logical; `lv` and `rv` are
otherwise the zero `Value`, which is `Nil`. -/
def BinaryExpression.operands {σ : Type} (b : BinaryExpression σ) (ctx : ContextPtr) :
    Eval σ (Value × Value) :=
  if b.op ≠ .ttLogicalAnd ∧ b.op ≠ .ttLogicalOr then do
    let lv ← b.left.Evaluate ctx
    let rv ← b.right.Evaluate ctx
    pure (lv, rv)
  else pure (Value.nil, Value.nil)

/-- Source: `BinaryExpression.Evaluate`, lines 127-232: the blocks in the
order of the source, each entered when the one before it did not return. -/
def BinaryExpression.dispatch {σ : Type} (rt : Runtime σ) (b : BinaryExpression σ)
    (ctx : ContextPtr) (lv rv : Value) : Eval σ Value :=
  match nilBlock b.op lv rv with
  | some v => pure v
  | none =>
  match booleanBlock b.op lv rv with
  | some v => pure v
  | none =>
  match numberBlock rt.pow b.op lv rv with
  | some r => Eval.lift r
  | none =>
  match stringBlock b.op lv rv with
  | some r => Eval.lift r
  | none =>
  match logicalBlock rt b ctx with
  | some m => m
  | none =>
  match builtinBlock b.op lv rv with
  | some r => Eval.lift r
  | none => Eval.raise (.SyntaxError "unknown binary operator and operands")

/-- Source: `BinaryExpression.Evaluate`. -/
def BinaryExpression.Evaluate {σ : Type} (rt : Runtime σ) (b : BinaryExpression σ)
    (ctx : ContextPtr) : Eval σ Value := do
  let (lv, rv) ← b.operands ctx
  b.dispatch rt ctx lv rv

/-- A binary expression as an `Expression`: it has no `Assign` method. -/
def BinaryExpression.toExpression {σ : Type} (rt : Runtime σ) (b : BinaryExpression σ) :
    Expression σ :=
  { Evaluate := b.Evaluate rt, Assigner := none }

/-! ## Increment and decrement -/

/-- Source: `IncrementDecrementExpression`; `pre` is the field `prefix`. -/
structure IncrementDecrementExpression (σ : Type) where
  pre : Bool
  op : TokenType
  expr : Expression σ

/-- Source: `IncrementDecrementExpression.Evaluate`, lines 81-89: the new
number, or `none` where the `switch` reaches its `default`. -/
def newnum (op : TokenType) (old : Int) : Option Int :=
  match op with
  | .ttIncrement => some (wrapInt (old + 1))
  | .ttDecrement => some (wrapInt (old - 1))
  | _ => none

/-- Source: `IncrementDecrementExpression.Evaluate`. -/
def IncrementDecrementExpression.Evaluate {σ : Type} (i : IncrementDecrementExpression σ)
    (ctx : ContextPtr) : Eval σ Value := do
  let oldval ← i.expr.Evaluate ctx
  match oldval with
  | .number old =>
    match i.expr.Assigner with
    | none => Eval.raise (.NotAssignableError oldval)
    | some assign =>
      match newnum i.op old with
      | none => Eval.raise (.goPanic "won't go here")
      | some n => do
        let newval := Value.number n
        assign ctx newval
        if i.pre then pure newval else pure oldval
  | _ => Eval.raise (.NotAssignableError oldval)

/-! ## Assignment -/

/-- Source: `AssignmentExpression`. -/
structure AssignmentExpression (σ : Type) where
  left : Expression σ
  right : Expression σ

/-- Source: `AssignmentExpression.Evaluate`. -/
def AssignmentExpression.Evaluate {σ : Type} (a : AssignmentExpression σ)
    (ctx : ContextPtr) : Eval σ Value :=
  match a.left.Assigner with
  | none => do
    let val ← a.left.Evaluate ctx
    Eval.raise (.NotAssignableError val)
  | some assign => do
    let value ← a.right.Evaluate ctx
    assign ctx value
    pure value

/-! ## Indexing -/

/-- Source: `IndexExpression`. -/
structure IndexExpression (σ : Type) where
  indexable : Expression σ
  key : Expression σ

/-- Source: `IndexExpression.Evaluate`, lines 426-447, once the key and the
indexed value are known; `obj` and `arr` are the results of the two type
assertions. -/
def indexRead {σ : Type} (obj : Option (IObject σ)) (arr : Option (IArray σ))
    (indexable key : Value) : Eval σ Value :=
  match key, obj with
  | .string name, some o => o.GetProp name
  | _, _ =>
  match key, arr with
  | .number n, some a => a.GetElem n
  | _, _ =>
  if obj.isNone ∧ arr.isNone then Eval.raise (.NotIndexableError indexable)
  else if obj.isSome ∧ key.Type ≠ .vtString then Eval.raise (.KeyTypeError key)
  else if arr.isSome ∧ key.Type ≠ .vtNumber then Eval.raise (.KeyTypeError key)
  else Eval.raise (.goPanic "won't go here")

/-- Source: `IndexExpression.Evaluate`: the key is evaluated before the
indexed value. -/
def IndexExpression.Evaluate {σ : Type} (rt : Runtime σ) (i : IndexExpression σ)
    (ctx : ContextPtr) : Eval σ Value := do
  let key ← i.key.Evaluate ctx
  let indexable ← i.indexable.Evaluate ctx
  indexRead (rt.asIObject indexable) (rt.asIArray indexable) indexable key

/-- Source: `IndexExpression.Assign`, lines 459-467, once the key is known. -/
def indexWrite {σ : Type} (obj : Option (IObject σ)) (arr : Option (IArray σ))
    (key val : Value) : Eval σ Unit :=
  match key, obj with
  | .string name, some o => o.SetProp name val
  | _, _ =>
  match key, arr with
  | .number n, some a => a.SetElem n val
  | _, _ => Eval.raise (.KeyTypeError key)

/-- Source: `IndexExpression.Assign`: the indexed value is evaluated first,
and the key only when one of the two type assertions succeeds. -/
def IndexExpression.Assign {σ : Type} (rt : Runtime σ) (i : IndexExpression σ)
    (ctx : ContextPtr) (val : Value) : Eval σ Unit := do
  let value ← i.indexable.Evaluate ctx
  let obj := rt.asIObject value
  let arr := rt.asIArray value
  if obj.isNone ∧ arr.isNone then Eval.raise (.NotAssignableError value)
  else do
    let key ← i.key.Evaluate ctx
    indexWrite obj arr key val

/-- An index expression as an `Expression`: it implements `Assigner`. -/
def IndexExpression.toExpression {σ : Type} (rt : Runtime σ) (i : IndexExpression σ) :
    Expression σ :=
  { Evaluate := i.Evaluate rt, Assigner := some (i.Assign rt) }

/-! ## Parameters -/

/-- Source: `Parameters`. -/
structure Parameters where
  names : List String

/-- Source: `Parameters.BindArguments`, the body of the loop from position
`index` on: a parameter without an argument is bound to the zero `Value`,
which is `Nil`.  `AddSymbol` is `Context.AddSymbol`, which is not declared in
`expression.go`. -/
def bindFrom {σ : Type} (AddSymbol : ContextPtr → String → Value → Eval σ Unit)
    (ctx : ContextPtr) (args : List Value) : Nat → List String → Eval σ Unit
  | _, [] => pure ()
  | index, name :: rest => do
    let arg := if index < args.length then args.getD index .nil else .nil
    AddSymbol ctx name arg
    bindFrom AddSymbol ctx args (index + 1) rest

/-- Source: `Parameters.BindArguments`. -/
def Parameters.BindArguments {σ : Type}
    (AddSymbol : ContextPtr → String → Value → Eval σ Unit) (p : Parameters)
    (ctx : ContextPtr) (args : List Value) : Eval σ Unit :=
  bindFrom AddSymbol ctx args 0 p.names

/-! ## The table of pairings of the specification -/

/-- The defined pairings of operand kinds and operators, in the words of the
specification (§4.2): "`Nil×Nil` (equality only), `Boolean×Boolean` (equality
only), `Number×Number` (+, −, ×, ÷, comparisons, equality, modulo, power,
shifts, bitwise and/or/xor/and-not), `String×String` (concatenation, equality
only), `Builtin×Builtin` (equality/inequality by native-function identity
only)". -/
def definedPairing (op : TokenType) (lt rt : ValueType) : Bool :=
  match lt, rt with
  | .vtNil, .vtNil => decide (op ∈ [TokenType.ttEqual, .ttNotEqual])
  | .vtBoolean, .vtBoolean => decide (op ∈ [TokenType.ttEqual, .ttNotEqual])
  | .vtNumber, .vtNumber =>
    decide (op ∈ [TokenType.ttAddition, .ttSubtraction, .ttMultiply, .ttDivision,
      .ttGreaterThan, .ttGreaterThanOrEqual, .ttLessThan, .ttLessThanOrEqual,
      .ttEqual, .ttNotEqual, .ttPercent, .ttStarStar, .ttLeftShift, .ttRightShift,
      .ttBitAnd, .ttBitOr, .ttBitXor, .ttBitAndNot])
  | .vtString, .vtString => decide (op ∈ [TokenType.ttAddition, .ttEqual, .ttNotEqual])
  | .vtBuiltin, .vtBuiltin => decide (op ∈ [TokenType.ttEqual, .ttNotEqual])
  | _, _ => false

/-! ## A concrete world

The theorems below hold for every world and every runtime.  To run the
evaluator on concrete programs, this section gives one world: a root context,
and a heap of objects and arrays. -/

/-- Modelled from the spec: a root `Context` (§3, "mapping from identifier to
Value") together with the heap of `Object` values ("props: mapping name→Value")
and of `Array` values ("elems: ordered sequence of Value"), each by address. -/
structure World where
  symbols : List (String × Value)
  objects : List (Nat × List (String × Value))
  arrays : List (Nat × List Value)
  deriving DecidableEq, Repr

/-- Binding of a key in an association list, replacing an earlier binding. -/
def putKey {κ β : Type} [DecidableEq κ] (k : κ) (v : β) : List (κ × β) → List (κ × β)
  | [] => [(k, v)]
  | (k1, v1) :: rest => if k1 = k then (k, v) :: rest else (k1, v1) :: putKey k v rest

/-- Modelled from the spec: truthiness (§4.1): "Nil is false; Boolean is its
own value; Number is true iff nonzero; String is true iff non-empty; Object,
Array, Function, Builtin are always true".  The table is silent on the two
remaining kinds, taken as true here. -/
def specTruth : Value → Bool
  | .nil => false
  | .boolean b => b
  | .number n => decide (n ≠ 0)
  | .string s => decide (s ≠ "")
  | _ => true

/-- Modelled from the spec: an `Object` of the heap with the name capability;
a property that is absent reads as `Nil`. -/
def objectAt (ref : Nat) : IObject World where
  GetProp name := ⟨fun w =>
    match (w.objects.lookup ref).bind (fun props => props.lookup name) with
    | some v => (.ok v, w)
    | none => (.ok .nil, w)⟩
  SetProp name val := ⟨fun w =>
    let props := putKey name val ((w.objects.lookup ref).getD [])
    (.ok (), { w with objects := putKey ref props w.objects })⟩

/-- Modelled from the spec: an `Array` of the heap with the number capability;
an index outside the sequence stops the Go runtime. -/
def arrayAt (ref : Nat) : IArray World where
  GetElem n := ⟨fun w =>
    match (w.arrays.lookup ref).bind (fun elems => elems.get? n.toNat) with
    | some v => if 0 ≤ n then (.ok v, w) else (.error (.goPanic "index out of range"), w)
    | none => (.error (.goPanic "index out of range"), w)⟩
  SetElem n val := ⟨fun w =>
    match w.arrays.lookup ref with
    | some elems =>
      if 0 ≤ n ∧ n.toNat < elems.length then
        (.ok (), { w with arrays := putKey ref (elems.set n.toNat val) w.arrays })
      else (.error (.goPanic "index out of range"), w)
    | none => (.error (.goPanic "index out of range"), w)⟩

/-- Source: `int(math.Pow(float64(a), float64(b)))` (`expression.go`, lines
176-177), on the operands where the computation in `float64` is exact: with
`a`, `b` and the power within `2^53` in absolute value.  A negative exponent
gives a float of absolute value at most `1`, which truncates to `0` unless the
base is `1` or `-1`.  Elsewhere (a power beyond `2^53`, which the float rounds
and, beyond the `int`, the platform converts as it decides, and `0` to a
negative exponent, which is `+Inf`) the value here stands for one that these
sources do not fix. -/
def smallPow (a b : Int) : Int :=
  if b < 0 then
    if a = 1 then 1
    else if a = -1 then (if b % 2 = 0 then 1 else -1)
    else 0
  else wrapInt (a ^ b.toNat)

/-- The runtime of the concrete world: objects have the name capability,
arrays the number capability, no other value has either; exponentiation is
`smallPow`. -/
def worldRuntime : Runtime World where
  Truth v _ _ := specTruth v
  asIObject v := match v with
    | .object ref => some (objectAt ref)
    | _ => none
  asIArray v := match v with
    | .array ref => some (arrayAt ref)
    | _ => none
  pow := smallPow

/-- A literal: it evaluates to its value without any effect, and is not
assignable. -/
def literal {σ : Type} (v : Value) : Expression σ :=
  { Evaluate := fun _ => Eval.ret v, Assigner := none }

/-- Modelled from the spec: a variable reference (§2, §3): evaluating it looks
the name up and fails with a name-resolution error when no scope defines it;
it is assignable, and assigning binds the name. -/
def variableRef (name : String) : Expression World :=
  { Evaluate := fun _ => ⟨fun w =>
      match w.symbols.lookup name with
      | some v => (.ok v, w)
      | none => (.error (.NameResolutionError name), w)⟩
    Assigner := some (fun _ val =>
      ⟨fun w => (.ok (), { w with symbols := putKey name val w.symbols })⟩) }

/-- Modelled from the spec: `Context.AddSymbol` on the root context of the
concrete world: it binds the name (§4.2, "bound parameters are written directly
into this per-call Context"). -/
def addSymbol (_ : ContextPtr) (name : String) (val : Value) : Eval World Unit :=
  ⟨fun w => (.ok (), { w with symbols := putKey name val w.symbols })⟩

/-- The world in which nothing is defined. -/
def emptyWorld : World := ⟨[], [], []⟩

/-- A world with a heap: the object at address `1` has the
property `k`, the array at address `2` has two elements. -/
def indexWorld : World :=
  ⟨[], [(1, [("k", .number 7)])], [(2, [.string "a", .string "b"])]⟩

/-- An increment or decrement expression as an `Expression`; it has no
`Assign` method. -/
def IncrementDecrementExpression.toExpression {σ : Type}
    (i : IncrementDecrementExpression σ) : Expression σ :=
  { Evaluate := i.Evaluate, Assigner := none }

/-- An assignment expression as an `Expression`; it has no `Assign` method. -/
def AssignmentExpression.toExpression {σ : Type} (a : AssignmentExpression σ) :
    Expression σ :=
  { Evaluate := a.Evaluate, Assigner := none }

/-! ## Contexts, promises and the machine

The statements, the call protocol and the promises act on contexts and on
promises that live on a heap.  `Context`, the task queue and the heap are
modelled from the specification; the functions that act on them are
translated from the sources. -/

/-- Modelled from the spec: a `Context` (§3): "mapping from identifier to
Value, an optional parent reference, and call-local flags `hasReturned`,
`returnValue`"; the fields are named as `expression.go` reads them. -/
structure Context where
  name : String
  parent : Option ContextPtr
  symbols : List (String × Value)
  hasret : Bool
  retval : Value
  deriving DecidableEq, Repr

/-- Source: `Promise` (`class_promise.go`): the two handlers, the two
settlement values (pointers, absent until set), the derived promise and the
forward target (pointers to promises). -/
structure Promise where
  resolvedFunc : Value
  rejectedFunc : Value
  resolvedValue : Option Value
  rejectedValue : Option Value
  thenPromise : Option Nat
  toPromise : Option Nat
  deriving DecidableEq, Repr

/-- Source: `&Promise{}`, the promise whose fields are all zero. -/
def Promise.zero : Promise := ⟨.nil, .nil, none, none, none, none⟩

/-- A cell of the heap of objects: a promise, or an object of another type. -/
inductive Cell where
  | promise (p : Promise)
  | object (props : List (String × Value))
  deriving DecidableEq, Repr

/-- The continuations that `class_promise.go` hands to `Async`:
`func() { p.invokeResolver() }` and `func() { p.invokeRejecter() }`. -/
inductive Task where
  | invokeResolver (p : Nat)
  | invokeRejecter (p : Nat)
  deriving DecidableEq, Repr

/-- The state of the machine: the contexts by address, the heap of objects by
address, the task queue (§6, "FIFO"), and the field `value` of the
`ReturnStatement` nodes by the address of the node. -/
structure Machine where
  contexts : List Context
  heap : List Cell
  queue : List Task
  returned : List (Nat × Value)
  deriving DecidableEq, Repr

/-- The message of the Go runtime when a `nil` pointer or interface is
dereferenced. -/
def nilDereference : Error :=
  .goPanic "runtime error: invalid memory address or nil pointer dereference"

/-- The context at an address. -/
def Machine.context (ctx : ContextPtr) : Eval Machine Context :=
  ⟨fun m =>
    match m.contexts.get? ctx with
    | some c => (.ok c, m)
    | none => (.error nilDereference, m)⟩

/-- Replacement of the context at an address. -/
def Machine.setContext (m : Machine) (ctx : ContextPtr) (c : Context) : Machine :=
  { m with contexts := m.contexts.set ctx c }

/-- Modelled from the spec: `NewContext(name, parent)`: a context with no
symbol, not returned, at a fresh address. -/
def Machine.NewContext (name : String) (parent : Option ContextPtr) :
    Eval Machine ContextPtr :=
  ⟨fun m => (.ok m.contexts.length,
    { m with contexts := m.contexts ++ [⟨name, parent, [], false, .nil⟩] })⟩

/-- Modelled from the spec: `Context.AddSymbol(name, value)` (`AddValue` in
`statement.go`): it binds the name in this context; "redefinition in the same
Context silently shadows/overwrites (no error)" (§4.3). -/
def Machine.AddSymbol (ctx : ContextPtr) (name : String) (val : Value) :
    Eval Machine Unit :=
  ⟨fun m =>
    match m.contexts.get? ctx with
    | some c => (.ok (), m.setContext ctx { c with symbols := putKey name val c.symbols })
    | none => (.error nilDereference, m)⟩

/-- Modelled from the spec: `Context.SetParent(parent)`. -/
def Machine.SetParent (ctx : ContextPtr) (parent : ContextPtr) : Eval Machine Unit :=
  ⟨fun m =>
    match m.contexts.get? ctx with
    | some c => (.ok (), m.setContext ctx { c with parent := some parent })
    | none => (.error nilDereference, m)⟩

/-- The chain of a context: the context, its parent, the parent of its parent,
and so on, for at most `fuel` links. -/
def Machine.chain (m : Machine) : Nat → ContextPtr → List ContextPtr
  | 0, _ => []
  | fuel + 1, ctx =>
    match m.contexts.get? ctx with
    | none => []
    | some c =>
      match c.parent with
      | none => [ctx]
      | some p => ctx :: m.chain fuel p

/-- Modelled from the spec: the lookup of a name (§3): it "walks the parent
chain outward", here for at most `fuel` links; `none` when no scope of the
chain defines the name. -/
def Machine.find (m : Machine) (name : String) : Nat → ContextPtr → Option Value
  | 0, _ => none
  | fuel + 1, ctx =>
    match m.contexts.get? ctx with
    | none => none
    | some c =>
      match c.symbols.lookup name with
      | some v => some v
      | none =>
        match c.parent with
        | none => none
        | some p => m.find name fuel p

/-- The pairs that `BindArguments` binds from position `index` on: each
parameter with the argument at its position, or with `Nil` when there is
none. -/
def paired (args : List Value) : Nat → List String → List (String × Value)
  | _, [] => []
  | index, name :: rest => (name, args.getD index .nil) :: paired args (index + 1) rest

/-! ## Statements -/

/-- Source: `VariableDefinitionStatement` (`statement.go`).  `Expr` is an
interface: it is `nil`, here `none`, when the parser met no initializer
(`parseVariableDefinitionStatement` sets it only after a `ttAssign`). -/
structure VariableDefinitionStatement where
  Name : String
  Expr : Option (Expression Machine)

/-- Source: `VariableDefinitionStatement.Execute`: the call of `Evaluate` on
a `nil` interface stops the Go runtime before `AddValue` is entered. -/
def VariableDefinitionStatement.Execute (v : VariableDefinitionStatement)
    (ctx : ContextPtr) : Eval Machine Unit :=
  match v.Expr with
  | none => Eval.raise nilDereference
  | some expr => do
    let value ← expr.Evaluate ctx
    Machine.AddSymbol ctx v.Name value

/-- Source: `FunctionDefinitionStatement` (`statement.go`); `expr` is the
address of the `FunctionDefinitionExpression`. -/
structure FunctionDefinitionStatement where
  name : String
  expr : Nat

/-- Source: `FunctionDefinitionStatement.Execute`.  `ValueFromFunction` is the
constructor `ValueFromFunction(name, expr)` of `statement.go`'s package, which
is not among the sources: it receives the name and the expression, and not the
context. -/
def FunctionDefinitionStatement.Execute (ValueFromFunction : String → Nat → Value)
    (f : FunctionDefinitionStatement) (ctx : ContextPtr) : Eval Machine Unit :=
  Machine.AddSymbol ctx f.name (ValueFromFunction f.name f.expr)

/-- Source: `ReturnStatement` (`statement.go`); `addr` is the address of the
node, under which the machine keeps its field `value`. -/
structure ReturnStatement where
  addr : Nat
  expr : Option (Expression Machine)

/-- Source: `ReturnStatement.Execute`: `r.value = r.expr.Evaluate(ctx)`. -/
def ReturnStatement.Execute (r : ReturnStatement) (ctx : ContextPtr) : Eval Machine Unit :=
  match r.expr with
  | none => Eval.raise nilDereference
  | some expr => do
    let value ← expr.Evaluate ctx
    ⟨fun m => (.ok (), { m with returned := putKey r.addr value m.returned })⟩

/-- Modelled from the spec: `BlockStatement.Execute` (§4.3): "A block executing
statements must check `hasReturned` after every statement and stop early once
set".  A statement is given by its `Execute`; the statements of the body of a
function run in the context of the call, the one whose flags
`FunctionExpression.Execute` reads after the body. -/
def BlockStatement.Execute (ctx : ContextPtr) :
    List (ContextPtr → Eval Machine Unit) → Eval Machine Unit
  | [] => pure ()
  | stmt :: rest => do
    stmt ctx
    let c ← Machine.context ctx
    if c.hasret then pure () else BlockStatement.Execute ctx rest

/-! ## Functions and calls -/

/-- Source: `FunctionExpression` (`expression.go`); `addr` is the address of
the node, and `body` is `f.body.Execute`, the execution of its
`BlockStatement`, which is not among the sources. -/
structure FunctionExpression where
  addr : Nat
  name : String
  params : Parameters
  body : ContextPtr → Eval Machine Unit

/-- Modelled from the spec: `ValueFromFunction(f, ctx)` of `expression.go`'s
package: the `Function` value of §3, "closure: captured-Context, body". -/
def ValueFromFunction (f : FunctionExpression) (ctx : ContextPtr) : Value :=
  .function ctx f.addr

/-- Source: `FunctionExpression.Evaluate`. -/
def FunctionExpression.Evaluate (f : FunctionExpression) (ctx : ContextPtr) :
    Eval Machine Value := do
  let value := ValueFromFunction f ctx
  if f.name ≠ "" then
    Machine.AddSymbol ctx f.name value
  pure value

/-- Source: `FunctionExpression.Execute`. -/
def FunctionExpression.Execute (f : FunctionExpression) (ctx : ContextPtr)
    (args : List Value) : Eval Machine Value := do
  f.params.BindArguments Machine.AddSymbol ctx args
  f.body ctx
  let c ← Machine.context ctx
  if c.hasret then pure c.retval else pure .nil

/-- Source: `EvaluatedFunctionExpression`. -/
structure EvaluatedFunctionExpression where
  this : ContextPtr
  fn : FunctionExpression

/-- Source: `EvaluatedFunctionExpression.Execute`. -/
def EvaluatedFunctionExpression.Execute (e : EvaluatedFunctionExpression)
    (ctx : ContextPtr) (args : List Value) : Eval Machine Value := do
  Machine.SetParent ctx e.this
  e.fn.Execute ctx args

/-- What the call protocol takes from the rest of the package: `ValueEvaluate`
is `Value.Evaluate(ctx)`, by which a value stands as an expression;
`callable v` is `v.callable().Execute` when `v.isCallable()`, and `none`
otherwise. -/
structure CallRuntime where
  ValueEvaluate : Value → ContextPtr → Eval Machine Value
  callable : Value → Option (ContextPtr → List Value → Eval Machine Value)

/-- Source: `Arguments.EvaluateAll`: the arguments are evaluated from left to
right. -/
def EvaluateAll (ctx : ContextPtr) : List (Expression Machine) → Eval Machine (List Value)
  | [] => pure []
  | expr :: rest => do
    let value ← expr.Evaluate ctx
    let values ← EvaluateAll ctx rest
    pure (value :: values)

/-- Source: `CallExpression`. -/
structure CallExpression where
  Callable : Expression Machine
  Args : List (Expression Machine)

/-- Source: `CallExpression.Evaluate`. -/
def CallExpression.Evaluate (rt : CallRuntime) (f : CallExpression) (ctx : ContextPtr) :
    Eval Machine Value := do
  let callable ← f.Callable.Evaluate ctx
  let callable ←
    if callable.Type = .vtVariable then rt.ValueEvaluate callable ctx else pure callable
  match rt.callable callable with
  | some execute => do
    let newCtx ← Machine.NewContext "" none
    let args ← EvaluateAll ctx f.Args
    execute newCtx args
  | none => Eval.raise (.NotCallableError callable)

/-- Source: `CallFunc`. -/
def CallFunc (rt : CallRuntime) (ctx : ContextPtr) (callable : Expression Machine)
    (args : List (Expression Machine)) : Eval Machine Value :=
  CallExpression.Evaluate rt ⟨callable, args⟩ ctx

/-- A `Value` standing as an `Expression`. -/
def valueExpression (rt : CallRuntime) (v : Value) : Expression Machine :=
  { Evaluate := rt.ValueEvaluate v, Assigner := none }

/-- A `*Value` standing as an `Expression`; evaluating the `nil` pointer stops
the Go runtime. -/
def pointerExpression (rt : CallRuntime) : Option Value → Expression Machine
  | some v => valueExpression rt v
  | none => { Evaluate := fun _ => Eval.raise nilDereference, Assigner := none }

/-! ## Promises -/

/-- The promise at an address of the heap; an address that holds no promise
is dereferenced as a `nil` pointer is. -/
def Machine.promise (p : Nat) : Eval Machine Promise :=
  ⟨fun m =>
    match m.heap.get? p with
    | some (.promise pr) => (.ok pr, m)
    | _ => (.error nilDereference, m)⟩

/-- Replacement of the promise at an address. -/
def Machine.setPromise (m : Machine) (p : Nat) (pr : Promise) : Machine :=
  { m with heap := m.heap.set p (.promise pr) }

/-- An assignment to fields of the promise at an address. -/
def Machine.updatePromise (p : Nat) (f : Promise → Promise) : Eval Machine Unit :=
  ⟨fun m =>
    match m.heap.get? p with
    | some (.promise pr) => (.ok (), m.setPromise p (f pr))
    | _ => (.error nilDereference, m)⟩

/-- Source: `&Promise{}`: a promise with zero fields at a fresh address. -/
def Machine.newPromise : Eval Machine Nat :=
  ⟨fun m => (.ok m.heap.length, { m with heap := m.heap ++ [.promise Promise.zero] })⟩

/-- Modelled from the spec: `Async(continuation)`: the "single operation,
`enqueue(continuation)`" of the task queue (§6), which runs nothing. -/
def Async (t : Task) : Eval Machine Unit :=
  ⟨fun m => (.ok (), { m with queue := m.queue ++ [t] })⟩

/-- The type assertion `result.value.(*Promise)`: the address of the promise
when the value is an object of the heap that is a promise. -/
def asPromise (v : Value) : Eval Machine (Option Nat) :=
  ⟨fun m =>
    match v with
    | .object ref =>
      match m.heap.get? ref with
      | some (.promise _) => (.ok (some ref), m)
      | _ => (.ok none, m)
    | _ => (.ok none, m)⟩

/-- Source: `Promise.Resolve`. -/
def Promise.Resolve (p : Nat) (resolvedValue : Value) : Eval Machine Unit := do
  Machine.updatePromise p (fun pr => { pr with resolvedValue := some resolvedValue })
  Async (.invokeResolver p)

/-- Source: `Promise.Reject`. -/
def Promise.Reject (p : Nat) (rejectedValue : Value) : Eval Machine Unit := do
  Machine.updatePromise p (fun pr => { pr with rejectedValue := some rejectedValue })
  Async (.invokeRejecter p)

/-- Source: `Promise.Then`. -/
def Promise.Then (p : Nat) (resolve reject : Value) : Eval Machine Value := do
  Machine.updatePromise p (fun pr => { pr with resolvedFunc := resolve })
  Machine.updatePromise p (fun pr => { pr with rejectedFunc := reject })
  let np ← Machine.newPromise
  Machine.updatePromise p (fun pr => { pr with thenPromise := some np })
  pure (.object np)

/-- The outcome of following a forward chain for more links than the fuel
allows; the recursion of the source does not end on a cyclic chain. -/
def outOfFuel : Error := .goPanic "stack overflow"

/-- Source: `Promise.invokeResolver`; the fuel bounds the recursion along the
forward targets. -/
def Promise.invokeResolver (rt : CallRuntime) : Nat → Nat → Eval Machine Unit
  | 0, _ => Eval.raise outOfFuel
  | fuel + 1, p => do
    let pr ← Machine.promise p
    match pr.toPromise with
    | some target => do
      Machine.updatePromise target (fun t => { t with resolvedValue := pr.resolvedValue })
      Promise.invokeResolver rt fuel target
    | none =>
      if pr.resolvedFunc.Type = .vtNil then pure ()
      else do
        let ctx ← Machine.NewContext "--promise-resolve--" none
        let result ← CallFunc rt ctx (valueExpression rt pr.resolvedFunc)
          [pointerExpression rt pr.resolvedValue]
        let pr2 ← Machine.promise p
        match ← asPromise result with
        | some promise =>
          Machine.updatePromise promise (fun q => { q with toPromise := pr2.thenPromise })
        | none =>
          match pr2.thenPromise with
          | some np => Promise.Resolve np result
          | none => Eval.raise nilDereference

/-- Source: `Promise.invokeRejecter`. -/
def Promise.invokeRejecter (rt : CallRuntime) : Nat → Nat → Eval Machine Unit
  | 0, _ => Eval.raise outOfFuel
  | fuel + 1, p => do
    let pr ← Machine.promise p
    match pr.toPromise with
    | some target => do
      Machine.updatePromise target (fun t => { t with rejectedValue := pr.rejectedValue })
      Promise.invokeRejecter rt fuel target
    | none =>
      if pr.rejectedFunc.Type = .vtNil then pure ()
      else do
        let ctx ← Machine.NewContext "--promise-reject--" none
        let result ← CallFunc rt ctx (valueExpression rt pr.rejectedFunc)
          [pointerExpression rt pr.rejectedValue]
        let pr2 ← Machine.promise p
        match ← asPromise result with
        | some promise =>
          Machine.updatePromise promise (fun q => { q with toPromise := pr2.thenPromise })
        | none =>
          match pr2.thenPromise with
          | some np => Promise.Reject np result
          | none => Eval.raise nilDereference

/-- Running a continuation of the task queue. -/
def Task.run (rt : CallRuntime) (fuel : Nat) : Task → Eval Machine Unit
  | .invokeResolver p => Promise.invokeResolver rt fuel p
  | .invokeRejecter p => Promise.invokeRejecter rt fuel p

/-- Modelled from the spec: the drain of the task queue (§5, "FIFO,
single-threaded drain"): the first continuation is taken off the queue and
run. -/
def drainOne (rt : CallRuntime) (fuel : Nat) : Eval Machine Unit :=
  ⟨fun m =>
    match m.queue with
    | [] => (.ok (), m)
    | t :: rest => (Task.run rt fuel t).run { m with queue := rest }⟩

/-- The identity of the native function `_promiseResolve`. -/
def promiseResolveFn : Nat := 1001

/-- The identity of the native function `_promiseReject`. -/
def promiseRejectFn : Nat := 1002

/-- The identity of the native function `_promiseThen`. -/
def promiseThenFn : Nat := 1003

/-- Modelled from the spec: `Values.Shift()`, which takes the first value off
the arguments of a native function: the value and the arguments that remain;
an argument that is missing is `Nil` ("extra or missing arguments are
tolerated", §4.2). -/
def Values.Shift (args : List Value) : Value × List Value :=
  (args.headD .nil, args.tail)

/-- Source: `_promiseResolve`; `this.(*Promise)` is the address `this`. -/
def _promiseResolve (this : Nat) (_ : ContextPtr) (args : List Value) :
    Eval Machine Value := do
  Promise.Resolve this (Values.Shift args).1
  pure .nil

/-- Source: `_promiseReject`. -/
def _promiseReject (this : Nat) (_ : ContextPtr) (args : List Value) :
    Eval Machine Value := do
  Promise.Reject this (Values.Shift args).1
  pure .nil

/-- Source: `_promiseThen`: the two arguments are shifted off from left to
right. -/
def _promiseThen (this : Nat) (_ : ContextPtr) (args : List Value) : Eval Machine Value :=
  Promise.Then this (Values.Shift args).1 (Values.Shift (Values.Shift args).2).1

/-- Source: `NewPromise`.  `ValueFromBuiltin(promise, name, fn)` is the
`Builtin` value with the receiver `promise`. -/
def NewPromise (rt : CallRuntime) (executor : Value) : Eval Machine Nat := do
  let promise ← Machine.newPromise
  if executor.Type = .vtFunction ∨ executor.Type = .vtBuiltin then do
    let resolve := Value.builtin promise "resolve" promiseResolveFn
    let reject := Value.builtin promise "reject" promiseRejectFn
    let ctx ← Machine.NewContext "--promise-executor--" none
    let _ ← CallFunc rt ctx (valueExpression rt executor)
      [pointerExpression rt (some resolve), pointerExpression rt (some reject)]
    pure promise
  else do
    Promise.Resolve promise executor
    pure promise

/-! ## A concrete machine -/

/-- The native functions of the concrete runtime that are pure, by identity:
`0` returns its first argument, `1` returns its receiver as an object, every
other one returns the number of its identity. -/
def native (this : Nat) (fn : Nat) (args : List Value) : Value :=
  match fn with
  | 0 => args.headD .nil
  | 1 => .object this
  | n => .number n

/-- The call of a native function by its identity: the three natives of
`class_promise.go` under their identities, and the functions of `native`. -/
def nativeCall (this : Nat) (fn : Nat) (ctx : ContextPtr) (args : List Value) :
    Eval Machine Value :=
  if fn = promiseResolveFn then _promiseResolve this ctx args
  else if fn = promiseRejectFn then _promiseReject this ctx args
  else if fn = promiseThenFn then _promiseThen this ctx args
  else pure (native this fn args)

/-- The functions of the concrete runtime, by address: the function at `0` is
`function f(a, b) {}`; there is no other. -/
def program : Nat → Option FunctionExpression
  | 0 => some ⟨0, "f", ⟨["a", "b"]⟩, fun _ => pure ()⟩
  | _ => none

/-- The runtime of the concrete machine: a variable evaluates to what the
chain of the context binds it to, every other value to itself; builtins, which
run `nativeCall`, and the functions of `program` are callable. -/
def machineRuntime : CallRuntime where
  ValueEvaluate v ctx := ⟨fun m =>
    match v with
    | .variable name =>
      match m.find name m.contexts.length ctx with
      | some x => (.ok x, m)
      | none => (.error (.NameResolutionError name), m)
    | _ => (.ok v, m)⟩
  callable v :=
    match v with
    | .builtin this _ fn => some (nativeCall this fn)
    | .function this fn =>
      (program fn).map (fun f => EvaluatedFunctionExpression.Execute ⟨this, f⟩)
    | _ => none

/-- The machine in which the body of a function value starts, when the value
is executed in the context `newCtx`, which was `c`, of the machine `s`: the
parent of `newCtx` is the captured context, and `newCtx` binds the
parameters. -/
def callEntry (s : Machine) (newCtx : ContextPtr) (c : Context)
    (e : EvaluatedFunctionExpression) (args : List Value) : Machine :=
  s.setContext newCtx
    { c with parent := some e.this, symbols := paired args 0 e.fn.params.names }

/-- What `FunctionExpression.Execute` does once the parameters are bound: the
body runs, and the value returned is read off the context. -/
def runBody (f : FunctionExpression) (ctx : ContextPtr) : Eval Machine Value := do
  f.body ctx
  let c ← Machine.context ctx
  pure (if c.hasret then c.retval else .nil)

/-- A machine whose only context, the global one, binds `f` to the function at
address `0` of `program`, defined in this context. -/
def callMachine : Machine :=
  ⟨[⟨"global", none, [("f", .function 0 0)], false, .nil⟩], [], [], []⟩

/-- Modelled from the spec: the captured closure scope of a `Function` value
(§3, "Function(closure: captured-Context, body)"); no other value has one. -/
def Value.closure : Value → Option ContextPtr
  | .function this _ => some this
  | _ => none

/-- A machine with one context, which binds nothing and has not returned. -/
def oneContext : Machine := ⟨[⟨"", none, [], false, .nil⟩], [], [], []⟩

/-- A machine with two contexts, which bind nothing. -/
def twoContexts : Machine :=
  ⟨[⟨"outer", none, [], false, .nil⟩, ⟨"inner", some 0, [], false, .nil⟩], [], [], []⟩

/-! ## The operators of two Numbers -/

/-- Source: `BinaryExpression.Evaluate`, lines 146-191: the operators that
have a `case` in the block of two Numbers, in the order of the source. -/
def numberOperators : List TokenType :=
  [.ttAddition, .ttSubtraction, .ttMultiply, .ttDivision, .ttGreaterThan,
   .ttGreaterThanOrEqual, .ttLessThan, .ttLessThanOrEqual, .ttEqual, .ttNotEqual,
   .ttPercent, .ttStarStar, .ttLeftShift, .ttRightShift, .ttBitAnd, .ttBitOr, .ttBitXor,
   .ttBitAndNot]

/-! ## Runs that may not finish

The tokenizer and the parser of `package main` loop until the input lets them
leave.  A run of them either returns, or panics, or is still going when the
steps granted to it are used up. -/

namespace Main

/-- The outcome of a run from a state: it returned a result in a new state, it
panicked (nothing recovers a panic of the tokenizer or the parser, so the state
is dropped), or it did not finish within the steps granted. -/
inductive Outcome (σ α : Type) where
  | done (a : α) (s : σ)
  | panic (msg : String)
  | unfinished
  deriving DecidableEq, Repr

/-- A computation over the state `σ`. -/
structure Run (σ α : Type) where
  run : σ → Outcome σ α

/-- Sequencing: a panic or an unfinished run ends the whole run. -/
def Run.andThen {σ α β : Type} (m : Run σ α) (f : α → Run σ β) : Run σ β :=
  ⟨fun s =>
    match m.run s with
    | .done a s1 => (f a).run s1
    | .panic msg => .panic msg
    | .unfinished => .unfinished⟩

instance {σ : Type} : Monad (Run σ) where
  pure a := ⟨fun s => .done a s⟩
  bind := Run.andThen

/-- Go: `panic(msg)`. -/
def Run.raise {σ α : Type} (msg : String) : Run σ α := ⟨fun _ => .panic msg⟩

/-- The steps granted are used up. -/
def Run.unfinished {σ α : Type} : Run σ α := ⟨fun _ => .unfinished⟩

/-! ## Tokens -/

/-- Source: `TokenType` of tokenizer.go, with the constants in the order of
the source; `ttVar` is the constant that parser.go names and tokenizer.go does
not declare. -/
inductive TokenType where
  | ttEOF
  | ttLeftParen | ttRightParen | ttLeftBrace | ttRightBrace | ttLeftBracket | ttRightBracket
  | ttComma | ttSemicolon | ttColon
  | ttAssign | ttAddition | ttSubstraction | ttMultiply | ttDivision
  | ttGreaterThan | ttGreaterThanOrEqual | ttEqual | ttNotEqual | ttLessThan
  | ttLessThanOrEqual
  | ttNot | ttAndAnd | ttOrOr
  | ttNil | ttString | ttNumber | ttBoolean | ttIdentifier
  | ttLet | ttFunction | ttReturn | ttWhile | ttBreak | ttIf | ttElse
  | ttVar
  deriving DecidableEq, Repr

/-- Source: `keywords`, filled by `init`. -/
def keywords : List (String × TokenType) :=
  [("let", .ttLet), ("function", .ttFunction), ("return", .ttReturn), ("while", .ttWhile),
   ("break", .ttBreak), ("if", .ttIf), ("else", .ttElse), ("nil", .ttNil),
   ("true", .ttBoolean), ("false", .ttBoolean)]

/-- Source: `Token`. -/
structure Token where
  typ : TokenType
  str : String
  num : Int
  line : Int
  deriving DecidableEq, Repr

/-- Go: the composite literal `Token{typ: tt}`; the other fields are zero. -/
def Token.ofType (tt : TokenType) : Token := ⟨tt, "", 0, 0⟩

/-! ## The input -/

/-- Go: a `bufio.Reader` over an input that is held whole: the bytes, each a
character, the position of the next byte, and the last byte read while it can
still be unread. -/
structure Reader where
  data : List Char
  pos : Nat
  lastByte : Option Char
  deriving DecidableEq, Repr

/-- Go: `bufio.Reader.ReadByte`: the next byte, or the byte `0` together with
`io.EOF` (the flag) when the input is used up. -/
def Reader.ReadByte (r : Reader) : (Char × Bool) × Reader :=
  match r.data.get? r.pos with
  | some c => ((c, false), { r with pos := r.pos + 1, lastByte := some c })
  | none => ((Char.ofNat 0, true), r)

/-- Go: `bufio.Reader.UnreadByte`: it steps back over the last byte read, once;
its error is ignored by every caller. -/
def Reader.UnreadByte (r : Reader) : Reader :=
  match r.lastByte with
  | some _ => { r with pos := r.pos - 1, lastByte := none }
  | none => r

/-! ## The tokenizer -/

/-- Source: `Tokenizer`.  `buf` holds the tokens handed back, the next one
first; `frames` is the stack of frames, the innermost one last, each with its
tokens in the order they were taken. -/
structure Tokenizer where
  input : Reader
  buf : List Token
  frames : List (List Token)
  line : Int
  deriving DecidableEq, Repr

/-- Source: `NewTokenizer`. -/
def NewTokenizer (input : String) : Tokenizer :=
  ⟨⟨input.toList, 0, none⟩, [], [], 1⟩

/-- The list with its last element changed by `f`. -/
def onLast {α : Type} (f : α → α) : List α → List α
  | [] => []
  | [a] => [f a]
  | a :: b :: rest => a :: onLast f (b :: rest)

/-- Source: `t.input.ReadByte()`. -/
def Tokenizer.ReadByte : Run Tokenizer (Char × Bool) :=
  ⟨fun t => .done t.input.ReadByte.1 { t with input := t.input.ReadByte.2 }⟩

/-- Source: `Tokenizer.read`: the error is dropped, so the end of the input
reads as the byte `0`. -/
def Tokenizer.read : Run Tokenizer Char := do
  let r ← Tokenizer.ReadByte
  pure r.1

/-- Source: `Tokenizer.unread`. -/
def Tokenizer.unread : Run Tokenizer Unit :=
  ⟨fun t => .done () { t with input := t.input.UnreadByte }⟩

/-- Source: the test `ch >= '0' && ch <= '9'`. -/
def isDigit (ch : Char) : Bool := decide ('0' ≤ ch) && decide (ch ≤ '9')

/-- Source: the test `ch >= 'a' && ch <= 'z' || ch >= 'A' && ch <= 'Z'`. -/
def isLetter (ch : Char) : Bool :=
  (decide ('a' ≤ ch) && decide (ch ≤ 'z')) || (decide ('A' ≤ ch) && decide (ch ≤ 'Z'))

/-- Source: `Tokenizer.checkFollow`. -/
def Tokenizer.checkFollow : Run Tokenizer Unit := do
  let r ← Tokenizer.ReadByte
  if !r.2 then Tokenizer.unread
  if isDigit r.1 || isLetter r.1 || r.1 = '"' then Run.raise "unexpected follow character"
  else pure ()

/-- Source: `Tokenizer.iif`. -/
def Tokenizer.iif (ch : Char) (tt1 tt2 : TokenType) : Run Tokenizer Token := do
  let c ← Tokenizer.read
  if c = ch then pure (Token.ofType tt1)
  else do
    if c ≠ Char.ofNat 0 then Tokenizer.unread
    pure (Token.ofType tt2)

/-- Source: the loop of `Tokenizer.readString`; `buf` is the buffer so far.
The loop is left on the closing quote and on nothing else. -/
def Tokenizer.readStringLoop : Nat → String → Run Tokenizer String
  | 0, _ => Run.unfinished
  | fuel + 1, buf => do
    let ch ← Tokenizer.read
    if ch = '"' then pure buf
    else Tokenizer.readStringLoop fuel (buf.push ch)

/-- Source: `Tokenizer.readString`. -/
def Tokenizer.readString (fuel : Nat) : Run Tokenizer String := do
  let _ ← Tokenizer.read
  Tokenizer.readStringLoop fuel ""

/-- Source: the loop of `Tokenizer.readNumber`; `num` is the number so far, an
`int`. -/
def Tokenizer.readNumberLoop : Nat → Int → Run Tokenizer Int
  | 0, _ => Run.unfinished
  | fuel + 1, num => do
    let ch ← Tokenizer.read
    if isDigit ch then
      Tokenizer.readNumberLoop fuel (wrapInt (num * 10 + ((ch.toNat : Int) - ('0'.toNat : Int))))
    else do
      if ch ≠ Char.ofNat 0 then Tokenizer.unread
      pure num

/-- Source: `Tokenizer.readNumber`. -/
def Tokenizer.readNumber (fuel : Nat) : Run Tokenizer Int :=
  Tokenizer.readNumberLoop fuel 0

/-- Source: the loop of `Tokenizer.readIdentifier`. -/
def Tokenizer.readIdentifierLoop : Nat → String → Run Tokenizer String
  | 0, _ => Run.unfinished
  | fuel + 1, buf => do
    let ch ← Tokenizer.read
    if isLetter ch || isDigit ch then Tokenizer.readIdentifierLoop fuel (buf.push ch)
    else do
      if ch ≠ Char.ofNat 0 then Tokenizer.unread
      pure buf

/-- Source: `Tokenizer.readIdentifier`. -/
def Tokenizer.readIdentifier (fuel : Nat) : Run Tokenizer String :=
  Tokenizer.readIdentifierLoop fuel ""

/-- Source: `Tokenizer.next`, the inner loop of the case `'/'`, which skips a
comment to the end of its line or of the input. -/
def Tokenizer.skipComment : Nat → Run Tokenizer Unit
  | 0 => Run.unfinished
  | fuel + 1 => do
    let c ← Tokenizer.read
    if c = '\n' ∨ c = Char.ofNat 0 then
      if c = '\n' then ⟨fun t => .done () { t with line := t.line + 1 }⟩ else pure ()
    else Tokenizer.skipComment fuel

/-- Source: `Tokenizer.next`, the deferred `token.line = t.line` on a return. -/
def Tokenizer.emit (token : Token) : Run Tokenizer Token :=
  ⟨fun t => .done { token with line := t.line } t⟩

/-- Source: `Tokenizer.next`, the `switch ch` on a byte that starts neither a
number nor a word nor a string; `again` is the next turn of the loop. -/
def Tokenizer.punctuation (fuel : Nat) (again : Run Tokenizer Token) (ch : Char) :
    Run Tokenizer Token :=
  if ch = ' ' ∨ ch = '\t' ∨ ch = '\r' then again
  else if ch = '\n' then do
    let _ ← (⟨fun t => .done () { t with line := t.line + 1 }⟩ : Run Tokenizer Unit)
    again
  else if ch = '(' then Tokenizer.emit (Token.ofType .ttLeftParen)
  else if ch = ')' then Tokenizer.emit (Token.ofType .ttRightParen)
  else if ch = '[' then Tokenizer.emit (Token.ofType .ttLeftBracket)
  else if ch = ']' then Tokenizer.emit (Token.ofType .ttRightBracket)
  else if ch = '{' then Tokenizer.emit (Token.ofType .ttLeftBrace)
  else if ch = '}' then Tokenizer.emit (Token.ofType .ttRightBrace)
  else if ch = ',' then Tokenizer.emit (Token.ofType .ttComma)
  else if ch = ':' then Tokenizer.emit (Token.ofType .ttColon)
  else if ch = ';' then Tokenizer.emit (Token.ofType .ttSemicolon)
  else if ch = '+' then Tokenizer.emit (Token.ofType .ttAddition)
  else if ch = '-' then Tokenizer.emit (Token.ofType .ttSubstraction)
  else if ch = '*' then Tokenizer.emit (Token.ofType .ttMultiply)
  else if ch = '/' then do
    let c ← Tokenizer.read
    if c = '/' then do
      Tokenizer.skipComment fuel
      again
    else do
      Tokenizer.unread
      Tokenizer.emit (Token.ofType .ttDivision)
  else if ch = '=' then do
    let token ← Tokenizer.iif '=' .ttEqual .ttAssign
    Tokenizer.emit token
  else if ch = '>' then do
    let token ← Tokenizer.iif '=' .ttGreaterThanOrEqual .ttGreaterThan
    Tokenizer.emit token
  else if ch = '<' then do
    let token ← Tokenizer.iif '=' .ttLessThanOrEqual .ttLessThan
    Tokenizer.emit token
  else Run.raise "unhandled character"

/-- Source: `Tokenizer.next`; one unit of `fuel` is one turn of its loop, and
the loops it calls are granted what is left. -/
def Tokenizer.next : Nat → Run Tokenizer Token
  | 0 => Run.unfinished
  | fuel + 1 => do
    let r ← Tokenizer.ReadByte
    if r.2 then Tokenizer.emit (Token.ofType .ttEOF)
    else if isDigit r.1 then do
      Tokenizer.unread
      let n ← Tokenizer.readNumber fuel
      Tokenizer.checkFollow
      Tokenizer.emit ⟨.ttNumber, "", n, 0⟩
    else if isLetter r.1 then do
      Tokenizer.unread
      let name ← Tokenizer.readIdentifier fuel
      Tokenizer.checkFollow
      Tokenizer.emit ⟨(keywords.lookup name).getD .ttIdentifier, name, 0, 0⟩
    else if r.1 = '"' then do
      Tokenizer.unread
      let s ← Tokenizer.readString fuel
      Tokenizer.checkFollow
      Tokenizer.emit ⟨.ttString, s, 0, 0⟩
    else Tokenizer.punctuation fuel (Tokenizer.next fuel) r.1

/-- Source: `Tokenizer.Next`, the deferred function: the token returned is
appended to the innermost frame, when there is one. -/
def Tokenizer.record (token : Token) (t : Tokenizer) : Tokenizer :=
  { t with frames := onLast (fun frame => frame ++ [token]) t.frames }

/-- Source: `Tokenizer.Next`, the body: the first token of `buf` when there is
one, the next token of the input otherwise. -/
def Tokenizer.take (fuel : Nat) : Run Tokenizer Token :=
  ⟨fun t =>
    match t.buf with
    | tk :: rest => .done tk { t with buf := rest }
    | [] => (Tokenizer.next fuel).run t⟩

/-- Source: `Tokenizer.Next`. -/
def Tokenizer.Next (fuel : Nat) : Run Tokenizer Token := do
  let token ← Tokenizer.take fuel
  ⟨fun t => .done token (t.record token)⟩

/-- Source: `Tokenizer.Undo`. -/
def Tokenizer.Undo (token : Token) : Run Tokenizer Unit :=
  ⟨fun t =>
    match t.frames.getLast? with
    | none => .done () { t with buf := token :: t.buf }
    | some last =>
      if last.length = 0 then .panic "cannot undo"
      else .done () { t with buf := token :: t.buf, frames := onLast List.dropLast t.frames }⟩

/-- Source: `Tokenizer.Peek`. -/
def Tokenizer.Peek (fuel : Nat) : Run Tokenizer Token := do
  let token ← Tokenizer.Next fuel
  Tokenizer.Undo token
  pure token

/-- Source: `Tokenizer.PushFrame`. -/
def Tokenizer.PushFrame : Run Tokenizer Unit :=
  ⟨fun t => .done () { t with frames := t.frames ++ [[]] }⟩

/-- Source: `Tokenizer.PopFrame`. -/
def Tokenizer.PopFrame (putBack : Bool) : Run Tokenizer Unit :=
  ⟨fun t =>
    match t.frames.getLast? with
    | none => .panic "bad PopFrame call"
    | some last =>
      .done () { t with
        frames := t.frames.dropLast,
        buf := if putBack ∧ last.length > 0 then last ++ t.buf else t.buf }⟩

/-! ## The parser -/

/-- Source: the statements that parser.go builds, over the expressions `ε`:
`VariableDefinitionStatement`, `FunctionDefinitionStatement` (with the
arguments of `NewFunctionDefinitionExpression`), `ReturnStatement` and
`ExpressionStatement`; an `Expression` that is `nil` is `none`. -/
inductive Statement (ε : Type) where
  | variableDefinition (Name : String) (Expr : Option ε)
  | functionDefinition (name : String) (params : List String) (stmts : List (Statement ε))
  | returnStatement (expr : Option ε)
  | expressionStatement (expr : ε)

/-- Source: `Program`. -/
structure Program (ε : Type) where
  stmts : List (Statement ε)

/-- Source: `Parser.expect`. -/
def Parser.expect (fuel : Nat) (tt : TokenType) : Run Tokenizer Token := do
  let token ← Tokenizer.Next fuel
  if token.typ ≠ tt then Run.raise "unexpected token type" else pure token

/-- Source: `Parser.parseVariableDefinitionStatement`; `parseExpression` is the
parser of expressions. -/
def Parser.parseVariableDefinitionStatement {ε : Type} (fuel : Nat)
    (parseExpression : Run Tokenizer (Option ε)) : Run Tokenizer (Statement ε) := do
  let name ← Parser.expect fuel .ttIdentifier
  let peeked ← Tokenizer.Peek fuel
  let expr ← (if peeked.typ = .ttAssign then do
      let _ ← Tokenizer.Next fuel
      parseExpression
    else pure none)
  let _ ← Parser.expect fuel .ttSemicolon
  pure (.variableDefinition name.str expr)

/-- Source: `Parser.parseReturnStatement`. -/
def Parser.parseReturnStatement {ε : Type} (fuel : Nat)
    (parseExpression : Run Tokenizer (Option ε)) : Run Tokenizer (Statement ε) := do
  let expr ← parseExpression
  let _ ← Parser.expect fuel .ttSemicolon
  pure (.returnStatement expr)

/-- Source: `Parser.parseExpressionStatement`; `none` is the `nil` statement. -/
def Parser.parseExpressionStatement {ε : Type} (fuel : Nat)
    (parseExpression : Run Tokenizer (Option ε)) : Run Tokenizer (Option (Statement ε)) := do
  let expr ← parseExpression
  match expr with
  | none => pure none
  | some e => do
    let _ ← Parser.expect fuel .ttSemicolon
    pure (some (.expressionStatement e))

/-- Source: `Parser.parseFunctionDefinitionStatement`, lines 107-117: the loop
over the parameter list.  It is left on a right parenthesis and on nothing
else: an identifier is recorded, and every other token is passed over. -/
def Parser.parseParameters : Nat → List String → Run Tokenizer (List String)
  | 0, _ => Run.unfinished
  | fuel + 1, params => do
    let tk ← Tokenizer.Next fuel
    if tk.typ = .ttIdentifier then Parser.parseParameters fuel (params ++ [tk.str])
    else if tk.typ = .ttComma then Parser.parseParameters fuel params
    else if tk.typ = .ttRightParen then do
      Tokenizer.Undo tk
      pure params
    else Parser.parseParameters fuel params

/-- Source: `Parser.parseFunctionDefinitionStatement`, lines 120-126: the loop
over the statements of the body; `parseStatement` is `p.parseStatement(false)`. -/
def Parser.parseBody {ε : Type} (parseStatement : Run Tokenizer (Option (Statement ε))) :
    Nat → List (Statement ε) → Run Tokenizer (List (Statement ε))
  | 0, _ => Run.unfinished
  | fuel + 1, stmts => do
    let stmt ← parseStatement
    match stmt with
    | none => pure stmts
    | some st => Parser.parseBody parseStatement fuel (stmts ++ [st])

/-- Source: `Parser.parseFunctionDefinitionStatement`. -/
def Parser.parseFunctionDefinitionStatement {ε : Type} (fuel : Nat)
    (parseStatement : Run Tokenizer (Option (Statement ε))) : Run Tokenizer (Statement ε) := do
  let name ← Parser.expect fuel .ttIdentifier
  let _ ← Parser.expect fuel .ttLeftParen
  let params ← Parser.parseParameters fuel []
  let _ ← Parser.expect fuel .ttRightParen
  let _ ← Parser.expect fuel .ttLeftBrace
  let stmts ← Parser.parseBody parseStatement fuel []
  let _ ← Parser.expect fuel .ttRightBrace
  pure (.functionDefinition name.str params stmts)

/-- Source: `Parser.parseStatement`; one unit of `fuel` is one call, and what
the call runs is granted what is left. -/
def Parser.parseStatement {ε : Type} (parseExpression : Run Tokenizer (Option ε)) :
    Nat → Bool → Run Tokenizer (Option (Statement ε))
  | 0, _ => Run.unfinished
  | fuel + 1, global => do
    let tk ← Tokenizer.Next fuel
    if tk.typ = .ttVar then
      some <$> Parser.parseVariableDefinitionStatement fuel parseExpression
    else if tk.typ = .ttFunction then
      some <$> Parser.parseFunctionDefinitionStatement fuel
        (Parser.parseStatement parseExpression fuel false)
    else if global then do
      Tokenizer.Undo tk
      pure none
    else if tk.typ = .ttReturn then
      some <$> Parser.parseReturnStatement fuel parseExpression
    else do
      Tokenizer.Undo tk
      Parser.parseExpressionStatement fuel parseExpression

/-- Source: `Parser.parseGlobalStatement`. -/
def Parser.parseGlobalStatement {ε : Type} (parseExpression : Run Tokenizer (Option ε))
    (fuel : Nat) : Run Tokenizer (Option (Statement ε)) :=
  Parser.parseStatement parseExpression fuel true

/-- Source: `Parser.Parse`, lines 15-21: the loop over the global statements. -/
def Parser.parseGlobalStatements {ε : Type} (parseExpression : Run Tokenizer (Option ε)) :
    Nat → List (Statement ε) → Run Tokenizer (List (Statement ε))
  | 0, _ => Run.unfinished
  | fuel + 1, stmts => do
    let stmt ← Parser.parseGlobalStatement parseExpression fuel
    match stmt with
    | none => pure stmts
    | some st => Parser.parseGlobalStatements parseExpression fuel (stmts ++ [st])

/-- Source: `Parser.Parse`. -/
def Parser.Parse {ε : Type} (parseExpression : Run Tokenizer (Option ε)) (fuel : Nat) :
    Run Tokenizer (Program ε) := do
  let stmts ← Parser.parseGlobalStatements parseExpression fuel []
  let tk ← Tokenizer.Next fuel
  if tk.typ ≠ .ttEOF then Run.raise "unexpected statement" else pure ⟨stmts⟩

end Main

/-! ## The promise invariant -/

/-- The invariant of the handlers: every promise of the heap that has a resolve
handler or a reject handler other than `Nil` has a derived promise, which is a
promise of the heap. -/
def DerivedPresent (m : Machine) : Prop :=
  ∀ p pr, m.heap.get? p = some (.promise pr) →
    (pr.resolvedFunc.Type ≠ .vtNil ∨ pr.rejectedFunc.Type ≠ .vtNil) →
    ∃ np d, pr.thenPromise = some np ∧ m.heap.get? np = some (.promise d)

/-- The pointers between promises are never dangling: the derived promise and
the forward target of a promise of the heap, when set, are promises of the
heap. -/
def TargetsPresent (m : Machine) : Prop :=
  ∀ p pr, m.heap.get? p = some (.promise pr) →
    (∀ np, pr.thenPromise = some np → ∃ d, m.heap.get? np = some (.promise d)) ∧
    (∀ target, pr.toPromise = some target → ∃ d, m.heap.get? target = some (.promise d))

/-- A promise stays a promise, and a derived promise that is set stays set. -/
def PromisesKept (s t : Machine) : Prop :=
  ∀ p pr, s.heap.get? p = some (.promise pr) →
    ∃ pr1, t.heap.get? p = some (.promise pr1) ∧
      (pr.thenPromise ≠ none → pr1.thenPromise ≠ none)

/-- The two invariants together. -/
def PromiseInvariant (m : Machine) : Prop :=
  DerivedPresent m ∧ TargetsPresent m

/-- A step from `s` to `t` that keeps the invariants and the promises. -/
def Guarded (s t : Machine) : Prop :=
  (PromiseInvariant s → PromiseInvariant t) ∧ PromisesKept s t

/-- An evaluation every run of which is such a step, whether it returns or
panics. -/
def Guards {α : Type} (m : Eval Machine α) : Prop :=
  ∀ s, Guarded s (m.run s).2

/-- A runtime whose calls of a value on values are such steps. -/
def GuardedCalls (rt : CallRuntime) : Prop :=
  ∀ (ctx : ContextPtr) (f : Value) (args : List (Option Value)),
    Guards (CallFunc rt ctx (valueExpression rt f) (args.map (pointerExpression rt)))

/-- The promises of the heap are the same in `s` and in `t`. -/
def SamePromises (s t : Machine) : Prop :=
  ∀ p pr, s.heap.get? p = some (.promise pr) ↔ t.heap.get? p = some (.promise pr)

/-- What the execution of a function does, as far as the promises go.  The
fields of a promise are written by the functions of `class_promise.go` only, so
a body reaches the promises by creating one (`NewPromise`) and by calling a
value, which may be one of the natives `resolve`, `reject` and `then` or
another function; whatever else it evaluates (`effect`) leaves the promises as
they are.  Each step continues with the value that the step before it
returned. -/
inductive Code where
  | ret (v : Value)
  | effect (m : Eval Machine Value) (quiet : ∀ s, SamePromises s (m.run s).2)
      (next : Value → Code)
  | newPromise (executor : Value) (next : Value → Code)
  | call (callee : Value) (args : List Value) (next : Value → Code)

/-- The execution of a body in the context of its call. -/
def Code.run (rt : CallRuntime) (ctx : ContextPtr) : Code → Eval Machine Value
  | .ret v => pure v
  | .effect m _ next => do
    let v ← m
    Code.run rt ctx (next v)
  | .newPromise executor next => do
    let p ← NewPromise rt executor
    Code.run rt ctx (next (.object p))
  | .call callee args next => do
    let r ← CallFunc rt ctx (valueExpression rt callee)
      ((args.map some).map (pointerExpression rt))
    Code.run rt ctx (next r)

/-- The runtime of a program: `functions` gives what the execution of the
function at an address does, for the context it captured, the context of the
call and the arguments, and a builtin runs `nativeCall`; a call nested more
than `depth` deep overflows the stack.  `Value.Evaluate` is that of the
concrete runtime. -/
def codeRuntime (functions : Nat → Option (ContextPtr → ContextPtr → List Value → Code)) :
    Nat → CallRuntime
  | 0 =>
    { ValueEvaluate := machineRuntime.ValueEvaluate
      callable := fun v =>
        match v with
        | .builtin this _ fn => some (nativeCall this fn)
        | .function _ fn => (functions fn).map (fun _ => fun _ _ => Eval.raise outOfFuel)
        | _ => none }
  | depth + 1 =>
    { ValueEvaluate := machineRuntime.ValueEvaluate
      callable := fun v =>
        match v with
        | .builtin this _ fn => some (nativeCall this fn)
        | .function this fn =>
          (functions fn).map (fun body => fun ctx args =>
            Code.run (codeRuntime functions depth) ctx (body this ctx args))
        | _ => none }

/-- The machines reached from a machine without promises by `NewPromise`,
`Then`, `Resolve`, `Reject`, the two settlement continuations, and the drain
of the task queue, each from any arguments and whether it returns or panics. -/
inductive Reachable (rt : CallRuntime) : Machine → Prop where
  | start (m : Machine) (h : m.heap = []) : Reachable rt m
  | newPromise (m : Machine) (executor : Value) (h : Reachable rt m) :
      Reachable rt ((NewPromise rt executor).run m).2
  | thenCall (m : Machine) (p : Nat) (resolve reject : Value) (h : Reachable rt m) :
      Reachable rt ((Promise.Then p resolve reject).run m).2
  | resolve (m : Machine) (p : Nat) (v : Value) (h : Reachable rt m) :
      Reachable rt ((Promise.Resolve p v).run m).2
  | reject (m : Machine) (p : Nat) (v : Value) (h : Reachable rt m) :
      Reachable rt ((Promise.Reject p v).run m).2
  | resolver (m : Machine) (fuel p : Nat) (h : Reachable rt m) :
      Reachable rt ((Promise.invokeResolver rt fuel p).run m).2
  | rejecter (m : Machine) (fuel p : Nat) (h : Reachable rt m) :
      Reachable rt ((Promise.invokeRejecter rt fuel p).run m).2
  | drain (m : Machine) (fuel : Nat) (h : Reachable rt m) :
      Reachable rt ((drainOne rt fuel).run m).2

/-- A program for the runs below: the function at `0` is an executor that
calls its first argument, `resolve`, on `5`; the function at `1` is a handler
that returns a new promise, resolved with `7`. -/
def chainProgram : Nat → Option (ContextPtr → ContextPtr → List Value → Code)
  | 0 => some (fun _ _ args => .call (args.headD .nil) [.number 5] (fun _ => .ret .nil))
  | 1 => some (fun _ _ _ => .newPromise (.number 7) (fun q => .ret q))
  | _ => none

/-- The machine after `new Promise(f0)`, with `f0` the executor of
`chainProgram`, and `then(f1)` on the promise, with `f1` its handler: the
promise, at `0`, is resolved with `5`, its resolver is enqueued, and its
derived promise is at `1`. -/
def chainThened : Machine :=
  ((Promise.Then 0 (.function 0 1) .nil).run
    ((NewPromise (codeRuntime chainProgram 2) (.function 0 0)).run ⟨[], [], [], []⟩).2).2

/-- The machine after the drain of the resolver of the promise at `0`: the
handler has returned the promise at `2`, whose forward target is the promise
at `1`. -/
def chainForwarded : Machine :=
  ((drainOne (codeRuntime chainProgram 2) 3).run chainThened).2

/-! ## Running evaluations -/

@[simp] theorem Eval.run_ret {σ α : Type} (a : α) (s : σ) :
    (Eval.ret a : Eval σ α).run s = (.ok a, s) := rfl

@[simp] theorem Eval.run_pure {σ α : Type} (a : α) (s : σ) :
    (pure a : Eval σ α).run s = (.ok a, s) := rfl

@[simp] theorem Eval.run_raise {σ α : Type} (e : Error) (s : σ) :
    (Eval.raise e : Eval σ α).run s = (.error e, s) := rfl

@[simp] theorem Eval.run_lift_ok {σ α : Type} (a : α) (s : σ) :
    (Eval.lift (.ok a) : Eval σ α).run s = (.ok a, s) := rfl

@[simp] theorem Eval.run_lift_error {σ α : Type} (e : Error) (s : σ) :
    (Eval.lift (.error e) : Eval σ α).run s = (.error e, s) := rfl

theorem Eval.run_bind {σ α β : Type} (m : Eval σ α) (f : α → Eval σ β) (s : σ) :
    (m >>= f).run s =
      match m.run s with
      | (.ok a, s1) => (f a).run s1
      | (.error e, s1) => (.error e, s1) := rfl

@[simp] theorem Runtime.run_truth {σ : Type} (rt : Runtime σ) (v : Value) (ctx : ContextPtr)
    (s : σ) : (rt.truth v ctx).run s = (.ok (rt.Truth v ctx s), s) := rfl

/-- An eager operator evaluates its left operand, then its right operand, and
dispatches on the two values in the world reached. -/
theorem BinaryExpression.run_eager {σ : Type} (rt : Runtime σ) (b : BinaryExpression σ)
    (ctx : ContextPtr) (s s1 s2 : σ) (lv rv : Value)
    (hand : b.op ≠ .ttLogicalAnd) (hor : b.op ≠ .ttLogicalOr)
    (hl : (b.left.Evaluate ctx).run s = (.ok lv, s1))
    (hr : (b.right.Evaluate ctx).run s1 = (.ok rv, s2)) :
    (b.Evaluate rt ctx).run s = (b.dispatch rt ctx lv rv).run s2 := by
  simp [BinaryExpression.Evaluate, BinaryExpression.operands, Eval.run_bind, hand, hor, hl, hr]

/-! ## Arithmetic of the truncated division -/

theorem wrapInt_of_isInt (z : Int) (h : IsInt z) : wrapInt z = z := by
  unfold IsInt minInt maxInt at h
  unfold wrapInt
  omega

theorem isInt_wrapInt (z : Int) : IsInt (wrapInt z) := by
  unfold IsInt minInt maxInt wrapInt
  omega

theorem tmod_neg_left (a b : Int) : Int.tmod (-a) b = -Int.tmod a b := by
  rw [Int.tmod_def, Int.tmod_def, Int.neg_tdiv]
  ring

theorem tmod_pos_case (a b : Int) (ha : 0 ≤ a) (hb : 0 < b) :
    0 ≤ Int.tmod a b ∧ Int.tmod a b ≤ a ∧ Int.tmod a b < b := by
  refine ⟨Int.tmod_nonneg b ha, ?_, Int.tmod_lt_of_pos a hb⟩
  have h1 := Int.tdiv_add_tmod a b
  have h2 := Int.mul_nonneg hb.le (Int.tdiv_nonneg ha hb.le)
  omega

/-- The remainder of the truncated division lies between zero and the
dividend, and is smaller than the divisor in absolute value. -/
theorem tmod_bounds (a b : Int) (hb : b ≠ 0) :
    (0 ≤ a → 0 ≤ Int.tmod a b ∧ Int.tmod a b ≤ a) ∧
    (a ≤ 0 → a ≤ Int.tmod a b ∧ Int.tmod a b ≤ 0) ∧
    |Int.tmod a b| < |b| := by
  have key : ∀ x y : Int, 0 ≤ x → y ≠ 0 →
      0 ≤ Int.tmod x y ∧ Int.tmod x y ≤ x ∧ Int.tmod x y < |y| := by
    intro x y hx hy
    rcases lt_or_gt_of_ne hy with h | h
    · have := tmod_pos_case x (-y) hx (by omega)
      rw [Int.tmod_neg] at this
      rw [abs_of_neg h]
      exact this
    · have := tmod_pos_case x y hx h
      rw [abs_of_pos h]
      exact this
  refine ⟨fun ha => ⟨(key a b ha hb).1, (key a b ha hb).2.1⟩, fun ha => ?_, ?_⟩
  · have := key (-a) b (by omega) hb
    rw [tmod_neg_left] at this
    omega
  · rcases le_total 0 a with ha | ha
    · have := key a b ha hb
      rw [abs_of_nonneg this.1]
      exact this.2.2
    · have := key (-a) b (by omega) hb
      rw [tmod_neg_left] at this
      rw [abs_of_nonpos (by omega)]
      exact this.2.2

/-- The truncated quotient is no larger than the dividend in absolute value,
and at most half of it when the divisor is not a unit. -/
theorem tdiv_bounds (a b : Int) :
    |Int.tdiv a b| ≤ |a| ∧ (2 ≤ |b| → 2 * |Int.tdiv a b| ≤ |a|) := by
  have h := Int.natAbs_tdiv a b
  have e1 : |Int.tdiv a b| = ((Int.tdiv a b).natAbs : Int) := Int.abs_eq_natAbs _
  have e2 : |a| = (a.natAbs : Int) := Int.abs_eq_natAbs _
  have e3 : |b| = (b.natAbs : Int) := Int.abs_eq_natAbs _
  rw [e1, e2, e3, h]
  have hq : a.natAbs.div b.natAbs = a.natAbs / b.natAbs := rfl
  rw [hq]
  constructor
  · exact_mod_cast Nat.div_le_self _ _
  · intro h2
    have h2n : 2 ≤ b.natAbs := by exact_mod_cast h2
    have hle := Nat.div_mul_le_self a.natAbs b.natAbs
    have : 2 * (a.natAbs / b.natAbs) ≤ a.natAbs := by
      calc 2 * (a.natAbs / b.natAbs) ≤ b.natAbs * (a.natAbs / b.natAbs) :=
            Nat.mul_le_mul_right _ h2n
        _ = a.natAbs / b.natAbs * b.natAbs := Nat.mul_comm _ _
        _ ≤ a.natAbs := hle
    exact_mod_cast this

/-- The truncated quotient of two `int`s is an `int`, but for the one
overflowing pair. -/
theorem tdiv_isInt (a b : Int) (ha : IsInt a) (hov : ¬(a = minInt ∧ b = -1)) :
    IsInt (Int.tdiv a b) := by
  have hq := tdiv_bounds a b
  have ca := abs_cases a
  have cb := abs_cases b
  have cq := abs_cases (Int.tdiv a b)
  unfold IsInt minInt maxInt at *
  by_cases h1 : b = 1
  · subst h1
    simpa using ha
  by_cases h2 : b = -1
  · subst h2
    have : Int.tdiv a (-1) = -a := by simp
    rw [this]
    omega
  by_cases h0 : b = 0
  · subst h0
    simp
  have h3 : 2 ≤ |b| := by omega
  have := hq.2 h3
  omega

/-- Go's division on `int`: the result is an `int`; it is the truncated
quotient, and satisfies the division identity exactly, but for
`minInt / -1`, which overflows to `minInt`; the division identity holds in
the arithmetic of the width in every case. -/
theorem goDiv_spec (a b : Int) (ha : IsInt a) (hb0 : b ≠ 0) :
    IsInt (goDiv a b) ∧
    wrapInt (wrapInt (goDiv a b * b) + goRem a b) = a ∧
    (¬(a = minInt ∧ b = -1) → goDiv a b = Int.tdiv a b ∧ goDiv a b * b + goRem a b = a) ∧
    (a = minInt ∧ b = -1 → goDiv a b = minInt) := by
  have main : ¬(a = minInt ∧ b = -1) →
      goDiv a b = Int.tdiv a b ∧ goDiv a b * b + goRem a b = a := by
    intro hov
    have e : goDiv a b = Int.tdiv a b := wrapInt_of_isInt _ (tdiv_isInt a b ha hov)
    refine ⟨e, ?_⟩
    rw [e]
    exact Int.tdiv_add_tmod' a b
  refine ⟨isInt_wrapInt _, ?_, main, ?_⟩
  · by_cases hov : a = minInt ∧ b = -1
    · obtain ⟨rfl, rfl⟩ := hov
      decide
    · obtain ⟨_, h⟩ := main hov
      have hr := tmod_bounds a b hb0
      have hp : IsInt (goDiv a b * b) := by
        unfold goRem at h
        unfold IsInt minInt maxInt at *
        omega
      rw [wrapInt_of_isInt _ hp, h, wrapInt_of_isInt _ ha]
  · rintro ⟨rfl, rfl⟩
    decide

/-! ## Short-circuit evaluation -/

/-- C1. Short-circuit: when the left operand evaluates to a falsy value,
`left && right` returns `false` in the world that this one evaluation of
`left` produced; when it evaluates to a truthy value, `left || right` returns
that value in the world that this one evaluation of `left` produced.  The
right operand is arbitrary (it may change the world or panic) and has no part
in the outcome: it is never evaluated, and `left` is evaluated exactly once. -/
theorem short_circuit {σ : Type} (rt : Runtime σ) (left right : Expression σ)
    (ctx : ContextPtr) (s s1 : σ) (lv : Value)
    (hl : (left.Evaluate ctx).run s = (.ok lv, s1)) :
    (rt.Truth lv ctx s1 = false →
      (BinaryExpression.Evaluate rt ⟨left, .ttLogicalAnd, right⟩ ctx).run s
        = (.ok (.boolean false), s1)) ∧
    (rt.Truth lv ctx s1 = true →
      (BinaryExpression.Evaluate rt ⟨left, .ttLogicalOr, right⟩ ctx).run s
        = (.ok lv, s1)) := by
  constructor <;> intro hf <;>
  simp [BinaryExpression.Evaluate, BinaryExpression.operands, BinaryExpression.dispatch,
    nilBlock, booleanBlock, numberBlock, stringBlock, logicalBlock, Eval.run_bind, hl, hf,
    Value.Type]

/-- Witness of C1: from a world where `x` is `0`, `x++ && (y = 1)` is `false`
and `++x || (y = 1)` is `1`; either way `x` was incremented once and `y` was
never assigned. -/
theorem short_circuit_witness :
    (BinaryExpression.Evaluate worldRuntime
        ⟨IncrementDecrementExpression.toExpression ⟨false, .ttIncrement, variableRef "x"⟩,
          .ttLogicalAnd,
          AssignmentExpression.toExpression ⟨variableRef "y", literal (.number 1)⟩⟩ 0).run
        ⟨[("x", .number 0)], [], []⟩
      = (.ok (.boolean false), ⟨[("x", .number 1)], [], []⟩) ∧
    (BinaryExpression.Evaluate worldRuntime
        ⟨IncrementDecrementExpression.toExpression ⟨true, .ttIncrement, variableRef "x"⟩,
          .ttLogicalOr,
          AssignmentExpression.toExpression ⟨variableRef "y", literal (.number 1)⟩⟩ 0).run
        ⟨[("x", .number 0)], [], []⟩
      = (.ok (.number 1), ⟨[("x", .number 1)], [], []⟩) :=
  ⟨(short_circuit worldRuntime
      (IncrementDecrementExpression.toExpression ⟨false, .ttIncrement, variableRef "x"⟩)
      (AssignmentExpression.toExpression ⟨variableRef "y", literal (.number 1)⟩) 0
      ⟨[("x", .number 0)], [], []⟩ ⟨[("x", .number 1)], [], []⟩ (.number 0)
      (by decide)).1 (by decide),
   (short_circuit worldRuntime
      (IncrementDecrementExpression.toExpression ⟨true, .ttIncrement, variableRef "x"⟩)
      (AssignmentExpression.toExpression ⟨variableRef "y", literal (.number 1)⟩) 0
      ⟨[("x", .number 0)], [], []⟩ ⟨[("x", .number 1)], [], []⟩ (.number 1)
      (by decide)).2 (by decide)⟩

/-! ## Division -/

/-- C2. For Number operands `a` and `b` with `b ≠ 0`, the division raises no
error and returns `Number(q)` with `q` an `int`: `q` is the quotient of `a` by
`b` truncated toward zero and `q * b + a % b = a` (but for `minInt / -1`, where
the quotient overflows to `minInt`), the identity `q * b + a % b = a` holds in
the arithmetic of the width in every case, and the remainder `a % b` has the
sign of `a` and is smaller than `b` in absolute value. -/
theorem division_truncates {σ : Type} (rt : Runtime σ) (left right : Expression σ)
    (ctx : ContextPtr) (s s1 s2 : σ) (a b : Int)
    (hl : (left.Evaluate ctx).run s = (.ok (.number a), s1))
    (hr : (right.Evaluate ctx).run s1 = (.ok (.number b), s2))
    (ha : IsInt a) (hb : IsInt b) (hb0 : b ≠ 0) :
    ∃ q : Int,
      (BinaryExpression.Evaluate rt ⟨left, .ttDivision, right⟩ ctx).run s
        = (.ok (.number q), s2) ∧
      IsInt q ∧
      (¬(a = minInt ∧ b = -1) → q = Int.tdiv a b ∧ q * b + goRem a b = a) ∧
      (a = minInt ∧ b = -1 → q = minInt) ∧
      wrapInt (wrapInt (q * b) + goRem a b) = a ∧
      (0 ≤ a → 0 ≤ goRem a b) ∧ (a ≤ 0 → goRem a b ≤ 0) ∧ |goRem a b| < |b| := by
  have hspec := goDiv_spec a b ha hb0
  have hrem := tmod_bounds a b hb0
  have _ := hb
  refine ⟨goDiv a b, ?_, hspec.1, hspec.2.2.1, hspec.2.2.2, hspec.2.1,
    fun h => (hrem.1 h).1, fun h => (hrem.2.1 h).2, hrem.2.2⟩
  rw [BinaryExpression.run_eager rt ⟨left, .ttDivision, right⟩ ctx s s1 s2 _ _
    (by simp) (by simp) hl hr]
  simp [BinaryExpression.dispatch, nilBlock, booleanBlock, numberBlock, Value.Type, hb0]

/-- Witness of C2: `-7 / 2` is `-3`. -/
theorem division_truncates_witness :
    ∃ q : Int,
      (BinaryExpression.Evaluate worldRuntime
        ⟨literal (.number (-7)), .ttDivision, literal (.number 2)⟩ 0).run emptyWorld
        = (.ok (.number q), emptyWorld) ∧
      IsInt q ∧
      (¬((-7 : Int) = minInt ∧ (2 : Int) = -1) →
        q = Int.tdiv (-7) 2 ∧ q * 2 + goRem (-7) 2 = -7) ∧
      ((-7 : Int) = minInt ∧ (2 : Int) = -1 → q = minInt) ∧
      wrapInt (wrapInt (q * 2) + goRem (-7) 2) = -7 ∧
      ((0 : Int) ≤ -7 → 0 ≤ goRem (-7) 2) ∧ ((-7 : Int) ≤ 0 → goRem (-7) 2 ≤ 0) ∧
      |goRem (-7) 2| < |(2 : Int)| :=
  division_truncates worldRuntime (literal (.number (-7))) (literal (.number 2)) 0
    emptyWorld emptyWorld emptyWorld (-7) 2 rfl rfl (by decide) (by decide) (by decide)

/-- Counterexample to C3: `7 / 0` raises the error that the source constructs
with `NewTypeError("divide by zero")`, which is a TypeError and not a
DivideByZeroError. -/
theorem division_by_zero_not_own_kind :
    ((BinaryExpression.Evaluate worldRuntime
        ⟨literal (.number 7), .ttDivision, literal (.number 0)⟩ 0).run emptyWorld).1
      = .error (.TypeError "divide by zero") ∧
    ((BinaryExpression.Evaluate worldRuntime
        ⟨literal (.number 7), .ttDivision, literal (.number 0)⟩ 0).run emptyWorld).1
      ≠ .error .DivideByZeroError := by
  decide

/-- C3, amended. For every Number `a`, evaluating `a / 0` returns no value and
raises the TypeError with the message "divide by zero", in the world reached
by the evaluation of the two operands. -/
theorem division_by_zero_raises {σ : Type} (rt : Runtime σ) (left right : Expression σ)
    (ctx : ContextPtr) (s s1 s2 : σ) (a : Int)
    (hl : (left.Evaluate ctx).run s = (.ok (.number a), s1))
    (hr : (right.Evaluate ctx).run s1 = (.ok (.number 0), s2)) :
    (BinaryExpression.Evaluate rt ⟨left, .ttDivision, right⟩ ctx).run s
      = (.error (.TypeError "divide by zero"), s2) := by
  rw [BinaryExpression.run_eager rt ⟨left, .ttDivision, right⟩ ctx s s1 s2 _ _
    (by simp) (by simp) hl hr]
  simp [BinaryExpression.dispatch, nilBlock, booleanBlock, numberBlock, Value.Type]

/-- Witness of C3: `x / 0` where `x` is `-4`. -/
theorem division_by_zero_raises_witness :
    (BinaryExpression.Evaluate worldRuntime
        ⟨variableRef "x", .ttDivision, literal (.number 0)⟩ 0).run
        ⟨[("x", .number (-4))], [], []⟩
      = (.error (.TypeError "divide by zero"), ⟨[("x", .number (-4))], [], []⟩) :=
  division_by_zero_raises worldRuntime (variableRef "x") (literal (.number 0)) 0
    ⟨[("x", .number (-4))], [], []⟩ ⟨[("x", .number (-4))], [], []⟩
    ⟨[("x", .number (-4))], [], []⟩ (-4) rfl rfl

/-! ## Pairings outside the table -/

/-- Counterexample to C5: `2 + Nil` raises a SyntaxError, not a TypeError. -/
theorem number_plus_nil_not_type_error :
    ((BinaryExpression.Evaluate worldRuntime
        ⟨literal (.number 2), .ttAddition, literal .nil⟩ 0).run emptyWorld).1
      = .error (.SyntaxError "unknown binary operator and operands") ∧
    ¬ ∃ msg, ((BinaryExpression.Evaluate worldRuntime
        ⟨literal (.number 2), .ttAddition, literal .nil⟩ 0).run emptyWorld).1
      = .error (.TypeError msg) := by
  refine ⟨by decide, ?_⟩
  rintro ⟨msg, h⟩
  have h2 : ((BinaryExpression.Evaluate worldRuntime
        ⟨literal (.number 2), .ttAddition, literal .nil⟩ 0).run emptyWorld).1
      = .error (.SyntaxError "unknown binary operator and operands") := by decide
  rw [h2] at h
  cases h

/-- C5, amended. For every Number `a`, `a + Nil` returns no value and raises
the SyntaxError "unknown binary operator and operands"; and binding the
parameters `a`, `b` of `add` to the single argument `2` binds `b` to `Nil`, so
that the body's `a + b` raises this SyntaxError. -/
theorem number_plus_nil_raises {σ : Type} (rt : Runtime σ) (left right : Expression σ)
    (ctx : ContextPtr) (s s1 s2 : σ) (a : Int)
    (hl : (left.Evaluate ctx).run s = (.ok (.number a), s1))
    (hr : (right.Evaluate ctx).run s1 = (.ok .nil, s2)) :
    (BinaryExpression.Evaluate rt ⟨left, .ttAddition, right⟩ ctx).run s
      = (.error (.SyntaxError "unknown binary operator and operands"), s2) ∧
    ((Parameters.BindArguments addSymbol ⟨["a", "b"]⟩ 0 [.number 2]) >>= fun _ =>
        BinaryExpression.Evaluate worldRuntime
          ⟨variableRef "a", .ttAddition, variableRef "b"⟩ 0).run emptyWorld
      = (.error (.SyntaxError "unknown binary operator and operands"),
          ⟨[("a", .number 2), ("b", .nil)], [], []⟩) := by
  refine ⟨?_, by decide⟩
  rw [BinaryExpression.run_eager rt ⟨left, .ttAddition, right⟩ ctx s s1 s2 _ _
    (by simp) (by simp) hl hr]
  simp [BinaryExpression.dispatch, nilBlock, booleanBlock, numberBlock, stringBlock,
    logicalBlock, builtinBlock, Value.Type]

/-- Witness of C5: `a + b` where `a` is `2` and `b` is `Nil`. -/
theorem number_plus_nil_raises_witness :
    (BinaryExpression.Evaluate worldRuntime
        ⟨variableRef "a", .ttAddition, variableRef "b"⟩ 0).run
        ⟨[("a", .number 2), ("b", .nil)], [], []⟩
      = (.error (.SyntaxError "unknown binary operator and operands"),
          ⟨[("a", .number 2), ("b", .nil)], [], []⟩) :=
  (number_plus_nil_raises worldRuntime (variableRef "a") (variableRef "b") 0
    ⟨[("a", .number 2), ("b", .nil)], [], []⟩ ⟨[("a", .number 2), ("b", .nil)], [], []⟩
    ⟨[("a", .number 2), ("b", .nil)], [], []⟩ 2 rfl rfl).1

/-- Outside the table of the specification, the dispatch of an eager operator
on two values raises a SyntaxError. -/
theorem BinaryExpression.dispatch_undefined {σ : Type} (rt : Runtime σ)
    (b : BinaryExpression σ) (ctx : ContextPtr) (lv rv : Value) (s : σ)
    (hand : b.op ≠ .ttLogicalAnd) (hor : b.op ≠ .ttLogicalOr)
    (hout : definedPairing b.op lv.Type rv.Type = false) :
    ∃ msg, (b.dispatch rt ctx lv rv).run s = (.error (.SyntaxError msg), s) := by
  obtain ⟨left, op, right⟩ := b
  simp only at hand hor hout
  cases lv <;> cases rv <;>
    first
    | (refine ⟨"unknown binary operator and operands", ?_⟩
       simp [BinaryExpression.dispatch, nilBlock, booleanBlock, numberBlock, stringBlock,
         logicalBlock, builtinBlock, Value.Type, hand, hor]
       done)
    | (cases op <;>
        simp [definedPairing, Value.Type] at hout hand hor <;>
        first
        | (refine ⟨"unknown binary operator and operands", ?_⟩
           simp [BinaryExpression.dispatch, nilBlock, booleanBlock, numberBlock,
             stringBlock, logicalBlock, builtinBlock, Value.Type]
           done)
        | (refine ⟨"not supported operator on two strings", ?_⟩
           simp [BinaryExpression.dispatch, nilBlock, booleanBlock, numberBlock,
             stringBlock, logicalBlock, builtinBlock, Value.Type]
           done)
        | (refine ⟨"not supported operator on two builtins", ?_⟩
           simp [BinaryExpression.dispatch, nilBlock, booleanBlock, numberBlock,
             stringBlock, logicalBlock, builtinBlock, Value.Type]))

/-- C6. For every operator other than the two logical ones and every pair of
operand values outside the table of defined pairings, the evaluation returns no
value and raises a SyntaxError, in the world reached by the evaluation of the
two operands; this is so in particular for every such operator, `==` and `!=`
included, between operands of two different kinds. -/
theorem undefined_pairing_raises {σ : Type} (rt : Runtime σ) (left right : Expression σ)
    (op : TokenType) (ctx : ContextPtr) (s s1 s2 : σ) (lv rv : Value)
    (hand : op ≠ .ttLogicalAnd) (hor : op ≠ .ttLogicalOr)
    (hl : (left.Evaluate ctx).run s = (.ok lv, s1))
    (hr : (right.Evaluate ctx).run s1 = (.ok rv, s2)) :
    (definedPairing op lv.Type rv.Type = false →
      ∃ msg, (BinaryExpression.Evaluate rt ⟨left, op, right⟩ ctx).run s
        = (.error (.SyntaxError msg), s2)) ∧
    (lv.Type ≠ rv.Type →
      ∃ msg, (BinaryExpression.Evaluate rt ⟨left, op, right⟩ ctx).run s
        = (.error (.SyntaxError msg), s2)) := by
  have hrun := BinaryExpression.run_eager rt ⟨left, op, right⟩ ctx s s1 s2 lv rv hand hor hl hr
  have hout : definedPairing op lv.Type rv.Type = false →
      ∃ msg, (BinaryExpression.Evaluate rt ⟨left, op, right⟩ ctx).run s
        = (.error (.SyntaxError msg), s2) := by
    intro h
    rw [hrun]
    exact BinaryExpression.dispatch_undefined rt ⟨left, op, right⟩ ctx lv rv s2 hand hor h
  refine ⟨hout, fun hne => hout ?_⟩
  cases lv <;> cases rv <;> simp [definedPairing, Value.Type] at hne ⊢

/-- Witness of C6: `1 == "1"`, and `true < false`. -/
theorem undefined_pairing_raises_witness :
    (∃ msg, (BinaryExpression.Evaluate worldRuntime
        ⟨literal (.number 1), .ttEqual, literal (.string "1")⟩ 0).run emptyWorld
        = (.error (.SyntaxError msg), emptyWorld)) ∧
    (∃ msg, (BinaryExpression.Evaluate worldRuntime
        ⟨literal (.boolean true), .ttLessThan, literal (.boolean false)⟩ 0).run emptyWorld
        = (.error (.SyntaxError msg), emptyWorld)) :=
  ⟨(undefined_pairing_raises worldRuntime (literal (.number 1)) (literal (.string "1"))
      .ttEqual 0 emptyWorld emptyWorld emptyWorld (.number 1) (.string "1")
      (by decide) (by decide) rfl rfl).2 (by decide),
   (undefined_pairing_raises worldRuntime (literal (.boolean true)) (literal (.boolean false))
      .ttLessThan 0 emptyWorld emptyWorld emptyWorld (.boolean true) (.boolean false)
      (by decide) (by decide) rfl rfl).1 (by decide)⟩

/-! ## Strings -/

/-- C7. For String operands `x` and `y`: `x + y` is the String `x` followed by
`y`; `x == y` and `x != y` are the Booleans of the equality and inequality of
the contents; every other operator that evaluates its operands eagerly raises
the SyntaxError "not supported operator on two strings"; and
`"a" + "b" == "ab"` is `true`. -/
theorem string_operators {σ : Type} (rt : Runtime σ) (left right : Expression σ)
    (ctx : ContextPtr) (s s1 s2 : σ) (x y : String)
    (hl : (left.Evaluate ctx).run s = (.ok (.string x), s1))
    (hr : (right.Evaluate ctx).run s1 = (.ok (.string y), s2)) :
    (BinaryExpression.Evaluate rt ⟨left, .ttAddition, right⟩ ctx).run s
      = (.ok (.string (x ++ y)), s2) ∧
    (BinaryExpression.Evaluate rt ⟨left, .ttEqual, right⟩ ctx).run s
      = (.ok (.boolean (decide (x = y))), s2) ∧
    (BinaryExpression.Evaluate rt ⟨left, .ttNotEqual, right⟩ ctx).run s
      = (.ok (.boolean (decide (x ≠ y))), s2) ∧
    (∀ op : TokenType, op ≠ .ttLogicalAnd → op ≠ .ttLogicalOr →
      op ≠ .ttAddition → op ≠ .ttEqual → op ≠ .ttNotEqual →
      (BinaryExpression.Evaluate rt ⟨left, op, right⟩ ctx).run s
        = (.error (.SyntaxError "not supported operator on two strings"), s2)) ∧
    (BinaryExpression.Evaluate worldRuntime
        ⟨BinaryExpression.toExpression worldRuntime
            ⟨literal (.string "a"), .ttAddition, literal (.string "b")⟩,
          .ttEqual, literal (.string "ab")⟩ 0).run emptyWorld
      = (.ok (.boolean true), emptyWorld) := by
  refine ⟨?_, ?_, ?_, ?_, by decide⟩
  · rw [BinaryExpression.run_eager rt ⟨left, .ttAddition, right⟩ ctx s s1 s2 _ _
      (by simp) (by simp) hl hr]
    simp [BinaryExpression.dispatch, nilBlock, booleanBlock, numberBlock, stringBlock,
      Value.Type]
  · rw [BinaryExpression.run_eager rt ⟨left, .ttEqual, right⟩ ctx s s1 s2 _ _
      (by simp) (by simp) hl hr]
    simp [BinaryExpression.dispatch, nilBlock, booleanBlock, numberBlock, stringBlock,
      Value.Type]
  · rw [BinaryExpression.run_eager rt ⟨left, .ttNotEqual, right⟩ ctx s s1 s2 _ _
      (by simp) (by simp) hl hr]
    simp [BinaryExpression.dispatch, nilBlock, booleanBlock, numberBlock, stringBlock,
      Value.Type]
  · intro op hand hor hadd heq hne
    rw [BinaryExpression.run_eager rt ⟨left, op, right⟩ ctx s s1 s2 _ _ hand hor hl hr]
    cases op <;>
      simp [BinaryExpression.dispatch, nilBlock, booleanBlock, numberBlock, stringBlock,
        Value.Type] at hadd heq hne ⊢

/-- Witness of C7: `"a" - "b"` raises the SyntaxError, and `"a" + "b"` is
`"ab"`. -/
theorem string_operators_witness :
    (BinaryExpression.Evaluate worldRuntime
        ⟨literal (.string "a"), .ttSubtraction, literal (.string "b")⟩ 0).run emptyWorld
      = (.error (.SyntaxError "not supported operator on two strings"), emptyWorld) ∧
    (BinaryExpression.Evaluate worldRuntime
        ⟨literal (.string "a"), .ttAddition, literal (.string "b")⟩ 0).run emptyWorld
      = (.ok (.string ("a" ++ "b")), emptyWorld) :=
  ⟨(string_operators worldRuntime (literal (.string "a")) (literal (.string "b")) 0
      emptyWorld emptyWorld emptyWorld "a" "b" rfl rfl).2.2.2.1 .ttSubtraction
      (by decide) (by decide) (by decide) (by decide) (by decide),
   (string_operators worldRuntime (literal (.string "a")) (literal (.string "b")) 0
      emptyWorld emptyWorld emptyWorld "a" "b" rfl rfl).1⟩

/-! ## Increment and decrement -/

/-- C4. For an operand that is assignable and evaluates to `Number(n)`: the
outcome of `++` (of `--`) is that of evaluating the operand once and then
calling its `Assign` once with `Number(n+1)` (with `Number(n-1)`), the sum
being that of the `int`s, which is `n+1` whenever `n` is not the greatest
`int` (`n-1` whenever `n` is not the least); the value returned is the new
value when prefix and the old value `Number(n)` when postfix.  After `x = 5`,
`x++` has the value `5` and leaves `x` reading `6`. -/
theorem increment_decrement {σ : Type} (i : IncrementDecrementExpression σ)
    (ctx : ContextPtr) (s s1 : σ) (n : Int) (assign : ContextPtr → Value → Eval σ Unit)
    (he : (i.expr.Evaluate ctx).run s = (.ok (.number n), s1))
    (ha : i.expr.Assigner = some assign) (hn : IsInt n) :
    (i.op = .ttIncrement →
      (i.Evaluate ctx).run s =
        match (assign ctx (.number (wrapInt (n + 1)))).run s1 with
        | (.ok _, s2) => (.ok (if i.pre then .number (wrapInt (n + 1)) else .number n), s2)
        | (.error e, s2) => (.error e, s2)) ∧
    (i.op = .ttDecrement →
      (i.Evaluate ctx).run s =
        match (assign ctx (.number (wrapInt (n - 1)))).run s1 with
        | (.ok _, s2) => (.ok (if i.pre then .number (wrapInt (n - 1)) else .number n), s2)
        | (.error e, s2) => (.error e, s2)) ∧
    (n < maxInt → wrapInt (n + 1) = n + 1) ∧
    (minInt < n → wrapInt (n - 1) = n - 1) ∧
    ((AssignmentExpression.Evaluate ⟨variableRef "x", literal (.number 5)⟩ 0 >>= fun _ =>
        IncrementDecrementExpression.Evaluate ⟨false, .ttIncrement, variableRef "x"⟩ 0
          >>= fun r => (variableRef "x").Evaluate 0 >>= fun x => pure (r, x)).run
        ⟨[("x", .nil)], [], []⟩
      = (.ok (.number 5, .number 6), ⟨[("x", .number 6)], [], []⟩)) := by
  refine ⟨?_, ?_, ?_, ?_, by decide⟩
  · intro hop
    simp only [IncrementDecrementExpression.Evaluate, Eval.run_bind, he, ha, hop, newnum]
    cases h : (assign ctx (.number (wrapInt (n + 1)))).run s1 with
    | mk r s2 => cases r <;> cases hp : i.pre <;> simp
  · intro hop
    simp only [IncrementDecrementExpression.Evaluate, Eval.run_bind, he, ha, hop, newnum]
    cases h : (assign ctx (.number (wrapInt (n - 1)))).run s1 with
    | mk r s2 => cases r <;> cases hp : i.pre <;> simp
  · intro h
    apply wrapInt_of_isInt
    unfold IsInt minInt maxInt at *
    omega
  · intro h
    apply wrapInt_of_isInt
    unfold IsInt minInt maxInt at *
    omega

/-- Witness of C4: from a world where `x` is `5`, `--x` has the value `4` and
leaves `x` reading `4`. -/
theorem increment_decrement_witness :
    (IncrementDecrementExpression.Evaluate ⟨true, .ttDecrement, variableRef "x"⟩ 0).run
        ⟨[("x", .number 5)], [], []⟩
      = (.ok (.number 4), ⟨[("x", .number 4)], [], []⟩) :=
  (increment_decrement ⟨true, .ttDecrement, variableRef "x"⟩ 0
    ⟨[("x", .number 5)], [], []⟩ ⟨[("x", .number 5)], [], []⟩ 5
    (fun _ val => ⟨fun w => (.ok (), { w with symbols := putKey "x" val w.symbols })⟩)
    rfl rfl (by decide)).2.1 rfl

/-! ## Assignment -/

/-- Counterexample to C8: `1 / 0` is not assignable, and assigning to it raises
the TypeError of the division, not a NotAssignableError. -/
theorem assignment_left_error_propagates :
    (BinaryExpression.toExpression worldRuntime
        ⟨literal (.number 1), .ttDivision, literal (.number 0)⟩).Assigner.isNone = true ∧
    ((AssignmentExpression.Evaluate
        ⟨BinaryExpression.toExpression worldRuntime
          ⟨literal (.number 1), .ttDivision, literal (.number 0)⟩,
         literal (.number 5)⟩ 0).run emptyWorld).1
      = .error (.TypeError "divide by zero") ∧
    ¬ ∃ v, ((AssignmentExpression.Evaluate
        ⟨BinaryExpression.toExpression worldRuntime
          ⟨literal (.number 1), .ttDivision, literal (.number 0)⟩,
         literal (.number 5)⟩ 0).run emptyWorld).1
      = .error (.NotAssignableError v) := by
  have h : ((AssignmentExpression.Evaluate
        ⟨BinaryExpression.toExpression worldRuntime
          ⟨literal (.number 1), .ttDivision, literal (.number 0)⟩,
         literal (.number 5)⟩ 0).run emptyWorld).1
      = .error (.TypeError "divide by zero") := by decide
  refine ⟨rfl, h, ?_⟩
  rintro ⟨v, hv⟩
  rw [h] at hv
  cases hv

/-- C8, amended. When the left expression is an Assigner: the right expression
is evaluated once; if it returns a value, the left's `Assign` is called once
with that value, in the world reached, and the result is that same value; if
it raises, nothing is assigned.  When the left expression is not an Assigner:
the left expression is evaluated once; if it returns a value, the
NotAssignableError carrying that value is raised, and if it raises, its error
is the outcome; either way the world is the one this evaluation reached: the
right expression is never evaluated and no `Assign` is performed. -/
theorem assignment_evaluate {σ : Type} (a : AssignmentExpression σ) (ctx : ContextPtr)
    (s : σ) :
    (∀ assign, a.left.Assigner = some assign →
      (∀ v s1, (a.right.Evaluate ctx).run s = (.ok v, s1) →
        (a.Evaluate ctx).run s =
          match (assign ctx v).run s1 with
          | (.ok _, s2) => (.ok v, s2)
          | (.error e, s2) => (.error e, s2)) ∧
      (∀ e s1, (a.right.Evaluate ctx).run s = (.error e, s1) →
        (a.Evaluate ctx).run s = (.error e, s1))) ∧
    (a.left.Assigner = none →
      (∀ v s1, (a.left.Evaluate ctx).run s = (.ok v, s1) →
        (a.Evaluate ctx).run s = (.error (.NotAssignableError v), s1)) ∧
      (∀ e s1, (a.left.Evaluate ctx).run s = (.error e, s1) →
        (a.Evaluate ctx).run s = (.error e, s1))) := by
  refine ⟨fun assign ha => ⟨fun v s1 hr => ?_, fun e s1 hr => ?_⟩,
    fun ha => ⟨fun v s1 hl => ?_, fun e s1 hl => ?_⟩⟩
  · simp only [AssignmentExpression.Evaluate, ha, Eval.run_bind, hr]
    cases h : (assign ctx v).run s1 with
    | mk r s2 => cases r <;> simp
  · simp only [AssignmentExpression.Evaluate, ha, Eval.run_bind, hr]
  · simp only [AssignmentExpression.Evaluate, ha, Eval.run_bind, hl, Eval.run_raise]
  · simp only [AssignmentExpression.Evaluate, ha, Eval.run_bind, hl]

/-- Witness of C8: `x = 5` binds `x` and has the value `5`; `7 = (x = 5)`
raises the NotAssignableError carrying `7` and leaves `x` unbound. -/
theorem assignment_evaluate_witness :
    (AssignmentExpression.Evaluate ⟨variableRef "x", literal (.number 5)⟩ 0).run emptyWorld
      = (.ok (.number 5), ⟨[("x", .number 5)], [], []⟩) ∧
    (AssignmentExpression.Evaluate
        ⟨literal (.number 7),
         AssignmentExpression.toExpression ⟨variableRef "x", literal (.number 5)⟩⟩ 0).run
        emptyWorld
      = (.error (.NotAssignableError (.number 7)), emptyWorld) :=
  ⟨((assignment_evaluate ⟨variableRef "x", literal (.number 5)⟩ 0 emptyWorld).1
      (fun _ val => ⟨fun w => (.ok (), { w with symbols := putKey "x" val w.symbols })⟩)
      rfl).1 (.number 5) emptyWorld rfl,
   ((assignment_evaluate
      ⟨literal (.number 7),
       AssignmentExpression.toExpression ⟨variableRef "x", literal (.number 5)⟩⟩ 0
      emptyWorld).2 rfl).1 (.number 7) emptyWorld rfl⟩

/-! ## Indexing -/

/-- The read dispatch on a known key and indexed value falls in exactly one of
four classes, none of which is the trailing panic of the source. -/
theorem indexRead_classified {σ : Type} (obj : Option (IObject σ)) (arr : Option (IArray σ))
    (v key : Value) :
    (∃ name o, key = .string name ∧ obj = some o ∧ indexRead obj arr v key = o.GetProp name) ∨
    (∃ n a, key = .number n ∧ arr = some a ∧ indexRead obj arr v key = a.GetElem n) ∨
    (obj = none ∧ arr = none ∧
      indexRead obj arr v key = Eval.raise (.NotIndexableError v)) ∨
    ((obj ≠ none ∨ arr ≠ none) ∧ (∀ name, key = .string name → obj = none) ∧
      (∀ n, key = .number n → arr = none) ∧
      indexRead obj arr v key = Eval.raise (.KeyTypeError key)) := by
  cases obj <;> cases arr <;> cases key <;> simp [indexRead, Value.Type]

/-- The write dispatch on a known key writes in the two classes where the read
dispatch reads, and raises the KeyTypeError in every other. -/
theorem indexWrite_classified {σ : Type} (obj : Option (IObject σ)) (arr : Option (IArray σ))
    (key val : Value) :
    (∃ name o, key = .string name ∧ obj = some o ∧
      indexWrite obj arr key val = o.SetProp name val) ∨
    (∃ n a, key = .number n ∧ arr = some a ∧ indexWrite obj arr key val = a.SetElem n val) ∨
    ((∀ name, key = .string name → obj = none) ∧ (∀ n, key = .number n → arr = none) ∧
      indexWrite obj arr key val = Eval.raise (.KeyTypeError key)) := by
  cases obj <;> cases arr <;> cases key <;> simp [indexWrite]

/-- The read evaluates the key, then the indexed value, and dispatches in the
world reached. -/
theorem IndexExpression.run_read {σ : Type} (rt : Runtime σ) (i : IndexExpression σ)
    (ctx : ContextPtr) (s s1 s2 : σ) (key v : Value)
    (hk : (i.key.Evaluate ctx).run s = (.ok key, s1))
    (hv : (i.indexable.Evaluate ctx).run s1 = (.ok v, s2)) :
    (i.Evaluate rt ctx).run s
      = (indexRead (rt.asIObject v) (rt.asIArray v) v key).run s2 := by
  simp only [IndexExpression.Evaluate, Eval.run_bind, hk, hv]

/-- C9. Once the key and the indexed value are evaluated, the outcome of
`IndexExpression.Evaluate` is classified by the capabilities of the indexed
value and the kind of the key, in exactly one of four ways: a String key on a
value with the name capability gives the outcome of `GetProp` on that key; a
Number key on a value with the number capability gives the outcome of
`GetElem` on that key; a value with neither capability raises the
NotIndexableError; every other combination, where the value has a capability,
raises the KeyTypeError.  The four classes cover every input, so the trailing
panic of the source is never reached. -/
theorem index_evaluate_classified {σ : Type} (rt : Runtime σ) (i : IndexExpression σ)
    (ctx : ContextPtr) (s s1 s2 : σ) (key v : Value)
    (hk : (i.key.Evaluate ctx).run s = (.ok key, s1))
    (hv : (i.indexable.Evaluate ctx).run s1 = (.ok v, s2)) :
    (∃ name o, key = .string name ∧ rt.asIObject v = some o ∧
      (i.Evaluate rt ctx).run s = (o.GetProp name).run s2) ∨
    (∃ n a, key = .number n ∧ rt.asIArray v = some a ∧
      (i.Evaluate rt ctx).run s = (a.GetElem n).run s2) ∨
    (rt.asIObject v = none ∧ rt.asIArray v = none ∧
      (i.Evaluate rt ctx).run s = (.error (.NotIndexableError v), s2)) ∨
    ((rt.asIObject v ≠ none ∨ rt.asIArray v ≠ none) ∧
      (∀ name, key = .string name → rt.asIObject v = none) ∧
      (∀ n, key = .number n → rt.asIArray v = none) ∧
      (i.Evaluate rt ctx).run s = (.error (.KeyTypeError key), s2)) := by
  rw [IndexExpression.run_read rt i ctx s s1 s2 key v hk hv]
  rcases indexRead_classified (rt.asIObject v) (rt.asIArray v) v key with
    ⟨name, o, h1, h2, h3⟩ | ⟨n, a, h1, h2, h3⟩ | ⟨h1, h2, h3⟩ | ⟨h1, h2, h3, h4⟩
  · exact Or.inl ⟨name, o, h1, h2, by rw [h3]⟩
  · exact Or.inr (Or.inl ⟨n, a, h1, h2, by rw [h3]⟩)
  · exact Or.inr (Or.inr (Or.inl ⟨h1, h2, by rw [h3]; rfl⟩))
  · exact Or.inr (Or.inr (Or.inr ⟨h1, h2, h3, by rw [h4]; rfl⟩))

/-- Witness of C9: `o.k` reads the property, where `o` is the object at
address `1`, and the value read is `7`. -/
theorem index_evaluate_classified_witness :
    ((∃ name o, Value.string "k" = .string name ∧
      worldRuntime.asIObject (.object 1) = some o ∧
      (IndexExpression.Evaluate worldRuntime
        ⟨literal (.object 1), literal (.string "k")⟩ 0).run indexWorld
        = (o.GetProp name).run indexWorld) ∨
    (∃ n a, Value.string "k" = .number n ∧ worldRuntime.asIArray (.object 1) = some a ∧
      (IndexExpression.Evaluate worldRuntime
        ⟨literal (.object 1), literal (.string "k")⟩ 0).run indexWorld
        = (a.GetElem n).run indexWorld) ∨
    (worldRuntime.asIObject (.object 1) = none ∧ worldRuntime.asIArray (.object 1) = none ∧
      (IndexExpression.Evaluate worldRuntime
        ⟨literal (.object 1), literal (.string "k")⟩ 0).run indexWorld
        = (.error (.NotIndexableError (.object 1)), indexWorld)) ∨
    ((worldRuntime.asIObject (.object 1) ≠ none ∨
        worldRuntime.asIArray (.object 1) ≠ none) ∧
      (∀ name, Value.string "k" = .string name → worldRuntime.asIObject (.object 1) = none) ∧
      (∀ n, Value.string "k" = .number n → worldRuntime.asIArray (.object 1) = none) ∧
      (IndexExpression.Evaluate worldRuntime
        ⟨literal (.object 1), literal (.string "k")⟩ 0).run indexWorld
        = (.error (.KeyTypeError (.string "k")), indexWorld))) ∧
    (IndexExpression.Evaluate worldRuntime
        ⟨literal (.object 1), literal (.string "k")⟩ 0).run indexWorld
      = (.ok (.number 7), indexWorld) :=
  ⟨index_evaluate_classified worldRuntime ⟨literal (.object 1), literal (.string "k")⟩ 0
    indexWorld indexWorld indexWorld (.string "k") (.object 1) rfl rfl, by decide⟩

/-- C10. Index assignment dispatches as index read does.  For an indexed value
and a key that the two operand expressions evaluate to, in the order of the
read (key first) and in the order of the write (indexed value first): where
the read is `GetProp`, the write is `SetProp` on the same object and name;
where the read is `GetElem`, the write is `SetElem` on the same array and
index; where the read raises the NotIndexableError, the write raises the
NotAssignableError before the key is evaluated; where the read raises the
KeyTypeError, so does the write; and a write that raises leaves the world as
the evaluation of the operands left it. -/
theorem index_assign_same_dispatch {σ : Type} (rt : Runtime σ) (i : IndexExpression σ)
    (ctx : ContextPtr) (val : Value) (s s1 s2 t t1 t2 : σ) (key v : Value)
    (hk : (i.key.Evaluate ctx).run s = (.ok key, s1))
    (hv : (i.indexable.Evaluate ctx).run s1 = (.ok v, s2))
    (hv2 : (i.indexable.Evaluate ctx).run t = (.ok v, t1))
    (hk2 : (i.key.Evaluate ctx).run t1 = (.ok key, t2)) :
    (∃ name o, key = .string name ∧ rt.asIObject v = some o ∧
      (i.Evaluate rt ctx).run s = (o.GetProp name).run s2 ∧
      (i.Assign rt ctx val).run t = (o.SetProp name val).run t2) ∨
    (∃ n a, key = .number n ∧ rt.asIArray v = some a ∧
      (i.Evaluate rt ctx).run s = (a.GetElem n).run s2 ∧
      (i.Assign rt ctx val).run t = (a.SetElem n val).run t2) ∨
    (rt.asIObject v = none ∧ rt.asIArray v = none ∧
      (i.Evaluate rt ctx).run s = (.error (.NotIndexableError v), s2) ∧
      (i.Assign rt ctx val).run t = (.error (.NotAssignableError v), t1)) ∨
    ((rt.asIObject v ≠ none ∨ rt.asIArray v ≠ none) ∧
      (∀ name, key = .string name → rt.asIObject v = none) ∧
      (∀ n, key = .number n → rt.asIArray v = none) ∧
      (i.Evaluate rt ctx).run s = (.error (.KeyTypeError key), s2) ∧
      (i.Assign rt ctx val).run t = (.error (.KeyTypeError key), t2)) := by
  have hwrite : rt.asIObject v ≠ none ∨ rt.asIArray v ≠ none →
      (i.Assign rt ctx val).run t
        = (indexWrite (rt.asIObject v) (rt.asIArray v) key val).run t2 := by
    intro hcap
    have hc : ¬ ((rt.asIObject v).isNone = true ∧ (rt.asIArray v).isNone = true) := by
      rintro ⟨h1, h2⟩
      rcases hcap with h | h
      · exact h (Option.isNone_iff_eq_none.mp h1)
      · exact h (Option.isNone_iff_eq_none.mp h2)
    simp only [IndexExpression.Assign, Eval.run_bind, hv2, hc, if_false, hk2]
  rw [IndexExpression.run_read rt i ctx s s1 s2 key v hk hv]
  rcases indexRead_classified (rt.asIObject v) (rt.asIArray v) v key with
    ⟨name, o, h1, h2, h3⟩ | ⟨n, a, h1, h2, h3⟩ | ⟨h1, h2, h3⟩ | ⟨h1, h2, h3, h4⟩
  · refine Or.inl ⟨name, o, h1, h2, by rw [h3], ?_⟩
    rw [hwrite (Or.inl (by simp [h2]))]
    simp [indexWrite, h1, h2]
  · refine Or.inr (Or.inl ⟨n, a, h1, h2, by rw [h3], ?_⟩)
    rw [hwrite (Or.inr (by simp [h2]))]
    subst h1
    simp [indexWrite, h2]
  · refine Or.inr (Or.inr (Or.inl ⟨h1, h2, by rw [h3]; rfl, ?_⟩))
    simp [IndexExpression.Assign, Eval.run_bind, hv2, h1, h2]
  · refine Or.inr (Or.inr (Or.inr ⟨h1, h2, h3, by rw [h4]; rfl, ?_⟩))
    rw [hwrite h1]
    rcases indexWrite_classified (rt.asIObject v) (rt.asIArray v) key val with
      ⟨name, o, e1, e2, _⟩ | ⟨n, a, e1, e2, _⟩ | ⟨_, _, e3⟩
    · rw [h2 name e1] at e2
      cases e2
    · rw [h3 n e1] at e2
      cases e2
    · rw [e3]
      rfl

/-- Witness of C10: on the array at address `2`, `a[1]` reads `"b"` and
`a[1] = "c"` writes the element in place; on the number `3`, the read raises
the NotIndexableError and the write the NotAssignableError. -/
theorem index_assign_same_dispatch_witness :
    ((IndexExpression.Evaluate worldRuntime
        ⟨literal (.array 2), literal (.number 1)⟩ 0).run indexWorld
      = (.ok (.string "b"), indexWorld) ∧
    (IndexExpression.Assign worldRuntime
        ⟨literal (.array 2), literal (.number 1)⟩ 0 (.string "c")).run indexWorld
      = (.ok (), ⟨[], [(1, [("k", .number 7)])], [(2, [.string "a", .string "c"])]⟩)) ∧
    ((IndexExpression.Evaluate worldRuntime
        ⟨literal (.number 3), literal (.number 1)⟩ 0).run indexWorld
      = (.error (.NotIndexableError (.number 3)), indexWorld) ∧
    (IndexExpression.Assign worldRuntime
        ⟨literal (.number 3), literal (.number 1)⟩ 0 (.string "c")).run indexWorld
      = (.error (.NotAssignableError (.number 3)), indexWorld)) := by
  constructor
  · rcases index_assign_same_dispatch worldRuntime ⟨literal (.array 2), literal (.number 1)⟩
      0 (.string "c") indexWorld indexWorld indexWorld indexWorld indexWorld indexWorld
      (.number 1) (.array 2) rfl rfl rfl rfl with
      ⟨name, o, h1, _⟩ | ⟨n, a, h1, h2, h3, h4⟩ | ⟨_, h2, _⟩ | ⟨_, _, h3, _⟩
    · cases h1
    · cases h1
      cases h2
      exact ⟨h3, h4⟩
    · cases h2
    · cases h3 1 rfl
  · rcases index_assign_same_dispatch worldRuntime ⟨literal (.number 3), literal (.number 1)⟩
      0 (.string "c") indexWorld indexWorld indexWorld indexWorld indexWorld indexWorld
      (.number 1) (.number 3) rfl rfl rfl rfl with
      ⟨name, o, h1, _⟩ | ⟨n, a, _, h2, _⟩ | ⟨_, _, h3, h4⟩ | ⟨h1, _⟩
    · cases h1
    · cases h2
    · exact ⟨h3, h4⟩
    · rcases h1 with h | h <;> exact absurd rfl h

/-! ## Binding of arguments -/

theorem putKey_fresh {β : Type} (k : String) (v : β) :
    ∀ l : List (String × β), k ∉ l.map Prod.fst → putKey k v l = l ++ [(k, v)]
  | [], _ => rfl
  | (k1, v1) :: rest, h => by
    have h1 : k1 ≠ k := fun e => h (by simp [e])
    have h2 : k ∉ rest.map Prod.fst := fun e => h (by simp [e])
    simp [putKey, h1, putKey_fresh k v rest h2]

theorem set_of_get? {α : Type} (l : List α) (i : Nat) (a : α) (h : l.get? i = some a) :
    l.set i a = l := by
  apply List.ext_getElem?
  intro j
  rw [List.getElem?_set]
  by_cases hij : i = j
  · subst hij
    rw [List.get?_eq_getElem?] at h
    obtain ⟨hlt, hget⟩ := List.getElem?_eq_some.mp h
    simp [hlt, hget]
  · simp [hij]

theorem get?_setContext_self (m : Machine) (ctx : ContextPtr) (c c1 : Context)
    (h : m.contexts.get? ctx = some c) : (m.setContext ctx c1).contexts.get? ctx = some c1 := by
  have hlt : ctx < m.contexts.length := by
    rw [List.get?_eq_getElem?] at h
    exact (List.getElem?_eq_some.mp h).1
  simp [Machine.setContext, hlt]

theorem setContext_setContext (m : Machine) (ctx : ContextPtr) (c1 c2 : Context) :
    (m.setContext ctx c1).setContext ctx c2 = m.setContext ctx c2 := by
  simp [Machine.setContext, List.set_set]

theorem setContext_self (m : Machine) (ctx : ContextPtr) (c : Context)
    (h : m.contexts.get? ctx = some c) : m.setContext ctx c = m := by
  simp [Machine.setContext, set_of_get? _ _ _ h]

theorem bindFrom_run (args : List Value) :
    ∀ (names : List String) (index : Nat) (m : Machine) (ctx : ContextPtr) (c : Context),
      m.contexts.get? ctx = some c → names.Nodup →
      (∀ n ∈ names, n ∉ c.symbols.map Prod.fst) →
      (bindFrom Machine.AddSymbol ctx args index names).run m
        = (.ok (), m.setContext ctx { c with symbols := c.symbols ++ paired args index names })
  | [], index, m, ctx, c, hc, _, _ => by
    simp [bindFrom, paired, setContext_self m ctx c hc]
  | name :: rest, index, m, ctx, c, hc, hd, hnew => by
    have hname : name ∉ c.symbols.map Prod.fst := hnew name (by simp)
    have hd1 := List.nodup_cons.mp hd
    have harg : (if index < args.length then args.getD index .nil else .nil)
        = args.getD index .nil := by
      split
      · rfl
      · rw [List.getD_eq_default]
        omega
    have hstep : (Machine.AddSymbol ctx name (args.getD index .nil)).run m
        = (.ok (), m.setContext ctx
            { c with symbols := c.symbols ++ [(name, args.getD index .nil)] }) := by
      simp only [Machine.AddSymbol, hc, putKey_fresh name _ c.symbols hname]
    have hc1 := get?_setContext_self m ctx c
      { c with symbols := c.symbols ++ [(name, args.getD index .nil)] } hc
    have ih := bindFrom_run args rest (index + 1) _ ctx _ hc1 hd1.2 (by
      intro n hn
      have h1 := hnew n (by simp [hn])
      have h2 : n ≠ name := fun e => hd1.1 (e ▸ hn)
      simp only [List.map_append, List.mem_append, List.map_cons, List.map_nil,
        List.mem_singleton]
      rintro (h | h)
      · exact h1 h
      · exact h2 h)
    simp only [bindFrom, harg, Eval.run_bind, hstep, ih, setContext_setContext, paired,
      List.append_assoc, List.singleton_append]


theorem lookup_fresh {β : Type} (k : String) :
    ∀ l : List (String × β), k ∉ l.map Prod.fst → l.lookup k = none
  | [], _ => rfl
  | (k1, v1) :: rest, h => by
    have h1 : k ≠ k1 := fun e => h (by simp [e])
    have h2 : k ∉ rest.map Prod.fst := fun e => h (by simp [e])
    have hb : (k == k1) = false := by simp [h1]
    simp [List.lookup_cons, hb, lookup_fresh k rest h2]

theorem length_paired (args : List Value) :
    ∀ (names : List String) (index : Nat), (paired args index names).length = names.length
  | [], _ => rfl
  | _ :: rest, index => by simp [paired, length_paired args rest (index + 1)]

theorem lookup_paired (args : List Value) :
    ∀ (names : List String) (index i : Nat) (hi : i < names.length), names.Nodup →
      (paired args index names).lookup (names.get ⟨i, hi⟩) = some (args.getD (index + i) .nil)
  | name :: rest, index, 0, _, _ => by simp [paired, List.lookup_cons]
  | name :: rest, index, i + 1, hi, hd => by
    have hd1 := List.nodup_cons.mp hd
    have hi1 : i < rest.length := by simpa using hi
    have hne : rest.get ⟨i, hi1⟩ ≠ name := fun e => hd1.1 (e ▸ List.get_mem rest i hi1)
    have ih := lookup_paired args rest (index + 1) i hi1 hd1.2
    have e : index + 1 + i = index + (i + 1) := by omega
    have hb : (rest.get ⟨i, hi1⟩ == name) = false := beq_eq_false_iff_ne.mpr hne
    rw [e] at ih
    simp only [paired, List.get_cons_succ, List.lookup_cons, hb, ih]

/-- C11. `BindArguments` on `n` distinct parameter names that the call context
does not bind yet, with `m` arguments, raises no error for any `n` and `m`,
and changes the call context alone, by adding exactly `n` bindings to it: the
parameter at position `i` is bound to the argument at position `i` when
`i < m`, and to `Nil` when `m ≤ i`; the bindings that the context had are
kept, and the arguments at the positions `n` and above are ignored. -/
theorem bind_arguments (p : Parameters) (args : List Value) (m : Machine) (ctx : ContextPtr)
    (c : Context) (hctx : m.contexts.get? ctx = some c) (hd : p.names.Nodup)
    (hnew : ∀ n ∈ p.names, n ∉ c.symbols.map Prod.fst) :
    ∃ symbols,
      (p.BindArguments Machine.AddSymbol ctx args).run m
        = (.ok (), m.setContext ctx { c with symbols := symbols }) ∧
      symbols.length = c.symbols.length + p.names.length ∧
      (∀ k v, c.symbols.lookup k = some v → symbols.lookup k = some v) ∧
      (∀ i (hi : i < p.names.length),
        (∀ hm : i < args.length,
          symbols.lookup (p.names.get ⟨i, hi⟩) = some (args.get ⟨i, hm⟩)) ∧
        (args.length ≤ i → symbols.lookup (p.names.get ⟨i, hi⟩) = some .nil)) ∧
      (p.BindArguments Machine.AddSymbol ctx (args.take p.names.length)).run m
        = (p.BindArguments Machine.AddSymbol ctx args).run m := by
  have hrun := bindFrom_run args p.names 0 m ctx c hctx hd hnew
  have hrun2 := bindFrom_run (args.take p.names.length) p.names 0 m ctx c hctx hd hnew
  have hlook : ∀ i (hi : i < p.names.length),
      (c.symbols ++ paired args 0 p.names).lookup (p.names.get ⟨i, hi⟩)
        = some (args.getD i .nil) := by
    intro i hi
    rw [List.lookup_append, lookup_fresh _ _ (hnew _ (List.get_mem _ i hi)),
      lookup_paired args p.names 0 i hi hd]
    simp
  have htake : ∀ (names : List String) (index : Nat) (n : Nat), index + names.length ≤ n →
      paired (args.take n) index names = paired args index names := by
    intro names
    induction names with
    | nil => intros; rfl
    | cons name rest ih =>
      intro index n hn
      simp only [List.length_cons] at hn
      have : (args.take n).getD index .nil = args.getD index .nil := by
        simp only [List.getD_eq_getElem?_getD, List.getElem?_take]
        have : index < n := by omega
        simp [this]
      simp only [paired, this, ih (index + 1) n (by omega)]
  refine ⟨c.symbols ++ paired args 0 p.names, hrun, ?_, ?_, ?_, ?_⟩
  · simp [length_paired]
  · intro k v hk
    rw [List.lookup_append, hk]
    rfl
  · intro i hi
    refine ⟨fun hm => ?_, fun hm => ?_⟩
    · rw [hlook i hi]
      simp [List.getD_eq_getElem?_getD, hm]
    · rw [hlook i hi, List.getD_eq_default _ _ hm]
  · unfold Parameters.BindArguments
    rw [hrun, hrun2, htake p.names 0 p.names.length (by omega)]

/-- Witness of C11: three parameters and two arguments, then one parameter and
two arguments, in a context that binds nothing. -/
theorem bind_arguments_witness :
    (∃ symbols,
      (Parameters.BindArguments Machine.AddSymbol ⟨["a", "b", "c"]⟩ 0
          [.number 1, .number 2]).run ⟨[⟨"", none, [], false, .nil⟩], [], [], []⟩
        = (.ok (), Machine.setContext ⟨[⟨"", none, [], false, .nil⟩], [], [], []⟩ 0
            { (⟨"", none, [], false, .nil⟩ : Context) with symbols := symbols }) ∧
      symbols.length = 0 + 3 ∧
      symbols.lookup "c" = some .nil) ∧
    (Parameters.BindArguments Machine.AddSymbol ⟨["a"]⟩ 0
        [.number 1, .number 2]).run ⟨[⟨"", none, [], false, .nil⟩], [], [], []⟩
      = (.ok (), ⟨[⟨"", none, [("a", .number 1)], false, .nil⟩], [], [], []⟩) := by
  refine ⟨?_, by decide⟩
  obtain ⟨symbols, h1, h2, _, h4, _⟩ := bind_arguments ⟨["a", "b", "c"]⟩
    [.number 1, .number 2] ⟨[⟨"", none, [], false, .nil⟩], [], [], []⟩ 0
    ⟨"", none, [], false, .nil⟩ rfl (by decide) (by simp)
  exact ⟨symbols, h1, h2, (h4 2 (by decide)).2 (by decide)⟩

/-! ## The call protocol -/

theorem get?_setContext_ne (m : Machine) (x : ContextPtr) (c : Context) (j : ContextPtr)
    (h : j ≠ x) : (m.setContext x c).contexts.get? j = m.contexts.get? j := by
  simp [Machine.setContext, List.getElem?_set_ne (Ne.symm h)]

/-- Replacing a context that no context has as its parent changes no chain
that starts elsewhere. -/
theorem chain_setContext (m : Machine) (x : ContextPtr) (c : Context)
    (hx : ∀ j cj, m.contexts.get? j = some cj → cj.parent ≠ some x) :
    ∀ (fuel : Nat) (y : ContextPtr), y ≠ x → (m.setContext x c).chain fuel y = m.chain fuel y
  | 0, _, _ => rfl
  | fuel + 1, y, hy => by
    simp only [Machine.chain, get?_setContext_ne m x c y hy]
    cases hget : m.contexts.get? y with
    | none => rfl
    | some cy =>
      cases hp : cy.parent with
      | none => simp only [hp]
      | some p =>
        have hpx : p ≠ x := fun e => hx y cy hget (by rw [hp, e])
        simp only [hp, chain_setContext m x c hx fuel p hpx]

/-- Replacing a context that no context has as its parent changes no lookup
that starts elsewhere. -/
theorem find_setContext (m : Machine) (x : ContextPtr) (c : Context) (name : String)
    (hx : ∀ j cj, m.contexts.get? j = some cj → cj.parent ≠ some x) :
    ∀ (fuel : Nat) (y : ContextPtr), y ≠ x →
      (m.setContext x c).find name fuel y = m.find name fuel y
  | 0, _, _ => rfl
  | fuel + 1, y, hy => by
    simp only [Machine.find, get?_setContext_ne m x c y hy]
    cases hget : m.contexts.get? y with
    | none => rfl
    | some cy =>
      cases hl : cy.symbols.lookup name with
      | some v => simp only [hl]
      | none =>
        cases hp : cy.parent with
        | none => simp only [hl, hp]
        | some p =>
          have hpx : p ≠ x := fun e => hx y cy hget (by rw [hp, e])
          simp only [hl, hp, find_setContext m x c name hx fuel p hpx]

/-- The entry of a function value: the parent is set, the parameters are
bound, and the body runs in the machine so reached. -/
theorem EvaluatedFunctionExpression.run_execute (e : EvaluatedFunctionExpression)
    (ctx : ContextPtr) (args : List Value) (s : Machine) (c : Context)
    (hc : s.contexts.get? ctx = some c) (hfresh : c.symbols = [])
    (hd : e.fn.params.names.Nodup) :
    (e.Execute ctx args).run s
      = (runBody e.fn ctx).run (callEntry s ctx c e args) := by
  unfold runBody callEntry
  obtain ⟨cname, cparent, csymbols, chasret, cretval⟩ := c
  simp only at hfresh
  subst hfresh
  have h1 : (Machine.SetParent ctx e.this).run s
      = (.ok (), s.setContext ctx ⟨cname, some e.this, [], chasret, cretval⟩) := by
    simp only [Machine.SetParent, hc]
  have hc1 := get?_setContext_self s ctx _ ⟨cname, some e.this, [], chasret, cretval⟩ hc
  have h2 := bindFrom_run args e.fn.params.names 0 _ ctx _ hc1 hd (by simp)
  simp only [List.nil_append, setContext_setContext] at h2
  simp only [EvaluatedFunctionExpression.Execute, FunctionExpression.Execute,
    Parameters.BindArguments, Eval.run_bind, h1, h2]
  cases (e.fn.body ctx).run (s.setContext ctx
      ⟨cname, some e.this, paired args 0 e.fn.params.names, chasret, cretval⟩) with
  | mk r s3 =>
    cases r with
    | error err => rfl
    | ok u =>
      simp only []
      cases (Machine.context ctx).run s3 with
      | mk r2 s4 =>
        cases r2 with
        | error err => rfl
        | ok c1 => cases hh : c1.hasret <;> simp [hh]

theorem map_fst_paired (args : List Value) :
    ∀ (names : List String) (index : Nat), (paired args index names).map Prod.fst = names
  | [], _ => rfl
  | _ :: rest, index => by simp [paired, map_fst_paired args rest (index + 1)]

/-- Counterexample to C12: `f` is defined in the global context and called
from it; the chain of the per-call context, at address `1`, is this context
followed by the caller's context, at address `0`. -/
theorem caller_on_callee_chain :
    ((CallExpression.Evaluate machineRuntime
        ⟨valueExpression machineRuntime (.variable "f"), [literal (.number 1)]⟩ 0).run
        callMachine).2.chain 2 1 = [1, 0] := by
  decide

/-- C12, amended. A call whose callee evaluates to a function value creates a
context with no parent and no symbol, evaluates the arguments in the caller's
context, and executes the function value in the new context: the parent of
the new context is set to the captured defining context and the parameters
are bound in the new context before the body runs; every other context, the
captured one included, is as the evaluation of the arguments left it; the
chain of the new context is this context followed by the chain of the
defining context (so the caller's context is on it only when it is on the
chain of the defining context), and a name that is not a parameter resolves
as it does from the defining context. -/
theorem call_protocol (rt : CallRuntime) (f : CallExpression) (ctx : ContextPtr)
    (e : EvaluatedFunctionExpression) (s s1 s2 : Machine) (callee : Value)
    (args : List Value) (c : Context)
    (hcallee : (f.Callable.Evaluate ctx).run s = (.ok callee, s1))
    (hvalue : callee.Type ≠ .vtVariable)
    (hcallable : rt.callable callee = some e.Execute)
    (hargs : (EvaluateAll ctx f.Args).run
        { s1 with contexts := s1.contexts ++ [⟨"", none, [], false, .nil⟩] } = (.ok args, s2))
    (hnew : s2.contexts.get? s1.contexts.length = some c) (hempty : c.symbols = [])
    (hd : e.fn.params.names.Nodup)
    (hthis : e.this ≠ s1.contexts.length)
    (hlinks : ∀ j cj, s2.contexts.get? j = some cj → cj.parent ≠ some s1.contexts.length) :
    (f.Evaluate rt ctx).run s
      = (runBody e.fn s1.contexts.length).run (callEntry s2 s1.contexts.length c e args) ∧
    (callEntry s2 s1.contexts.length c e args).contexts.get? s1.contexts.length
      = some { c with parent := some e.this, symbols := paired args 0 e.fn.params.names } ∧
    (∀ j, j ≠ s1.contexts.length →
      (callEntry s2 s1.contexts.length c e args).contexts.get? j = s2.contexts.get? j) ∧
    (∀ fuel, (callEntry s2 s1.contexts.length c e args).chain (fuel + 1) s1.contexts.length
      = s1.contexts.length :: s2.chain fuel e.this) ∧
    (∀ name fuel, name ∉ e.fn.params.names →
      (callEntry s2 s1.contexts.length c e args).find name (fuel + 1) s1.contexts.length
        = s2.find name fuel e.this) := by
  have hentry := get?_setContext_self s2 s1.contexts.length c
    { c with parent := some e.this, symbols := paired args 0 e.fn.params.names } hnew
  refine ⟨?_, hentry, fun j hj => get?_setContext_ne s2 _ _ j hj, fun fuel => ?_,
    fun name fuel hname => ?_⟩
  · have hnc : (Machine.NewContext "" none).run s1
        = (.ok s1.contexts.length,
            { s1 with contexts := s1.contexts ++ [⟨"", none, [], false, .nil⟩] }) := rfl
    simp only [CallExpression.Evaluate, Eval.run_bind, hcallee, hvalue, if_false,
      Eval.run_pure, hcallable, hnc, hargs]
    exact EvaluatedFunctionExpression.run_execute e _ args s2 c hnew hempty hd
  · unfold callEntry at hentry ⊢
    simp only [Machine.chain, hentry]
    rw [chain_setContext s2 _ _ hlinks fuel e.this hthis]
  · unfold callEntry at hentry ⊢
    have hl : (paired args 0 e.fn.params.names).lookup name = none :=
      lookup_fresh name _ (by rw [map_fst_paired]; exact hname)
    simp only [Machine.find, hentry, hl]
    rw [find_setContext s2 _ _ name hlinks fuel e.this hthis]

/-- Witness of C12: `f(1)` in the global context of `callMachine`. -/
theorem call_protocol_witness :
    (CallExpression.Evaluate machineRuntime
        ⟨valueExpression machineRuntime (.variable "f"), [literal (.number 1)]⟩ 0).run
        callMachine
      = (.ok .nil,
          ⟨[⟨"global", none, [("f", .function 0 0)], false, .nil⟩,
            ⟨"", some 0, [("a", .number 1), ("b", .nil)], false, .nil⟩], [], [], []⟩) ∧
    Machine.chain
        ⟨[⟨"global", none, [("f", .function 0 0)], false, .nil⟩,
          ⟨"", some 0, [("a", .number 1), ("b", .nil)], false, .nil⟩], [], [], []⟩ 2 1
      = [1, 0] :=
  have h := call_protocol machineRuntime
    ⟨valueExpression machineRuntime (.variable "f"), [literal (.number 1)]⟩ 0
    ⟨0, ⟨0, "f", ⟨["a", "b"]⟩, fun _ => pure ()⟩⟩ callMachine callMachine
    ⟨[⟨"global", none, [("f", .function 0 0)], false, .nil⟩,
      ⟨"", none, [], false, .nil⟩], [], [], []⟩
    (.function 0 0) [.number 1] ⟨"", none, [], false, .nil⟩
    rfl (by decide) rfl rfl rfl rfl (by decide) (by decide)
    (by
      intro j cj hj
      rcases j with _ | _ | j
      · cases hj
        decide
      · cases hj
        decide
      · cases hj)
  ⟨h.1, h.2.2.2.1 1⟩

/-! ## Statements -/

theorem lookup_putKey_self {κ β : Type} [DecidableEq κ] (k : κ) (v : β) :
    ∀ l : List (κ × β), (putKey k v l).lookup k = some v
  | [] => by simp [putKey, List.lookup_cons]
  | (k1, v1) :: rest => by
    by_cases h : k1 = k
    · simp [putKey, h, List.lookup_cons]
    · have hb : (k == k1) = false := beq_eq_false_iff_ne.mpr (Ne.symm h)
      simp [putKey, h, List.lookup_cons, hb, lookup_putKey_self k v rest]

/-- Counterexample to C13: executing `return 7;` in a context that has not
returned leaves the context as it was, not returned and with no return value;
the value is kept in the statement, the node at address `5`.  So
`FunctionExpression.Execute` of `function f() { return 7; }`, whose body is
the block of this one statement, returns `Nil` and not `7`. -/
theorem return_leaves_context_unflagged :
    (ReturnStatement.Execute ⟨5, some (literal (.number 7))⟩ 0).run oneContext
      = (.ok (), ⟨[⟨"", none, [], false, .nil⟩], [], [], [(5, .number 7)]⟩) ∧
    ((ReturnStatement.Execute ⟨5, some (literal (.number 7))⟩ 0).run oneContext).2.contexts.map
        (fun c => (c.hasret, c.retval))
      = [(false, .nil)] ∧
    (FunctionExpression.Execute
        ⟨0, "f", ⟨[]⟩, fun ctx => BlockStatement.Execute ctx
          [ReturnStatement.Execute ⟨5, some (literal (.number 7))⟩]⟩ 0 []).run oneContext
      = (.ok .nil, ⟨[⟨"", none, [], false, .nil⟩], [], [], [(5, .number 7)]⟩) := by
  decide

/-- C13, amended. Executing a `ReturnStatement` with expression `e` in context
`c` evaluates `e` once and keeps its value in the field `value` of the
statement; the contexts are as the evaluation of `e` left them, so the
statement does not set `hasReturned` or `returnValue` of `c`.  Hence
`FunctionExpression.Execute` of a body consisting of `return e;` returns what
the flags of `c` give once `e` is evaluated: `Nil`, rather than the value of
`e`, whenever `hasReturned` is not set then. -/
theorem return_statement_caches (r : ReturnStatement) (expr : Expression Machine)
    (ctx : ContextPtr) (s s1 : Machine) (v : Value)
    (hr : r.expr = some expr) (he : (expr.Evaluate ctx).run s = (.ok v, s1)) :
    (r.Execute ctx).run s = (.ok (), { s1 with returned := putKey r.addr v s1.returned }) ∧
    ((r.Execute ctx).run s).2.contexts = s1.contexts ∧
    ((r.Execute ctx).run s).2.returned.lookup r.addr = some v ∧
    (∀ (f : FunctionExpression) (args : List Value) (t : Machine) (c : Context),
      f.body = (fun ctx => BlockStatement.Execute ctx [r.Execute]) →
      (f.params.BindArguments Machine.AddSymbol ctx args).run t = (.ok (), s) →
      s1.contexts.get? ctx = some c →
      (f.Execute ctx args).run t
        = (.ok (if c.hasret then c.retval else .nil),
            { s1 with returned := putKey r.addr v s1.returned }) ∧
      (c.hasret = false →
        (f.Execute ctx args).run t
          = (.ok .nil, { s1 with returned := putKey r.addr v s1.returned }))) := by
  have h : (r.Execute ctx).run s
      = (.ok (), { s1 with returned := putKey r.addr v s1.returned }) := by
    simp only [ReturnStatement.Execute, hr, Eval.run_bind, he]
  refine ⟨h, by rw [h], ?_, ?_⟩
  · rw [h]
    exact lookup_putKey_self r.addr v s1.returned
  · intro f args t c hbody hb hc
    have hctx : (Machine.context ctx).run { s1 with returned := putKey r.addr v s1.returned }
        = (.ok c, { s1 with returned := putKey r.addr v s1.returned }) := by
      simp only [Machine.context, hc]
    have hexec : (f.Execute ctx args).run t
        = (.ok (if c.hasret then c.retval else .nil),
            { s1 with returned := putKey r.addr v s1.returned }) := by
      simp only [FunctionExpression.Execute, hbody, BlockStatement.Execute, Eval.run_bind, hb, h,
        hctx]
      cases hh : c.hasret <;> simp [hh, Eval.run_bind, hctx]
    refine ⟨hexec, fun hfalse => ?_⟩
    rw [hexec, hfalse]
    rfl

/-- Witness of C13: `return x;` where `x` is `3`, in the one context of the
machine, and `function f() { return x; }` executed in that context. -/
theorem return_statement_caches_witness :
    (ReturnStatement.Execute
        ⟨5, some (valueExpression machineRuntime (.variable "x"))⟩ 0).run
        ⟨[⟨"", none, [("x", .number 3)], false, .nil⟩], [], [], []⟩
      = (.ok (), ⟨[⟨"", none, [("x", .number 3)], false, .nil⟩], [], [],
          [(5, .number 3)]⟩) ∧
    (FunctionExpression.Execute
        ⟨0, "f", ⟨[]⟩, fun ctx => BlockStatement.Execute ctx
          [ReturnStatement.Execute
            ⟨5, some (valueExpression machineRuntime (.variable "x"))⟩]⟩ 0 []).run
        ⟨[⟨"", none, [("x", .number 3)], false, .nil⟩], [], [], []⟩
      = (.ok .nil, ⟨[⟨"", none, [("x", .number 3)], false, .nil⟩], [], [],
          [(5, .number 3)]⟩) :=
  ⟨(return_statement_caches ⟨5, some (valueExpression machineRuntime (.variable "x"))⟩
      (valueExpression machineRuntime (.variable "x")) 0
      ⟨[⟨"", none, [("x", .number 3)], false, .nil⟩], [], [], []⟩
      ⟨[⟨"", none, [("x", .number 3)], false, .nil⟩], [], [], []⟩ (.number 3) rfl rfl).1,
   ((return_statement_caches ⟨5, some (valueExpression machineRuntime (.variable "x"))⟩
      (valueExpression machineRuntime (.variable "x")) 0
      ⟨[⟨"", none, [("x", .number 3)], false, .nil⟩], [], [], []⟩
      ⟨[⟨"", none, [("x", .number 3)], false, .nil⟩], [], [], []⟩ (.number 3) rfl rfl).2.2.2
      ⟨0, "f", ⟨[]⟩, fun ctx => BlockStatement.Execute ctx
        [ReturnStatement.Execute ⟨5, some (valueExpression machineRuntime (.variable "x"))⟩]⟩
      [] ⟨[⟨"", none, [("x", .number 3)], false, .nil⟩], [], [], []⟩
      ⟨"", none, [("x", .number 3)], false, .nil⟩ rfl rfl rfl).2 rfl⟩

/-- C14 on the code. A variable definition with no initializer, as the parser
builds for `var x;`, binds nothing: its execution stops on the `nil`
initializer with the run-time error of Go and leaves the machine as it was;
with an initializer that evaluates to a value, the name is bound to that value
in the current context. -/
theorem variable_definition_without_initializer (name : String) (ctx : ContextPtr)
    (s : Machine) :
    (VariableDefinitionStatement.Execute ⟨name, none⟩ ctx).run s
      = (.error nilDereference, s) ∧
    (VariableDefinitionStatement.Execute ⟨"x", none⟩ 0).run oneContext
      = (.error nilDereference, oneContext) ∧
    (VariableDefinitionStatement.Execute ⟨"x", some (literal (.number 1))⟩ 0).run oneContext
      = (.ok (), ⟨[⟨"", none, [("x", .number 1)], false, .nil⟩], [], [], []⟩) :=
  ⟨rfl, by decide, by decide⟩

/-- Counterexample to C15: whatever the constructor `ValueFromFunction(name,
expr)` is, the statement `function f ...` binds `f` to the same value in the
context at `0` and in the context at `1`; this value cannot have the context
at `0` and the context at `1` as its one captured scope. -/
theorem function_statement_captures_nothing :
    ¬ ∃ construct : String → Nat → Value,
      (((FunctionDefinitionStatement.Execute construct ⟨"f", 7⟩ 0).run
          twoContexts).2.find "f" 1 0).bind Value.closure = some 0 ∧
      (((FunctionDefinitionStatement.Execute construct ⟨"f", 7⟩ 1).run
          twoContexts).2.find "f" 1 1).bind Value.closure = some 1 := by
  rintro ⟨mk, h0, h1⟩
  have e0 : ((FunctionDefinitionStatement.Execute mk ⟨"f", 7⟩ 0).run
      twoContexts).2.find "f" 1 0 = some (mk "f" 7) := by
    simp [FunctionDefinitionStatement.Execute, Machine.AddSymbol, twoContexts,
      Machine.setContext, Machine.find, putKey, List.lookup_cons]
  have e1 : ((FunctionDefinitionStatement.Execute mk ⟨"f", 7⟩ 1).run
      twoContexts).2.find "f" 1 1 = some (mk "f" 7) := by
    simp [FunctionDefinitionStatement.Execute, Machine.AddSymbol, twoContexts,
      Machine.setContext, Machine.find, putKey, List.lookup_cons]
  rw [e0] at h0
  rw [e1] at h1
  simp only [Option.bind] at h0 h1
  rw [h0] at h1
  cases h1

/-- C15, amended. The statement form binds the function's name in the context
`c` to the value that `ValueFromFunction` builds from the name and the
definition alone, so to the same value in whichever context it runs.  The
expression form builds a `Function` value whose captured scope is `c` itself:
a named function expression binds its name in `c` to this value and returns
it; an anonymous one returns it and leaves the machine as it was. -/
theorem function_definition (construct : String → Nat → Value)
    (d : FunctionDefinitionStatement) (f : FunctionExpression) (ctx : ContextPtr)
    (s : Machine) (c : Context) (hc : s.contexts.get? ctx = some c) :
    (d.Execute construct ctx).run s
      = (.ok (), s.setContext ctx
          { c with symbols := putKey d.name (construct d.name d.expr) c.symbols }) ∧
    (f.name ≠ "" →
      (f.Evaluate ctx).run s
        = (.ok (.function ctx f.addr), s.setContext ctx
            { c with symbols := putKey f.name (.function ctx f.addr) c.symbols })) ∧
    (f.name = "" → (f.Evaluate ctx).run s = (.ok (.function ctx f.addr), s)) ∧
    Value.closure (.function ctx f.addr) = some ctx := by
  refine ⟨?_, fun hn => ?_, fun hn => ?_, rfl⟩
  · simp only [FunctionDefinitionStatement.Execute, Machine.AddSymbol, hc]
  · simp only [FunctionExpression.Evaluate, ValueFromFunction, hn, ne_eq, not_false_eq_true,
      if_true, Eval.run_bind, Machine.AddSymbol, hc, Eval.run_pure]
  · simp [FunctionExpression.Evaluate, ValueFromFunction, hn, Eval.run_bind]

/-- Witness of C15: the expression `function g() {}` and an anonymous function
expression, evaluated in the inner context of two. -/
theorem function_definition_witness :
    (FunctionExpression.Evaluate ⟨3, "g", ⟨[]⟩, fun _ => pure ()⟩ 1).run twoContexts
      = (.ok (.function 1 3),
          ⟨[⟨"outer", none, [], false, .nil⟩,
            ⟨"inner", some 0, [("g", .function 1 3)], false, .nil⟩], [], [], []⟩) ∧
    (FunctionExpression.Evaluate ⟨4, "", ⟨[]⟩, fun _ => pure ()⟩ 1).run twoContexts
      = (.ok (.function 1 4), twoContexts) :=
  ⟨(function_definition (fun _ n => .number n) ⟨"f", 7⟩
      ⟨3, "g", ⟨[]⟩, fun _ => pure ()⟩ 1 twoContexts ⟨"inner", some 0, [], false, .nil⟩
      rfl).2.1 (by decide),
   (function_definition (fun _ n => .number n) ⟨"f", 7⟩
      ⟨4, "", ⟨[]⟩, fun _ => pure ()⟩ 1 twoContexts ⟨"inner", some 0, [], false, .nil⟩
      rfl).2.2.1 rfl⟩

/-! ## Promises -/

theorem run_promise (s : Machine) (p : Nat) (pr : Promise)
    (hp : s.heap.get? p = some (.promise pr)) : (Machine.promise p).run s = (.ok pr, s) := by
  simp only [Machine.promise, hp]

theorem run_updatePromise (s : Machine) (p : Nat) (pr : Promise) (f : Promise → Promise)
    (hp : s.heap.get? p = some (.promise pr)) :
    (Machine.updatePromise p f).run s = (.ok (), s.setPromise p (f pr)) := by
  simp only [Machine.updatePromise, hp]

theorem get?_setPromise_self (s : Machine) (p : Nat) (pr pr1 : Promise)
    (hp : s.heap.get? p = some (.promise pr)) :
    (s.setPromise p pr1).heap.get? p = some (.promise pr1) := by
  have hlt : p < s.heap.length := by
    rw [List.get?_eq_getElem?] at hp
    exact (List.getElem?_eq_some.mp hp).1
  simp [Machine.setPromise, hlt]

theorem setPromise_setPromise (s : Machine) (p : Nat) (pr1 pr2 : Promise) :
    (s.setPromise p pr1).setPromise p pr2 = s.setPromise p pr2 := by
  simp [Machine.setPromise, List.set_set]

theorem Promise.run_resolve (p : Nat) (v : Value) (s : Machine) (pr : Promise)
    (hp : s.heap.get? p = some (.promise pr)) :
    (Promise.Resolve p v).run s
      = (.ok (), { s.setPromise p { pr with resolvedValue := some v } with
          queue := s.queue ++ [.invokeResolver p] }) := by
  simp only [Promise.Resolve, Eval.run_bind, run_updatePromise s p pr _ hp, Async]
  rfl

theorem Promise.run_reject (p : Nat) (v : Value) (s : Machine) (pr : Promise)
    (hp : s.heap.get? p = some (.promise pr)) :
    (Promise.Reject p v).run s
      = (.ok (), { s.setPromise p { pr with rejectedValue := some v } with
          queue := s.queue ++ [.invokeRejecter p] }) := by
  simp only [Promise.Reject, Eval.run_bind, run_updatePromise s p pr _ hp, Async]
  rfl

/-- C16. For every machine, every promise of it, settled or not, and every
value `v`: `Resolve(v)` ends without error in the machine that differs from
the one before in this only: the `resolvedValue` of the promise is `v`, and
one continuation, the resolver of this promise, is appended to the task queue.
The handlers, the `rejectedValue`, the derived promise and the forward target
of the promise are as they were, as is every other promise and every context,
so that no handler ran.  `Reject(v)` does the same with the `rejectedValue`
and the rejecter. -/
theorem settle_enqueues (p : Nat) (v : Value) (s : Machine) (pr : Promise)
    (hp : s.heap.get? p = some (.promise pr)) :
    (Promise.Resolve p v).run s
      = (.ok (), ⟨s.contexts,
          s.heap.set p (.promise ⟨pr.resolvedFunc, pr.rejectedFunc, some v, pr.rejectedValue,
            pr.thenPromise, pr.toPromise⟩),
          s.queue ++ [.invokeResolver p], s.returned⟩) ∧
    (Promise.Reject p v).run s
      = (.ok (), ⟨s.contexts,
          s.heap.set p (.promise ⟨pr.resolvedFunc, pr.rejectedFunc, pr.resolvedValue, some v,
            pr.thenPromise, pr.toPromise⟩),
          s.queue ++ [.invokeRejecter p], s.returned⟩) ∧
    (∀ j, j ≠ p →
      (s.heap.set p (.promise ⟨pr.resolvedFunc, pr.rejectedFunc, some v, pr.rejectedValue,
        pr.thenPromise, pr.toPromise⟩)).get? j = s.heap.get? j) := by
  refine ⟨?_, ?_, fun j hj => ?_⟩
  · simp only [Promise.Resolve, Eval.run_bind, Machine.updatePromise, hp, Async]
    rfl
  · simp only [Promise.Reject, Eval.run_bind, Machine.updatePromise, hp, Async]
    rfl
  · simp [List.getElem?_set_ne (Ne.symm hj)]

/-- C17. For a promise with no forward target: when no resolve handler is
registered, the resolve continuation ends without error and leaves the machine
as it was, so that no field of the promise or of its derived promise changes
and nothing is enqueued; likewise the reject continuation when no reject
handler is registered. -/
theorem unhandled_settlement_dropped (rt : CallRuntime) (fuel p : Nat) (s : Machine)
    (pr : Promise) (hp : s.heap.get? p = some (.promise pr)) (hto : pr.toPromise = none) :
    (pr.resolvedFunc.Type = .vtNil →
      (Promise.invokeResolver rt (fuel + 1) p).run s = (.ok (), s)) ∧
    (pr.rejectedFunc.Type = .vtNil →
      (Promise.invokeRejecter rt (fuel + 1) p).run s = (.ok (), s)) := by
  constructor <;> intro hnil
  · simp only [Promise.invokeResolver, Eval.run_bind, run_promise s p pr hp, hto, hnil,
      if_true, Eval.run_pure]
  · simp only [Promise.invokeRejecter, Eval.run_bind, run_promise s p pr hp, hto, hnil,
      if_true, Eval.run_pure]

/-- Counterexample to C18: the promise at `0` was rejected with `"err"`, its
reject handler is the native function `5`, which returns the number `5`, and
its derived promise, at `1`, is pending.  After the reject continuation the
derived promise has the `rejectedValue` `5` and no `resolvedValue`, and the
continuation enqueued for it is its rejecter. -/
theorem derived_promise_is_rejected :
    ((Promise.invokeRejecter machineRuntime 1 0).run
        ⟨[], [.promise ⟨.nil, .builtin 0 "h" 5, none, some (.string "err"), some 1, none⟩,
              .promise Promise.zero], [], []⟩).2.heap.get? 1
      = some (.promise ⟨.nil, .nil, none, some (.number 5), none, none⟩) ∧
    ((Promise.invokeRejecter machineRuntime 1 0).run
        ⟨[], [.promise ⟨.nil, .builtin 0 "h" 5, none, some (.string "err"), some 1, none⟩,
              .promise Promise.zero], [], []⟩).2.queue
      = [.invokeRejecter 1] := by
  decide

/-- C18, amended. On the reject path of a promise with no forward target,
when the registered reject handler returns a value `r` that is not a promise,
the derived promise is rejected with `r`: its `rejectedValue` is `r`, its
other fields are as the handler left them (its `resolvedValue` stays absent
when it was), and the one continuation enqueued for it is its rejecter. -/
theorem reject_handler_result_rejects (rt : CallRuntime) (fuel p np : Nat)
    (s s2 : Machine) (pr pr2 d : Promise) (r : Value)
    (hp : s.heap.get? p = some (.promise pr)) (hto : pr.toPromise = none)
    (hfunc : pr.rejectedFunc.Type ≠ .vtNil)
    (hcall : (CallFunc rt s.contexts.length (valueExpression rt pr.rejectedFunc)
        [pointerExpression rt pr.rejectedValue]).run
        { s with contexts := s.contexts ++ [⟨"--promise-reject--", none, [], false, .nil⟩] }
      = (.ok r, s2))
    (hr : (asPromise r).run s2 = (.ok none, s2))
    (hp2 : s2.heap.get? p = some (.promise pr2)) (hnp : pr2.thenPromise = some np)
    (hd : s2.heap.get? np = some (.promise d)) :
    (Promise.invokeRejecter rt (fuel + 1) p).run s
      = (.ok (), { s2.setPromise np { d with rejectedValue := some r } with
          queue := s2.queue ++ [.invokeRejecter np] }) := by
  have hnc : (Machine.NewContext "--promise-reject--" none).run s
      = (.ok s.contexts.length,
          { s with contexts := s.contexts ++ [⟨"--promise-reject--", none, [], false, .nil⟩] })
    := rfl
  simp only [Promise.invokeRejecter, Eval.run_bind, run_promise s p pr hp, hto, hfunc,
    if_false, hnc, hcall, run_promise s2 p pr2 hp2, hr, hnp,
    Promise.run_reject np r s2 d hd]

/-- C19. When the registered resolve handler of a promise `p` with no forward
target returns a promise `q`, the resolve continuation of `p` sets the forward
target of `q` to the derived promise of `p` and does nothing else: the task
queue and every promise but `q` are as the handler left them, so the derived
promise is not settled and no continuation is enqueued for it.  When the
resolve continuation of `q` later runs in a machine where the forward target
of `q` is `d`, the `resolvedValue` of `q` is written to `d` and the resolver of
`d` is invoked in the machine so reached, whatever the handlers of `q` are;
with a `d` that has no forward target and no resolve handler, this ends
without error with that one change. -/
theorem promise_forwarding (rt : CallRuntime) (fuel p q d : Nat) (s s2 t : Machine)
    (pr pr2 qr qt dr : Promise) (r : Value)
    (hp : s.heap.get? p = some (.promise pr)) (hto : pr.toPromise = none)
    (hfunc : pr.resolvedFunc.Type ≠ .vtNil)
    (hcall : (CallFunc rt s.contexts.length (valueExpression rt pr.resolvedFunc)
        [pointerExpression rt pr.resolvedValue]).run
        { s with contexts := s.contexts ++ [⟨"--promise-resolve--", none, [], false, .nil⟩] }
      = (.ok r, s2))
    (hr : (asPromise r).run s2 = (.ok (some q), s2))
    (hp2 : s2.heap.get? p = some (.promise pr2))
    (hq : s2.heap.get? q = some (.promise qr))
    (hqt : t.heap.get? q = some (.promise qt)) (hforward : qt.toPromise = some d)
    (hdt : t.heap.get? d = some (.promise dr)) :
    (Promise.invokeResolver rt (fuel + 1) p).run s
      = (.ok (), s2.setPromise q { qr with toPromise := pr2.thenPromise }) ∧
    (s2.setPromise q { qr with toPromise := pr2.thenPromise }).queue = s2.queue ∧
    (∀ j, j ≠ q →
      (s2.setPromise q { qr with toPromise := pr2.thenPromise }).heap.get? j
        = s2.heap.get? j) ∧
    (Promise.invokeResolver rt (fuel + 1) q).run t
      = (Promise.invokeResolver rt fuel d).run
          (t.setPromise d { dr with resolvedValue := qt.resolvedValue }) ∧
    (dr.toPromise = none → dr.resolvedFunc.Type = .vtNil →
      (Promise.invokeResolver rt (fuel + 2) q).run t
        = (.ok (), t.setPromise d { dr with resolvedValue := qt.resolvedValue })) := by
  have hnc : (Machine.NewContext "--promise-resolve--" none).run s
      = (.ok s.contexts.length,
          { s with contexts := s.contexts ++ [⟨"--promise-resolve--", none, [], false, .nil⟩] })
    := rfl
  have hstep : (Promise.invokeResolver rt (fuel + 1) q).run t
      = (Promise.invokeResolver rt fuel d).run
          (t.setPromise d { dr with resolvedValue := qt.resolvedValue }) := by
    simp only [Promise.invokeResolver, Eval.run_bind, run_promise t q qt hqt, hforward,
      run_updatePromise t d dr _ hdt]
  refine ⟨?_, rfl, fun j hj => ?_, hstep, fun hdto hdnil => ?_⟩
  · simp only [Promise.invokeResolver, Eval.run_bind, run_promise s p pr hp, hto, hfunc,
      if_false, hnc, hcall, run_promise s2 p pr2 hp2, hr, run_updatePromise s2 q qr _ hq]
  · simp [Machine.setPromise, List.getElem?_set_ne (Ne.symm hj)]
  · have hstep2 : (Promise.invokeResolver rt (fuel + 2) q).run t
        = (Promise.invokeResolver rt (fuel + 1) d).run
            (t.setPromise d { dr with resolvedValue := qt.resolvedValue }) := by
      simp only [Promise.invokeResolver, Eval.run_bind, run_promise t q qt hqt, hforward,
        run_updatePromise t d dr _ hdt]
    have hd2 := get?_setPromise_self t d dr { dr with resolvedValue := qt.resolvedValue } hdt
    rw [hstep2]
    simp only [Promise.invokeResolver, Eval.run_bind, run_promise _ d _ hd2]
    simp only [hdto, hdnil, if_true, Eval.run_pure]

/-- Counterexample to C20: on a fresh promise, `then(1, 2)` followed by
`then(3, 4)`: the handlers recorded by the first call are replaced by those of
the second, and so is the derived promise, at `1` after the first call and at
`2` after the second. -/
theorem second_then_replaces :
    ((Promise.Then 0 (.number 1) (.number 2)).run
        ⟨[], [.promise Promise.zero], [], []⟩).2.heap.get? 0
      = some (.promise ⟨.number 1, .number 2, none, none, some 1, none⟩) ∧
    ((Promise.Then 0 (.number 1) (.number 2) >>= fun _ =>
        Promise.Then 0 (.number 3) (.number 4)).run
        ⟨[], [.promise Promise.zero], [], []⟩).2.heap.get? 0
      = some (.promise ⟨.number 3, .number 4, none, none, some 2, none⟩) := by
  decide

/-- C20, amended. The handlers of a promise are initially `Nil`, and every
`then` call on a promise, whatever handlers and derived promise it has
recorded before, ends without error with its two arguments as the recorded
handlers and a promise created by this call, with `Nil` handlers and no
settlement, as the derived promise, which it returns; nothing else of the
machine changes. -/
theorem then_records (p : Nat) (resolve reject : Value) (s : Machine) (pr : Promise)
    (hp : s.heap.get? p = some (.promise pr)) :
    (Promise.Then p resolve reject).run s
      = (.ok (.object s.heap.length),
          { s with heap := s.heap.set p (.promise
              { pr with resolvedFunc := resolve, rejectedFunc := reject,
                        thenPromise := some s.heap.length }) ++ [.promise Promise.zero] }) ∧
    Promise.zero.resolvedFunc = .nil ∧ Promise.zero.rejectedFunc = .nil := by
  refine ⟨?_, rfl, rfl⟩
  have hlt : p < s.heap.length := by
    rw [List.get?_eq_getElem?] at hp
    exact (List.getElem?_eq_some.mp hp).1
  have h1 := run_updatePromise s p pr (fun pr => { pr with resolvedFunc := resolve }) hp
  have hp1 := get?_setPromise_self s p pr { pr with resolvedFunc := resolve } hp
  have h2 := run_updatePromise _ p _ (fun pr => { pr with rejectedFunc := reject }) hp1
  simp only [setPromise_setPromise] at h2
  have hnew : ∀ m : Machine, Machine.newPromise.run m
      = (.ok m.heap.length, { m with heap := m.heap ++ [.promise Promise.zero] }) :=
    fun _ => rfl
  simp only [Promise.Then, Eval.run_bind, h1, h2, hnew, Eval.run_pure]
  simp [Machine.updatePromise, Machine.setPromise, List.getElem?_append_left, hlt,
    List.set_append_left]

/-- Witness of C16: a promise that is already resolved with `1`, and whose
resolver is already enqueued, is resolved with `2`. -/
theorem settle_enqueues_witness :
    (Promise.Resolve 0 (.number 2)).run
        ⟨[], [.promise ⟨.nil, .nil, some (.number 1), none, none, none⟩],
          [.invokeResolver 0], []⟩
      = (.ok (), ⟨[], [.promise ⟨.nil, .nil, some (.number 2), none, none, none⟩],
          [.invokeResolver 0, .invokeResolver 0], []⟩) :=
  (settle_enqueues 0 (.number 2)
    ⟨[], [.promise ⟨.nil, .nil, some (.number 1), none, none, none⟩],
      [.invokeResolver 0], []⟩
    ⟨.nil, .nil, some (.number 1), none, none, none⟩ rfl).1

/-- Witness of C17: a resolved promise with a derived promise, at `1`, and no
resolve handler. -/
theorem unhandled_settlement_dropped_witness :
    (Promise.invokeResolver machineRuntime 1 0).run
        ⟨[], [.promise ⟨.nil, .builtin 0 "h" 5, some (.number 1), none, some 1, none⟩,
              .promise Promise.zero], [], []⟩
      = (.ok (),
        ⟨[], [.promise ⟨.nil, .builtin 0 "h" 5, some (.number 1), none, some 1, none⟩,
              .promise Promise.zero], [], []⟩) :=
  (unhandled_settlement_dropped machineRuntime 0 0
    ⟨[], [.promise ⟨.nil, .builtin 0 "h" 5, some (.number 1), none, some 1, none⟩,
          .promise Promise.zero], [], []⟩
    ⟨.nil, .builtin 0 "h" 5, some (.number 1), none, some 1, none⟩ rfl rfl).1 rfl

/-- Witness of C18: the machine of the counterexample. -/
theorem reject_handler_result_rejects_witness :
    (Promise.invokeRejecter machineRuntime 1 0).run
        ⟨[], [.promise ⟨.nil, .builtin 0 "h" 5, none, some (.string "err"), some 1, none⟩,
              .promise Promise.zero], [], []⟩
      = (.ok (),
        ⟨[⟨"--promise-reject--", none, [], false, .nil⟩, ⟨"", none, [], false, .nil⟩],
         [.promise ⟨.nil, .builtin 0 "h" 5, none, some (.string "err"), some 1, none⟩,
          .promise ⟨.nil, .nil, none, some (.number 5), none, none⟩],
         [.invokeRejecter 1], []⟩) :=
  reject_handler_result_rejects machineRuntime 0 0 1
    ⟨[], [.promise ⟨.nil, .builtin 0 "h" 5, none, some (.string "err"), some 1, none⟩,
          .promise Promise.zero], [], []⟩
    ⟨[⟨"--promise-reject--", none, [], false, .nil⟩, ⟨"", none, [], false, .nil⟩],
     [.promise ⟨.nil, .builtin 0 "h" 5, none, some (.string "err"), some 1, none⟩,
      .promise Promise.zero], [], []⟩
    ⟨.nil, .builtin 0 "h" 5, none, some (.string "err"), some 1, none⟩
    ⟨.nil, .builtin 0 "h" 5, none, some (.string "err"), some 1, none⟩
    Promise.zero (.number 5) rfl rfl (by decide) rfl rfl rfl rfl rfl

/-- Witness of C19: the resolve handler of the promise at `0` is the native
function `1` with the receiver `2`, which returns the promise at `2`; the
derived promise of the promise at `0` is at `1`.  Later the promise at `2` is
resolved with `7`. -/
theorem promise_forwarding_witness :
    (Promise.invokeResolver machineRuntime 1 0).run
        ⟨[], [.promise ⟨.builtin 2 "h" 1, .nil, some (.number 9), none, some 1, none⟩,
              .promise Promise.zero, .promise Promise.zero], [], []⟩
      = (.ok (),
        ⟨[⟨"--promise-resolve--", none, [], false, .nil⟩, ⟨"", none, [], false, .nil⟩],
         [.promise ⟨.builtin 2 "h" 1, .nil, some (.number 9), none, some 1, none⟩,
          .promise Promise.zero,
          .promise ⟨.nil, .nil, none, none, none, some 1⟩], [], []⟩) ∧
    (Promise.invokeResolver machineRuntime 2 2).run
        ⟨[], [.promise ⟨.builtin 2 "h" 1, .nil, some (.number 9), none, some 1, none⟩,
              .promise Promise.zero,
              .promise ⟨.number 8, .nil, some (.number 7), none, none, some 1⟩], [], []⟩
      = (.ok (),
        ⟨[], [.promise ⟨.builtin 2 "h" 1, .nil, some (.number 9), none, some 1, none⟩,
              .promise ⟨.nil, .nil, some (.number 7), none, none, none⟩,
              .promise ⟨.number 8, .nil, some (.number 7), none, none, some 1⟩], [], []⟩) :=
  have h := promise_forwarding machineRuntime 0 0 2 1
    ⟨[], [.promise ⟨.builtin 2 "h" 1, .nil, some (.number 9), none, some 1, none⟩,
          .promise Promise.zero, .promise Promise.zero], [], []⟩
    ⟨[⟨"--promise-resolve--", none, [], false, .nil⟩, ⟨"", none, [], false, .nil⟩],
     [.promise ⟨.builtin 2 "h" 1, .nil, some (.number 9), none, some 1, none⟩,
      .promise Promise.zero, .promise Promise.zero], [], []⟩
    ⟨[], [.promise ⟨.builtin 2 "h" 1, .nil, some (.number 9), none, some 1, none⟩,
          .promise Promise.zero,
          .promise ⟨.number 8, .nil, some (.number 7), none, none, some 1⟩], [], []⟩
    ⟨.builtin 2 "h" 1, .nil, some (.number 9), none, some 1, none⟩
    ⟨.builtin 2 "h" 1, .nil, some (.number 9), none, some 1, none⟩
    Promise.zero ⟨.number 8, .nil, some (.number 7), none, none, some 1⟩ Promise.zero
    (.object 2) rfl rfl (by decide) rfl rfl rfl rfl rfl rfl rfl
  ⟨h.1, h.2.2.2.2 rfl rfl⟩

/-- Witness of C20: `then(3, 4)` on a promise on which `then(1, 2)` was called
before. -/
theorem then_records_witness :
    (Promise.Then 0 (.number 3) (.number 4)).run
        ⟨[], [.promise ⟨.number 1, .number 2, none, none, some 1, none⟩,
              .promise Promise.zero], [], []⟩
      = (.ok (.object 2),
        ⟨[], [.promise ⟨.number 3, .number 4, none, none, some 2, none⟩,
              .promise Promise.zero, .promise Promise.zero], [], []⟩) :=
  (then_records 0 (.number 3) (.number 4)
    ⟨[], [.promise ⟨.number 1, .number 2, none, none, some 1, none⟩,
          .promise Promise.zero], [], []⟩
    ⟨.number 1, .number 2, none, none, some 1, none⟩ rfl).1

/-! ## The operators of two Numbers -/

/-- C22. For Number operands `a` and `b` and an operator of the block of two
Numbers: `a % 0` stops in the Go runtime on its integer division by zero, which
is none of the errors of the evaluator; `a / 0` raises the TypeError of its
guard; every other operator and pair returns a Value. -/
theorem remainder_by_zero_unguarded {σ : Type} (rt : Runtime σ) (left right : Expression σ)
    (ctx : ContextPtr) (s s1 s2 : σ) (a b : Int) (op : TokenType)
    (hop : op ∈ numberOperators)
    (hl : (left.Evaluate ctx).run s = (.ok (.number a), s1))
    (hr : (right.Evaluate ctx).run s1 = (.ok (.number b), s2)) :
    (op = .ttPercent ∧ b = 0 →
      (BinaryExpression.Evaluate rt ⟨left, op, right⟩ ctx).run s
        = (.error (.goPanic "runtime error: integer divide by zero"), s2)) ∧
    (op = .ttDivision ∧ b = 0 →
      (BinaryExpression.Evaluate rt ⟨left, op, right⟩ ctx).run s
        = (.error (.TypeError "divide by zero"), s2)) ∧
    (¬(op = .ttPercent ∧ b = 0) → ¬(op = .ttDivision ∧ b = 0) →
      ∃ v, (BinaryExpression.Evaluate rt ⟨left, op, right⟩ ctx).run s = (.ok v, s2)) := by
  have hand : op ≠ .ttLogicalAnd := by rintro rfl; simp [numberOperators] at hop
  have hor : op ≠ .ttLogicalOr := by rintro rfl; simp [numberOperators] at hop
  rw [BinaryExpression.run_eager rt ⟨left, op, right⟩ ctx s s1 s2 _ _ hand hor hl hr]
  simp only [numberOperators, List.mem_cons, List.mem_singleton, List.not_mem_nil,
    or_false] at hop
  rcases hop with h | h | h | h | h | h | h | h | h | h | h | h | h | h | h | h | h | h <;>
    subst h <;>
    by_cases hb : b = 0 <;>
    simp [BinaryExpression.dispatch, nilBlock, booleanBlock, numberBlock, Value.Type, hb]

/-- Witness of C22: `7 % 0` stops in the Go runtime. -/
theorem remainder_by_zero_unguarded_witness :
    (BinaryExpression.Evaluate worldRuntime
        ⟨literal (.number 7), .ttPercent, literal (.number 0)⟩ 0).run emptyWorld
      = (.error (.goPanic "runtime error: integer divide by zero"), emptyWorld) :=
  (remainder_by_zero_unguarded worldRuntime (literal (.number 7)) (literal (.number 0)) 0
    emptyWorld emptyWorld emptyWorld 7 0 .ttPercent (by decide) rfl rfl).1 ⟨rfl, rfl⟩

/-! ## The kind of the result of the logical operators -/

/-- C23. When the left operand evaluates to `lv` and the right operand, run
after it, to `rv`: `left && right` is the Boolean `truth(lv) && truth(rv)`
(the right operand runs only when `lv` is truthy), and `left || right` is `lv`
itself when `lv` is truthy and `rv` itself otherwise, neither coerced. -/
theorem logical_result_kinds {σ : Type} (rt : Runtime σ) (left right : Expression σ)
    (ctx : ContextPtr) (s s1 s2 : σ) (lv rv : Value)
    (hl : (left.Evaluate ctx).run s = (.ok lv, s1))
    (hr : (right.Evaluate ctx).run s1 = (.ok rv, s2)) :
    (BinaryExpression.Evaluate rt ⟨left, .ttLogicalAnd, right⟩ ctx).run s
      = (.ok (.boolean (rt.Truth lv ctx s1 && rt.Truth rv ctx s2)),
          if rt.Truth lv ctx s1 then s2 else s1) ∧
    (BinaryExpression.Evaluate rt ⟨left, .ttLogicalOr, right⟩ ctx).run s
      = (if rt.Truth lv ctx s1 then (.ok lv, s1) else (.ok rv, s2)) := by
  constructor <;> cases ht : rt.Truth lv ctx s1 <;>
  simp [BinaryExpression.Evaluate, BinaryExpression.operands, BinaryExpression.dispatch,
    nilBlock, booleanBlock, numberBlock, stringBlock, logicalBlock, Eval.run_bind, hl, hr, ht,
    Value.Type]

/-- Witness of C23: `3 && "a"` is the Boolean `true`, and `0 || "a"` is the
String `"a"`. -/
theorem logical_result_kinds_witness :
    (BinaryExpression.Evaluate worldRuntime
        ⟨literal (.number 3), .ttLogicalAnd, literal (.string "a")⟩ 0).run emptyWorld
      = (.ok (.boolean true), emptyWorld) ∧
    (BinaryExpression.Evaluate worldRuntime
        ⟨literal (.number 0), .ttLogicalOr, literal (.string "a")⟩ 0).run emptyWorld
      = (.ok (.string "a"), emptyWorld) :=
  ⟨(logical_result_kinds worldRuntime (literal (.number 3)) (literal (.string "a")) 0
      emptyWorld emptyWorld emptyWorld (.number 3) (.string "a") rfl rfl).1,
   (logical_result_kinds worldRuntime (literal (.number 0)) (literal (.string "a")) 0
      emptyWorld emptyWorld emptyWorld (.number 0) (.string "a") rfl rfl).2⟩


/-! ## Runs of the tokenizer and the parser -/

namespace Main

theorem Run.bind_run {σ α β : Type} (m : Run σ α) (f : α → Run σ β) (s : σ) :
    (m >>= f).run s =
      match m.run s with
      | .done a s1 => (f a).run s1
      | .panic msg => .panic msg
      | .unfinished => .unfinished := rfl

theorem Run.bind_unfinished {σ α β : Type} (m : Run σ α) (f : α → Run σ β) (s : σ)
    (h : m.run s = .unfinished) : (m >>= f).run s = .unfinished := by
  rw [Run.bind_run, h]

theorem Run.bind_done {σ α β : Type} (m : Run σ α) (f : α → Run σ β) (s s1 : σ) (a : α)
    (h : m.run s = .done a s1) : (m >>= f).run s = (f a).run s1 := by
  rw [Run.bind_run, h]

theorem Tokenizer.read_run (t : Tokenizer) :
    Tokenizer.read.run t = .done t.input.ReadByte.1.1 { t with input := t.input.ReadByte.2 } :=
  rfl

theorem Reader.readByte_none (r : Reader) (h : r.data.get? r.pos = none) :
    r.ReadByte = ((Char.ofNat 0, true), r) := by
  simp only [Reader.ReadByte, h]

theorem Reader.readByte_some (r : Reader) (c : Char) (h : r.data.get? r.pos = some c) :
    r.ReadByte = ((c, false), { r with pos := r.pos + 1, lastByte := some c }) := by
  simp only [Reader.ReadByte, h]

/-- A string literal that is never closed is never left: from a state whose
remaining input has no quote, the loop of `readString` does not finish,
whatever the steps granted. -/
theorem Tokenizer.readStringLoop_unfinished (fuel : Nat) :
    ∀ (buf : String) (t : Tokenizer),
      (∀ i, t.input.pos ≤ i → t.input.data.get? i ≠ some '"') →
      (Tokenizer.readStringLoop fuel buf).run t = .unfinished := by
  induction fuel with
  | zero => intro buf t _; rfl
  | succ n ih =>
    intro buf t h
    show (Tokenizer.read >>= fun ch =>
      if ch = '"' then pure buf else Tokenizer.readStringLoop n (buf.push ch)).run t = _
    rw [Run.bind_run, Tokenizer.read_run]
    cases hg : t.input.data.get? t.input.pos with
    | none =>
      rw [Reader.readByte_none _ hg]
      have hne : Char.ofNat 0 ≠ '"' := by decide
      simp only [hne, if_false]
      exact ih _ _ h
    | some c =>
      have hc : c ≠ '"' := by
        intro hq
        exact h t.input.pos (Nat.le_refl _) (by rw [hg, hq])
      rw [Reader.readByte_some _ c hg]
      simp only [hc, if_false]
      exact ih _ _ (fun i hi => h i (Nat.le_of_succ_le hi))

theorem Tokenizer.readByte_run (t : Tokenizer) :
    Tokenizer.ReadByte.run t = .done t.input.ReadByte.1 { t with input := t.input.ReadByte.2 } :=
  rfl

theorem Tokenizer.take_nil (fuel : Nat) (t : Tokenizer) (hb : t.buf = []) :
    (Tokenizer.take fuel).run t = (Tokenizer.next fuel).run t := by
  simp only [Tokenizer.take, hb]

theorem Tokenizer.next_zero (t : Tokenizer) (hb : t.buf = []) :
    (Tokenizer.Next 0).run t = .unfinished := by
  apply Run.bind_unfinished
  rw [Tokenizer.take_nil 0 t hb]
  rfl

theorem Tokenizer.next_at_end (n : Nat) (t : Tokenizer) (hb : t.buf = [])
    (he : t.input.data.get? t.input.pos = none) :
    (Tokenizer.Next (n + 1)).run t
      = .done ⟨.ttEOF, "", 0, t.line⟩ (t.record ⟨.ttEOF, "", 0, t.line⟩) := by
  have hnext : (Tokenizer.next (n + 1)).run t = .done ⟨.ttEOF, "", 0, t.line⟩ t := by
    rw [Tokenizer.next]
    simp only [Run.bind_run, Tokenizer.readByte_run, Reader.readByte_none _ he, if_true]
    rfl
  apply (Run.bind_done _ _ _ _ _ ((Tokenizer.take_nil (n + 1) t hb).trans hnext)).trans
  rfl

/-- At the end of the input, with nothing handed back, the loop over the
parameter list is never left. -/
theorem Parser.parseParameters_unfinished (fuel : Nat) :
    ∀ (params : List String) (t : Tokenizer), t.buf = [] →
      t.input.data.get? t.input.pos = none →
      (Parser.parseParameters fuel params).run t = .unfinished := by
  induction fuel with
  | zero => intro params t _ _; rfl
  | succ n ih =>
    intro params t hb he
    show (Tokenizer.Next n >>= fun tk =>
      if tk.typ = .ttIdentifier then Parser.parseParameters n (params ++ [tk.str])
      else if tk.typ = .ttComma then Parser.parseParameters n params
      else if tk.typ = .ttRightParen then do
        Tokenizer.Undo tk
        pure params
      else Parser.parseParameters n params).run t = _
    cases n with
    | zero => exact Run.bind_unfinished _ _ _ (Tokenizer.next_zero t hb)
    | succ k =>
      rw [Run.bind_done _ _ _ _ _ (Tokenizer.next_at_end k t hb he)]
      simp only [reduceCtorEq, if_false]
      exact ih _ _ hb he


theorem Run.map_unfinished {σ α β : Type} (m : Run σ α) (f : α → β) (s : σ)
    (h : m.run s = .unfinished) : (f <$> m).run s = .unfinished :=
  Run.bind_unfinished m _ s h

theorem Parser.parseStatement_function {ε : Type} (parseExpression : Run Tokenizer (Option ε))
    (n : Nat) (global : Bool) (t t1 : Tokenizer) (tk : Token)
    (h : (Tokenizer.Next n).run t = .done tk t1) (htyp : tk.typ = .ttFunction) :
    (Parser.parseStatement parseExpression (n + 1) global).run t
      = (some <$> Parser.parseFunctionDefinitionStatement n
          (Parser.parseStatement parseExpression n false)).run t1 := by
  rw [Parser.parseStatement]
  simp only [Run.bind_run, h, htyp, reduceCtorEq, if_false, if_true]

theorem Parser.parseFunctionDefinitionStatement_unfinished {ε : Type} (n : Nat)
    (parseStatement : Run Tokenizer (Option (Statement ε))) (t t1 t2 : Tokenizer)
    (name paren : Token)
    (h1 : (Parser.expect n .ttIdentifier).run t = .done name t1)
    (h2 : (Parser.expect n .ttLeftParen).run t1 = .done paren t2)
    (h3 : (Parser.parseParameters n []).run t2 = .unfinished) :
    (Parser.parseFunctionDefinitionStatement n parseStatement).run t = .unfinished := by
  simp only [Parser.parseFunctionDefinitionStatement, Run.bind_run, h1, h2, h3]

theorem getLast?_onLast {α : Type} (f : α → α) (l : List α) :
    (onLast f l).getLast? = l.getLast?.map f := by
  induction l with
  | nil => rfl
  | cons a rest ih =>
    cases rest with
    | nil => rfl
    | cons b rest2 =>
      have hne : ∃ c rest3, onLast f (b :: rest2) = c :: rest3 := by
        cases rest2 with
        | nil => exact ⟨f b, [], rfl⟩
        | cons c rest3 => exact ⟨b, _, rfl⟩
      obtain ⟨c, rest3, hc⟩ := hne
      simp only [onLast, List.getLast?_cons_cons]
      rw [hc, List.getLast?_cons_cons, ← hc]
      exact ih

theorem onLast_onLast {α : Type} (f g : α → α) (l : List α) (h : ∀ a, g (f a) = a) :
    onLast g (onLast f l) = l := by
  induction l with
  | nil => rfl
  | cons a rest ih =>
    cases rest with
    | nil => simp only [onLast, h]
    | cons b rest2 =>
      have hne : ∃ c rest3, onLast f (b :: rest2) = c :: rest3 := by
        cases rest2 with
        | nil => exact ⟨f b, [], rfl⟩
        | cons c rest3 => exact ⟨b, _, rfl⟩
      obtain ⟨c, rest3, hc⟩ := hne
      simp only [onLast]
      rw [hc, onLast, ← hc, ih]

/-- `Peek` returns the token that the `Next` in its place returns, and hands
it back: every `Next` after the `Peek` returns this token
and ends in the state in which the `Next` in the place of the `Peek` ends. -/
theorem Tokenizer.peek_then_next (fuel : Nat) (t t2 : Tokenizer) (token : Token)
    (h : (Tokenizer.Next fuel).run t = .done token t2) :
    ∃ t3, (Tokenizer.Peek fuel).run t = .done token t3 ∧
      ∀ again, (Tokenizer.Next again).run t3 = .done token t2 := by
  have htake : ∃ t1, (Tokenizer.take fuel).run t = .done token t1 ∧ t2 = t1.record token := by
    have hrun := Run.bind_run (Tokenizer.take fuel)
      (fun token => (⟨fun t => .done token (t.record token)⟩ : Run Tokenizer Token)) t
    cases htk : (Tokenizer.take fuel).run t with
    | done a s1 =>
      rw [htk] at hrun
      have h2 : Outcome.done a (s1.record a) = Outcome.done token t2 := hrun.symm.trans h
      simp only [Outcome.done.injEq] at h2
      obtain ⟨ha, hs⟩ := h2
      subst ha
      exact ⟨s1, rfl, hs.symm⟩
    | panic msg =>
      rw [htk] at hrun
      exact absurd (hrun.symm.trans h) (by simp)
    | unfinished =>
      rw [htk] at hrun
      exact absurd (hrun.symm.trans h) (by simp)
  obtain ⟨t1, _, ht2⟩ := htake
  subst ht2
  have hundo : (Tokenizer.Undo token).run (t1.record token)
      = .done () { t1 with buf := token :: t1.buf } := by
    have hlast := getLast?_onLast (fun frame => frame ++ [token]) t1.frames
    simp only [Tokenizer.Undo, Tokenizer.record]
    rw [hlast]
    cases hf : t1.frames.getLast? with
    | none =>
      have hnil : t1.frames = [] := List.getLast?_eq_none_iff.mp hf
      simp only [Option.map, hnil, onLast]
    | some last =>
      simp only [Option.map, List.length_append, List.length_singleton, Nat.add_one_ne_zero,
        if_false]
      rw [onLast_onLast _ _ _ (fun a => List.dropLast_concat)]
  refine ⟨{ t1 with buf := token :: t1.buf }, ?_, fun again => rfl⟩
  show (Tokenizer.Next fuel >>= fun token => Tokenizer.Undo token >>= fun _ => pure token).run t
    = _
  rw [Run.bind_done _ _ _ _ _ h, Run.bind_done _ _ _ _ _ hundo]
  rfl

end Main

/-! ## Frames of the tokenizer -/

/-- C21. On the input `x y z`: a frame is opened, and inside it a second frame
in which `x` is taken; the inner frame is popped without put-back, `y` is taken
in the outer frame, and the outer frame is popped with put-back.  The next two
tokens are `y` and `z`: `x`, taken since the outer `PushFrame`, is not
returned again.  When the inner frame is popped with put-back instead, the
tokens after the outer `PopFrame(true)` are `x` and `y`, as they are when no
frame is opened at all. -/
theorem nested_frame_loses_tokens :
    ((do
        Main.Tokenizer.PushFrame
        Main.Tokenizer.PushFrame
        let a ← Main.Tokenizer.Next 9
        Main.Tokenizer.PopFrame false
        let b ← Main.Tokenizer.Next 9
        Main.Tokenizer.PopFrame true
        let c ← Main.Tokenizer.Next 9
        let d ← Main.Tokenizer.Next 9
        pure [a.str, b.str, c.str, d.str] : Main.Run Main.Tokenizer (List String)).run
      (Main.NewTokenizer "x y z"))
      = .done ["x", "y", "y", "z"] ⟨⟨"x y z".toList, 5, some 'z'⟩, [], [], 1⟩ ∧
    ((do
        Main.Tokenizer.PushFrame
        Main.Tokenizer.PushFrame
        let a ← Main.Tokenizer.Next 9
        Main.Tokenizer.PopFrame true
        let b ← Main.Tokenizer.Next 9
        Main.Tokenizer.PopFrame true
        let c ← Main.Tokenizer.Next 9
        let d ← Main.Tokenizer.Next 9
        pure [a.str, b.str, c.str, d.str] : Main.Run Main.Tokenizer (List String)).run
      (Main.NewTokenizer "x y z"))
      = .done ["x", "x", "x", "y"] ⟨⟨"x y z".toList, 3, none⟩, [], [], 1⟩ ∧
    ((do
        let c ← Main.Tokenizer.Next 9
        let d ← Main.Tokenizer.Next 9
        pure [c.str, d.str] : Main.Run Main.Tokenizer (List String)).run
      (Main.NewTokenizer "x y z"))
      = .done ["x", "y"] ⟨⟨"x y z".toList, 3, none⟩, [], [], 1⟩ := by
  refine ⟨?_, ?_, ?_⟩
  · decide
  · decide
  · decide

/-! ## Inputs on which the tokenizer and the parser do not return -/

/-- C25. On an input that opens a string literal and has no second quote,
`Tokenizer.Next` does not return and does not panic, whatever the number of
steps granted: `readString` reads the byte `0` at the end of the input again
and again.  On the input `function f(`, `Parser.Parse` does not return and
does not panic either, whatever the parser of expressions: the loop over the
parameter list takes the token of the end of the input again and again. -/
theorem unterminated_input_never_returns :
    (∀ body : List Char, '"' ∉ body → ∀ fuel : Nat,
      (Main.Tokenizer.Next fuel).run (Main.NewTokenizer (String.mk ('"' :: body)))
        = .unfinished) ∧
    (∀ (ε : Type) (parseExpression : Main.Run Main.Tokenizer (Option ε)) (fuel : Nat),
      (Main.Parser.Parse parseExpression fuel).run (Main.NewTokenizer "function f(")
        = .unfinished) := by
  constructor
  · intro body hbody fuel
    cases fuel with
    | zero => rfl
    | succ n =>
      have hloop : (Main.Tokenizer.readStringLoop n "").run
          ⟨⟨'"' :: body, 1, some '"'⟩, [], [], 1⟩ = .unfinished := by
        apply Main.Tokenizer.readStringLoop_unfinished
        intro i hi hq
        cases i with
        | zero => simp at hi
        | succ j => exact hbody (List.get?_mem hq)
      apply Main.Run.bind_unfinished
      show (Main.Tokenizer.next (n + 1)).run (Main.NewTokenizer (String.mk ('"' :: body)))
        = .unfinished
      show ((Main.Tokenizer.readStringLoop n "") >>= fun s =>
        (Main.Tokenizer.checkFollow >>= fun _ =>
          Main.Tokenizer.emit ⟨.ttString, s, 0, 0⟩)).run ⟨⟨'"' :: body, 1, some '"'⟩, [], [], 1⟩
        = _
      exact Main.Run.bind_unfinished _ _ _ hloop
  · intro ε parseExpression fuel
    by_cases hsmall : fuel < 12
    · interval_cases fuel <;> rfl
    · obtain ⟨k, rfl⟩ : ∃ k, fuel = k + 12 := ⟨fuel - 12, by omega⟩
      have hloop : (Main.Parser.parseParameters (k + 10) []).run
          ⟨⟨"function f(".toList, 11, some '('⟩, [], [], 1⟩ = .unfinished :=
        Main.Parser.parseParameters_unfinished _ _ _ rfl rfl
      apply Main.Run.bind_unfinished
      apply Main.Run.bind_unfinished
      rw [Main.Parser.parseGlobalStatement,
        Main.Parser.parseStatement_function parseExpression (k + 10) true
          (Main.NewTokenizer "function f(") ⟨⟨"function f(".toList, 8, none⟩, [], [], 1⟩
          ⟨.ttFunction, "function", 0, 1⟩ rfl rfl]
      apply Main.Run.map_unfinished
      exact Main.Parser.parseFunctionDefinitionStatement_unfinished (k + 10) _ _
        ⟨⟨"function f(".toList, 10, none⟩, [], [], 1⟩
        ⟨⟨"function f(".toList, 11, some '('⟩, [], [], 1⟩
        ⟨.ttIdentifier, "f", 0, 1⟩ ⟨.ttLeftParen, "", 0, 1⟩ rfl rfl hloop

/-- Witness of C25: the input that opens the string literal `abc` and ends
there, and the input `function f(` with a parser of expressions that finds
none; a thousand steps are granted to each. -/
theorem unterminated_input_never_returns_witness :
    (Main.Tokenizer.Next 1000).run (Main.NewTokenizer (String.mk ['"', 'a', 'b', 'c']))
      = .unfinished ∧
    (Main.Parser.Parse (pure none : Main.Run Main.Tokenizer (Option Unit)) 1000).run
      (Main.NewTokenizer "function f(") = .unfinished :=
  ⟨unterminated_input_never_returns.1 ['a', 'b', 'c'] (by decide) 1000,
   unterminated_input_never_returns.2 Unit (pure none) 1000⟩

/-! ## The promise invariant -/

theorem guarded_refl (s : Machine) : Guarded s s :=
  ⟨id, fun _ pr hp => ⟨pr, hp, id⟩⟩

theorem guarded_trans {s t u : Machine} (h1 : Guarded s t) (h2 : Guarded t u) : Guarded s u :=
  ⟨fun hs => h2.1 (h1.1 hs), fun p pr hp => by
    obtain ⟨pr1, hp1, hk1⟩ := h1.2 p pr hp
    obtain ⟨pr2, hp2, hk2⟩ := h2.2 p pr1 hp1
    exact ⟨pr2, hp2, fun hn => hk2 (hk1 hn)⟩⟩

/-- A step that leaves the promises as they are. -/
theorem guarded_of_same {s t : Machine} (h : SamePromises s t) : Guarded s t := by
  refine ⟨fun hs => ⟨?_, ?_⟩, fun p pr hp => ⟨pr, (h p pr).mp hp, id⟩⟩
  · intro p pr hp hh
    obtain ⟨np, d, hn, hd⟩ := hs.1 p pr ((h p pr).mpr hp) hh
    exact ⟨np, d, hn, (h np d).mp hd⟩
  · intro p pr hp
    have h2 := hs.2 p pr ((h p pr).mpr hp)
    refine ⟨fun np hn => ?_, fun target ht => ?_⟩
    · obtain ⟨d, hd⟩ := h2.1 np hn
      exact ⟨d, (h np d).mp hd⟩
    · obtain ⟨d, hd⟩ := h2.2 target ht
      exact ⟨d, (h target d).mp hd⟩

theorem guarded_of_heap {s t : Machine} (h : t.heap = s.heap) : Guarded s t :=
  guarded_of_same (fun p pr => by rw [h])

theorem guards_pure {α : Type} (a : α) : Guards (pure a : Eval Machine α) :=
  fun s => guarded_refl s

theorem guards_raise {α : Type} (e : Error) : Guards (Eval.raise e : Eval Machine α) :=
  fun s => guarded_refl s

theorem guards_bind {α β : Type} (m : Eval Machine α) (f : α → Eval Machine β)
    (hm : Guards m) (hf : ∀ a, Guards (f a)) : Guards (m >>= f) := by
  intro s
  have h1 := hm s
  rw [Eval.run_bind]
  rcases hrun : m.run s with ⟨r, s1⟩
  rw [hrun] at h1
  cases r with
  | error e => exact h1
  | ok a => exact guarded_trans h1 (hf a s1)

theorem guards_of_heap {α : Type} (m : Eval Machine α)
    (h : ∀ s, (m.run s).2.heap = s.heap) : Guards m :=
  fun s => guarded_of_heap (h s)

theorem get?_set_of_get? {α : Type} (l : List α) (p j : Nat) (a x : α)
    (h : l.get? p = some a) :
    (l.set p x).get? j = if j = p then some x else l.get? j := by
  have hlt : p < l.length := by
    rw [List.get?_eq_getElem?] at h
    exact (List.getElem?_eq_some.mp h).1
  by_cases hj : j = p
  · subst hj
    simp [hlt]
  · simp [hj, List.getElem?_set_ne (Ne.symm hj)]

theorem get?_append_of_get? {α : Type} (l : List α) (j : Nat) (a x : α)
    (h : l.get? j = some a) : (l ++ [x]).get? j = some a := by
  have hlt : j < l.length := by
    rw [List.get?_eq_getElem?] at h
    exact (List.getElem?_eq_some.mp h).1
  rw [List.get?_eq_getElem?] at h ⊢
  rw [List.getElem?_append_left hlt]
  exact h

theorem get?_append_cases {α : Type} (l : List α) (j : Nat) (a x : α)
    (h : (l ++ [x]).get? j = some a) : l.get? j = some a ∨ (j = l.length ∧ a = x) := by
  rw [List.get?_eq_getElem?] at h ⊢
  by_cases hlt : j < l.length
  · rw [List.getElem?_append_left hlt] at h
    exact Or.inl h
  · right
    have hge : l.length ≤ j := Nat.le_of_not_lt hlt
    rw [List.getElem?_append_right hge] at h
    have hz : j - l.length = 0 := by
      by_contra hne
      obtain ⟨k, hk⟩ : ∃ k, j - l.length = k + 1 := ⟨j - l.length - 1, by omega⟩
      rw [hk] at h
      simp at h
    rw [hz] at h
    simp at h
    exact ⟨by omega, h.symm⟩

/-- An assignment to a promise that leaves its handlers and its derived promise
as they are, and gives it a forward target of the heap, if any. -/
theorem guarded_setPromise (s : Machine) (p : Nat) (pr pr1 : Promise)
    (hp : s.heap.get? p = some (.promise pr))
    (h1 : pr1.resolvedFunc = pr.resolvedFunc) (h2 : pr1.rejectedFunc = pr.rejectedFunc)
    (h3 : pr1.thenPromise = pr.thenPromise)
    (h4 : TargetsPresent s → ∀ target, pr1.toPromise = some target →
      ∃ d, s.heap.get? target = some (.promise d)) :
    Guarded s (s.setPromise p pr1) := by
  have hget : ∀ j, (s.setPromise p pr1).heap.get? j
      = if j = p then some (.promise pr1) else s.heap.get? j :=
    fun j => get?_set_of_get? s.heap p j _ _ hp
  have hkeep : ∀ a d, s.heap.get? a = some (.promise d) →
      ∃ d1, (s.setPromise p pr1).heap.get? a = some (.promise d1) := by
    intro a d ha
    rw [hget]
    by_cases hap : a = p
    · exact ⟨pr1, by rw [if_pos hap]⟩
    · exact ⟨d, by rw [if_neg hap]; exact ha⟩
  refine ⟨fun hs => ⟨?_, ?_⟩, ?_⟩
  · intro j prj hj hh
    rw [hget] at hj
    by_cases hjp : j = p
    · simp only [hjp, if_true, Option.some.injEq, Cell.promise.injEq] at hj
      subst hj
      rw [h1, h2] at hh
      obtain ⟨np, d, hn, hd⟩ := hs.1 p pr hp hh
      obtain ⟨d1, hd1⟩ := hkeep np d hd
      exact ⟨np, d1, by rw [h3]; exact hn, hd1⟩
    · simp only [hjp, if_false] at hj
      obtain ⟨np, d, hn, hd⟩ := hs.1 j prj hj hh
      obtain ⟨d1, hd1⟩ := hkeep np d hd
      exact ⟨np, d1, hn, hd1⟩
  · intro j prj hj
    rw [hget] at hj
    by_cases hjp : j = p
    · simp only [hjp, if_true, Option.some.injEq, Cell.promise.injEq] at hj
      subst hj
      refine ⟨fun np hn => ?_, fun target ht => ?_⟩
      · rw [h3] at hn
        obtain ⟨d, hd⟩ := (hs.2 p pr hp).1 np hn
        exact hkeep np d hd
      · obtain ⟨d, hd⟩ := h4 hs.2 target ht
        exact hkeep target d hd
    · simp only [hjp, if_false] at hj
      refine ⟨fun np hn => ?_, fun target ht => ?_⟩
      · obtain ⟨d, hd⟩ := (hs.2 j prj hj).1 np hn
        exact hkeep np d hd
      · obtain ⟨d, hd⟩ := (hs.2 j prj hj).2 target ht
        exact hkeep target d hd
  · intro j prj hj
    by_cases hjp : j = p
    · subst hjp
      rw [hp] at hj
      simp only [Option.some.injEq, Cell.promise.injEq] at hj
      subst hj
      exact ⟨pr1, by rw [hget, if_pos rfl], by rw [h3]; exact id⟩
    · exact ⟨prj, by rw [hget, if_neg hjp]; exact hj, id⟩

theorem guards_updatePromise (p : Nat) (f : Promise → Promise)
    (h1 : ∀ pr, (f pr).resolvedFunc = pr.resolvedFunc)
    (h2 : ∀ pr, (f pr).rejectedFunc = pr.rejectedFunc)
    (h3 : ∀ pr, (f pr).thenPromise = pr.thenPromise)
    (h4 : ∀ pr, (f pr).toPromise = pr.toPromise) :
    Guards (Machine.updatePromise p f) := by
  intro s
  cases hp : s.heap.get? p with
  | none => simp only [Machine.updatePromise, hp]; exact guarded_refl s
  | some c =>
    cases c with
    | object props => simp only [Machine.updatePromise, hp]; exact guarded_refl s
    | promise pr =>
      rw [run_updatePromise s p pr f hp]
      refine guarded_setPromise s p pr (f pr) hp (h1 pr) (h2 pr) (h3 pr) (fun hs target ht => ?_)
      rw [h4] at ht
      exact (hs p pr hp).2 target ht

/-- The creation of a promise. -/
theorem guards_newPromise : Guards Machine.newPromise := by
  intro s
  show Guarded s { s with heap := s.heap ++ [.promise Promise.zero] }
  refine ⟨fun hs => ⟨?_, ?_⟩, ?_⟩
  · intro j prj hj hh
    rcases get?_append_cases _ _ _ _ hj with hold | ⟨_, hz⟩
    · obtain ⟨np, d, hn, hd⟩ := hs.1 j prj hold hh
      exact ⟨np, d, hn, get?_append_of_get? _ _ _ _ hd⟩
    · simp only [Cell.promise.injEq] at hz
      subst hz
      rcases hh with hh | hh <;> exact absurd rfl hh
  · intro j prj hj
    rcases get?_append_cases _ _ _ _ hj with hold | ⟨_, hz⟩
    · refine ⟨fun np hn => ?_, fun target ht => ?_⟩
      · obtain ⟨d, hd⟩ := (hs.2 j prj hold).1 np hn
        exact ⟨d, get?_append_of_get? _ _ _ _ hd⟩
      · obtain ⟨d, hd⟩ := (hs.2 j prj hold).2 target ht
        exact ⟨d, get?_append_of_get? _ _ _ _ hd⟩
    · simp only [Cell.promise.injEq] at hz
      subst hz
      exact ⟨fun np hn => (by simp [Promise.zero] at hn),
        fun target ht => (by simp [Promise.zero] at ht)⟩
  · intro j prj hj
    exact ⟨prj, get?_append_of_get? _ _ _ _ hj, id⟩

theorem guards_promise (p : Nat) : Guards (Machine.promise p) := by
  apply guards_of_heap
  intro s
  simp only [Machine.promise]
  split <;> rfl

theorem guards_asPromise (v : Value) : Guards (asPromise v) := by
  apply guards_of_heap
  intro s
  simp only [asPromise]
  split
  · split <;> rfl
  · rfl

theorem guards_async (t : Task) : Guards (Async t) :=
  guards_of_heap _ (fun _ => rfl)

theorem guards_newContext (name : String) (parent : Option ContextPtr) :
    Guards (Machine.NewContext name parent) :=
  guards_of_heap _ (fun _ => rfl)

theorem guards_resolve (p : Nat) (v : Value) : Guards (Promise.Resolve p v) :=
  guards_bind _ _
    (guards_updatePromise p _ (fun _ => rfl) (fun _ => rfl) (fun _ => rfl) (fun _ => rfl))
    (fun _ => guards_async _)

theorem guards_reject (p : Nat) (v : Value) : Guards (Promise.Reject p v) :=
  guards_bind _ _
    (guards_updatePromise p _ (fun _ => rfl) (fun _ => rfl) (fun _ => rfl) (fun _ => rfl))
    (fun _ => guards_async _)

/-- The equation of `Then` on a promise of the heap. -/
theorem Promise.run_then (p : Nat) (resolve reject : Value) (s : Machine) (pr : Promise)
    (hp : s.heap.get? p = some (.promise pr)) :
    (Promise.Then p resolve reject).run s
      = (.ok (.object s.heap.length),
          { s with heap := s.heap.set p (.promise
              { pr with resolvedFunc := resolve, rejectedFunc := reject,
                        thenPromise := some s.heap.length }) ++ [.promise Promise.zero] }) := by
  have hlt : p < s.heap.length := by
    rw [List.get?_eq_getElem?] at hp
    exact (List.getElem?_eq_some.mp hp).1
  have h1 := run_updatePromise s p pr (fun pr => { pr with resolvedFunc := resolve }) hp
  have hp1 := get?_setPromise_self s p pr { pr with resolvedFunc := resolve } hp
  have h2 := run_updatePromise _ p _ (fun pr => { pr with rejectedFunc := reject }) hp1
  simp only [setPromise_setPromise] at h2
  have hnew : ∀ m : Machine, Machine.newPromise.run m
      = (.ok m.heap.length, { m with heap := m.heap ++ [.promise Promise.zero] }) :=
    fun _ => rfl
  simp only [Promise.Then, Eval.run_bind, h1, h2, hnew, Eval.run_pure]
  simp [Machine.updatePromise, Machine.setPromise, List.getElem?_append_left, hlt,
    List.set_append_left]

/-- The heap that `Then` leaves: the promise has the fresh promise as its
derived promise, and the forward target that it had. -/
theorem guarded_thenHeap (s : Machine) (p : Nat) (pr pr1 : Promise)
    (hp : s.heap.get? p = some (.promise pr))
    (h3 : pr1.thenPromise = some s.heap.length) (h4 : pr1.toPromise = pr.toPromise) :
    Guarded s { s with heap := s.heap.set p (.promise pr1) ++ [.promise Promise.zero] } := by
  have hset : ∀ j, (s.heap.set p (Cell.promise pr1)).get? j
      = if j = p then some (Cell.promise pr1) else s.heap.get? j :=
    fun j => get?_set_of_get? s.heap p j _ _ hp
  have hkeep : ∀ a d, s.heap.get? a = some (.promise d) →
      ∃ d1, (s.heap.set p (Cell.promise pr1) ++ [Cell.promise Promise.zero]).get? a
        = some (.promise d1) := by
    intro a d ha
    by_cases hap : a = p
    · exact ⟨_, get?_append_of_get? _ _ _ _ (by rw [hset, if_pos hap])⟩
    · exact ⟨d, get?_append_of_get? _ _ _ _ (by rw [hset, if_neg hap]; exact ha)⟩
  have hfresh : (s.heap.set p (Cell.promise pr1) ++ [Cell.promise Promise.zero]).get?
        s.heap.length = some (.promise Promise.zero) := by
    rw [List.get?_eq_getElem?, List.getElem?_append_right (by simp)]
    simp
  refine ⟨fun hs => ⟨?_, ?_⟩, ?_⟩
  · intro j prj hj hh
    rcases get?_append_cases _ _ _ _ hj with hold | ⟨_, hz⟩
    · rw [hset] at hold
      by_cases hjp : j = p
      · rw [if_pos hjp] at hold
        simp only [Option.some.injEq, Cell.promise.injEq] at hold
        subst hold
        exact ⟨s.heap.length, Promise.zero, h3, hfresh⟩
      · rw [if_neg hjp] at hold
        obtain ⟨np, d, hn, hd⟩ := hs.1 j prj hold hh
        obtain ⟨d1, hd1⟩ := hkeep np d hd
        exact ⟨np, d1, hn, hd1⟩
    · simp only [Cell.promise.injEq] at hz
      subst hz
      rcases hh with hh | hh <;> exact absurd rfl hh
  · intro j prj hj
    rcases get?_append_cases _ _ _ _ hj with hold | ⟨_, hz⟩
    · rw [hset] at hold
      by_cases hjp : j = p
      · rw [if_pos hjp] at hold
        simp only [Option.some.injEq, Cell.promise.injEq] at hold
        subst hold
        refine ⟨fun np hn => ?_, fun target ht => ?_⟩
        · rw [h3] at hn
          simp only [Option.some.injEq] at hn
          subst hn
          exact ⟨Promise.zero, hfresh⟩
        · rw [h4] at ht
          obtain ⟨d, hd⟩ := (hs.2 p pr hp).2 target ht
          exact hkeep target d hd
      · rw [if_neg hjp] at hold
        refine ⟨fun np hn => ?_, fun target ht => ?_⟩
        · obtain ⟨d, hd⟩ := (hs.2 j prj hold).1 np hn
          exact hkeep np d hd
        · obtain ⟨d, hd⟩ := (hs.2 j prj hold).2 target ht
          exact hkeep target d hd
    · simp only [Cell.promise.injEq] at hz
      subst hz
      exact ⟨fun np hn => (by simp [Promise.zero] at hn),
        fun target ht => (by simp [Promise.zero] at ht)⟩
  · intro j prj hj
    by_cases hjp : j = p
    · exact ⟨pr1, get?_append_of_get? _ _ _ _ (by rw [hset, if_pos hjp]),
        fun _ => by rw [h3]; simp⟩
    · exact ⟨prj, get?_append_of_get? _ _ _ _ (by rw [hset, if_neg hjp]; exact hj), id⟩

/-- `Then` records the handlers and the derived promise in one call. -/
theorem guards_then (p : Nat) (resolve reject : Value) :
    Guards (Promise.Then p resolve reject) := by
  intro s
  cases hp : s.heap.get? p with
  | none =>
    simp only [Promise.Then, Eval.run_bind, Machine.updatePromise, hp]
    exact guarded_refl s
  | some c =>
    cases c with
    | object props =>
      simp only [Promise.Then, Eval.run_bind, Machine.updatePromise, hp]
      exact guarded_refl s
    | promise pr =>
      rw [Promise.run_then p resolve reject s pr hp]
      exact guarded_thenHeap s p pr _ hp rfl rfl

theorem asPromise_cases (v : Value) (s : Machine) :
    (∃ q qr, (asPromise v).run s = (.ok (some q), s) ∧ s.heap.get? q = some (.promise qr)) ∨
    (asPromise v).run s = (.ok none, s) := by
  cases v with
  | object ref =>
    cases hq : s.heap.get? ref with
    | none => right; simp only [asPromise, hq]
    | some c =>
      cases c with
      | promise qr => left; exact ⟨ref, qr, by simp only [asPromise, hq], hq⟩
      | object props => right; simp only [asPromise, hq]
  | _ => right; rfl

/-- What a continuation does with the result of the handler: the promise is
read again, and the result is given the derived promise as its forward target
or the derived promise is settled with it. -/
theorem guards_afterHandler (p : Nat) (result : Value)
    (settle : Nat → Value → Eval Machine Unit) (hsettle : ∀ np v, Guards (settle np v)) :
    Guards (do
      let pr2 ← Machine.promise p
      match ← asPromise result with
      | some promise =>
        Machine.updatePromise promise (fun q => { q with toPromise := pr2.thenPromise })
      | none =>
        match pr2.thenPromise with
        | some np => settle np result
        | none => Eval.raise nilDereference) := by
  intro s
  cases hp : s.heap.get? p with
  | none => simp only [Eval.run_bind, Machine.promise, hp]; exact guarded_refl s
  | some c =>
    cases c with
    | object props => simp only [Eval.run_bind, Machine.promise, hp]; exact guarded_refl s
    | promise pr2 =>
      rcases asPromise_cases result s with ⟨q, qr, hr, hq⟩ | hr
      · simp only [Eval.run_bind, run_promise s p pr2 hp, hr, run_updatePromise s q qr _ hq]
        exact guarded_setPromise s q qr _ hq rfl rfl rfl
          (fun hs target ht => (hs p pr2 hp).1 target ht)
      · simp only [Eval.run_bind, run_promise s p pr2 hp, hr]
        cases hnp : pr2.thenPromise with
        | none => exact guarded_refl s
        | some np => exact hsettle np result s

theorem guards_invokeResolver (rt : CallRuntime) (hrt : GuardedCalls rt) (fuel : Nat) :
    ∀ p, Guards (Promise.invokeResolver rt fuel p) := by
  induction fuel with
  | zero => intro p; exact guards_raise _
  | succ n ih =>
    intro p
    rw [Promise.invokeResolver]
    refine guards_bind _ _ (guards_promise p) (fun pr => ?_)
    split
    · exact guards_bind _ _
        (guards_updatePromise _ _ (fun _ => rfl) (fun _ => rfl) (fun _ => rfl) (fun _ => rfl))
        (fun _ => ih _)
    · split
      · exact guards_pure _
      · refine guards_bind _ _ (guards_newContext _ _) (fun ctx => ?_)
        refine guards_bind _ _ (hrt ctx pr.resolvedFunc [pr.resolvedValue]) (fun result => ?_)
        exact guards_afterHandler p result Promise.Resolve guards_resolve

theorem guards_invokeRejecter (rt : CallRuntime) (hrt : GuardedCalls rt) (fuel : Nat) :
    ∀ p, Guards (Promise.invokeRejecter rt fuel p) := by
  induction fuel with
  | zero => intro p; exact guards_raise _
  | succ n ih =>
    intro p
    rw [Promise.invokeRejecter]
    refine guards_bind _ _ (guards_promise p) (fun pr => ?_)
    split
    · exact guards_bind _ _
        (guards_updatePromise _ _ (fun _ => rfl) (fun _ => rfl) (fun _ => rfl) (fun _ => rfl))
        (fun _ => ih _)
    · split
      · exact guards_pure _
      · refine guards_bind _ _ (guards_newContext _ _) (fun ctx => ?_)
        refine guards_bind _ _ (hrt ctx pr.rejectedFunc [pr.rejectedValue]) (fun result => ?_)
        exact guards_afterHandler p result Promise.Reject guards_reject

theorem guards_NewPromise (rt : CallRuntime) (hrt : GuardedCalls rt) (executor : Value) :
    Guards (NewPromise rt executor) := by
  rw [NewPromise]
  refine guards_bind _ _ guards_newPromise (fun promise => ?_)
  split
  · refine guards_bind _ _ (guards_newContext _ _) (fun ctx => ?_)
    exact guards_bind _ _
      (hrt ctx executor [some (.builtin promise "resolve" promiseResolveFn),
        some (.builtin promise "reject" promiseRejectFn)])
      (fun _ => guards_pure _)
  · exact guards_bind _ _ (guards_resolve _ _) (fun _ => guards_pure _)

theorem guards_drainOne (rt : CallRuntime) (hrt : GuardedCalls rt) (fuel : Nat) :
    Guards (drainOne rt fuel) := by
  intro s
  simp only [drainOne]
  split
  · exact guarded_refl s
  · rename_i t rest _
    have hq : Guarded s { s with queue := rest } := guarded_of_heap rfl
    cases t with
    | invokeResolver p => exact guarded_trans hq (guards_invokeResolver rt hrt fuel p _)
    | invokeRejecter p => exact guarded_trans hq (guards_invokeRejecter rt hrt fuel p _)

/-- The natives: `resolve`, `reject` and `then` are the operations of the
promise, and the others are pure. -/
theorem guards_nativeCall (this fn : Nat) (ctx : ContextPtr) (args : List Value) :
    Guards (nativeCall this fn ctx args) := by
  rw [nativeCall]
  split
  · exact guards_bind _ _ (guards_resolve _ _) (fun _ => guards_pure _)
  · split
    · exact guards_bind _ _ (guards_reject _ _) (fun _ => guards_pure _)
    · split
      · exact guards_then _ _ _
      · exact guards_pure _

/-- The execution of a body, in a runtime whose calls are guarded. -/
theorem guards_codeRun (rt : CallRuntime) (hrt : GuardedCalls rt) (ctx : ContextPtr)
    (code : Code) : Guards (Code.run rt ctx code) := by
  induction code with
  | ret v => exact guards_pure _
  | effect m quiet next ih =>
    rw [Code.run]
    exact guards_bind _ _ (fun s => guarded_of_same (quiet s)) (fun v => ih v)
  | newPromise executor next ih =>
    rw [Code.run]
    exact guards_bind _ _ (guards_NewPromise rt hrt executor) (fun p => ih _)
  | call callee args next ih =>
    rw [Code.run]
    exact guards_bind _ _ (hrt ctx callee (args.map some)) (fun r => ih r)

theorem guards_valueEvaluate (v : Value) (ctx : ContextPtr) :
    Guards (machineRuntime.ValueEvaluate v ctx) := by
  apply guards_of_heap
  intro s
  simp only [machineRuntime]
  split
  · split <;> rfl
  · rfl

theorem guards_evaluateAll (rt : CallRuntime)
    (hve : ∀ v ctx, Guards (rt.ValueEvaluate v ctx)) (ctx : ContextPtr)
    (args : List (Option Value)) :
    Guards (EvaluateAll ctx (args.map (pointerExpression rt))) := by
  induction args with
  | nil => exact guards_pure _
  | cons a rest ih =>
    simp only [List.map, EvaluateAll]
    refine guards_bind _ _ ?_ (fun value => guards_bind _ _ ih (fun _ => guards_pure _))
    cases a with
    | none => exact guards_raise _
    | some v => exact hve v ctx

/-- A runtime is guarded when the evaluation of a value and the execution of
each of its callables are. -/
theorem guardedCalls_of (rt : CallRuntime)
    (hve : ∀ v ctx, Guards (rt.ValueEvaluate v ctx))
    (hcall : ∀ v execute, rt.callable v = some execute →
      ∀ ctx args, Guards (execute ctx args)) : GuardedCalls rt := by
  intro ctx f args
  rw [CallFunc, CallExpression.Evaluate]
  refine guards_bind _ _ (hve f ctx) (fun callable => ?_)
  have hjp : ∀ callable2 : Value, Guards
      (match rt.callable callable2 with
        | some execute => do
          let newCtx ← Machine.NewContext "" none
          let values ← EvaluateAll ctx (List.map (pointerExpression rt) args)
          execute newCtx values
        | none => Eval.raise (Error.NotCallableError callable2)) := by
    intro callable2
    split
    · rename_i execute hexec
      refine guards_bind _ _ (guards_newContext _ _) (fun newCtx => ?_)
      refine guards_bind _ _ (guards_evaluateAll rt hve ctx args) (fun values => ?_)
      exact hcall callable2 execute hexec newCtx values
    · exact guards_raise _
  dsimp only
  split
  · exact guards_bind _ _ (hve _ _) hjp
  · exact guards_bind _ _ (guards_pure _) hjp

/-- The runtime of a program is guarded, whatever its functions and the depth
of its calls. -/
theorem codeRuntime_guardedCalls
    (functions : Nat → Option (ContextPtr → ContextPtr → List Value → Code)) :
    ∀ depth, GuardedCalls (codeRuntime functions depth) := by
  intro depth
  induction depth with
  | zero =>
    apply guardedCalls_of
    · exact guards_valueEvaluate
    · intro v execute hexec ctx args
      cases v with
      | builtin this name fn =>
        simp only [codeRuntime, Option.some.injEq] at hexec
        subst hexec
        exact guards_nativeCall this fn ctx args
      | function this fn =>
        simp only [codeRuntime] at hexec
        cases hf : functions fn with
        | none => rw [hf] at hexec; simp at hexec
        | some body =>
          rw [hf] at hexec
          simp only [Option.map, Option.some.injEq] at hexec
          subst hexec
          exact guards_raise _
      | _ => simp [codeRuntime] at hexec
  | succ n ih =>
    apply guardedCalls_of
    · exact guards_valueEvaluate
    · intro v execute hexec ctx args
      cases v with
      | builtin this name fn =>
        simp only [codeRuntime, Option.some.injEq] at hexec
        subst hexec
        exact guards_nativeCall this fn ctx args
      | function this fn =>
        simp only [codeRuntime] at hexec
        cases hf : functions fn with
        | none => rw [hf] at hexec; simp at hexec
        | some body =>
          rw [hf] at hexec
          simp only [Option.map, Option.some.injEq] at hexec
          subst hexec
          exact guards_codeRun _ ih ctx (body this ctx args)
      | _ => simp [codeRuntime] at hexec

/-- C24. For the runtime of every program and every depth of calls, with the
natives `resolve`, `reject` and `then` of `class_promise.go`: in every machine
reached from one without promises through `NewPromise`, `Then`, `Resolve`,
`Reject`, the settlement continuations and the drain of the queue, every
promise with a resolve or reject handler other than `Nil` has a derived
promise in the heap, and no derived promise or forward target is dangling.
Hence, from a machine with these invariants, a continuation ends in a machine
with them; on a promise with a forward target, the target is a promise of the
heap, the settlement value is written to it, and the continuation goes on as
the continuation of the target, in a machine with the invariants; on a promise
without one, when the handler returns, the promise has a derived promise in
the heap that the handler left, and the continuation ends without error: it
neither settles nor forwards onto a missing derived promise. -/
theorem derived_promise_present
    (functions : Nat → Option (ContextPtr → ContextPtr → List Value → Code)) (depth : Nat) :
    (∀ m, Reachable (codeRuntime functions depth) m → PromiseInvariant m) ∧
    (∀ m : Machine, PromiseInvariant m →
      ∀ (fuel p : Nat) (pr : Promise), m.heap.get? p = some (.promise pr) →
        PromiseInvariant
          ((Promise.invokeResolver (codeRuntime functions depth) fuel p).run m).2 ∧
        PromiseInvariant
          ((Promise.invokeRejecter (codeRuntime functions depth) fuel p).run m).2 ∧
        (∀ target, pr.toPromise = some target →
          ∃ tr, m.heap.get? target = some (.promise tr) ∧
            (Promise.invokeResolver (codeRuntime functions depth) (fuel + 1) p).run m
              = (Promise.invokeResolver (codeRuntime functions depth) fuel target).run
                  (m.setPromise target { tr with resolvedValue := pr.resolvedValue }) ∧
            (Promise.invokeRejecter (codeRuntime functions depth) (fuel + 1) p).run m
              = (Promise.invokeRejecter (codeRuntime functions depth) fuel target).run
                  (m.setPromise target { tr with rejectedValue := pr.rejectedValue }) ∧
            PromiseInvariant
              (m.setPromise target { tr with resolvedValue := pr.resolvedValue }) ∧
            PromiseInvariant
              (m.setPromise target { tr with rejectedValue := pr.rejectedValue })) ∧
        (pr.toPromise = none → ∀ (r : Value) (s2 : Machine),
          (pr.resolvedFunc.Type ≠ .vtNil →
            (CallFunc (codeRuntime functions depth) m.contexts.length
              (valueExpression (codeRuntime functions depth) pr.resolvedFunc)
              [pointerExpression (codeRuntime functions depth) pr.resolvedValue]).run
              { m with contexts :=
                  m.contexts ++ [⟨"--promise-resolve--", none, [], false, .nil⟩] }
              = (.ok r, s2) →
            (∃ pr2 np d, s2.heap.get? p = some (.promise pr2) ∧ pr2.thenPromise = some np ∧
              s2.heap.get? np = some (.promise d)) ∧
            ((Promise.invokeResolver (codeRuntime functions depth) (fuel + 1) p).run m).1
              = .ok ()) ∧
          (pr.rejectedFunc.Type ≠ .vtNil →
            (CallFunc (codeRuntime functions depth) m.contexts.length
              (valueExpression (codeRuntime functions depth) pr.rejectedFunc)
              [pointerExpression (codeRuntime functions depth) pr.rejectedValue]).run
              { m with contexts :=
                  m.contexts ++ [⟨"--promise-reject--", none, [], false, .nil⟩] }
              = (.ok r, s2) →
            (∃ pr2 np d, s2.heap.get? p = some (.promise pr2) ∧ pr2.thenPromise = some np ∧
              s2.heap.get? np = some (.promise d)) ∧
            ((Promise.invokeRejecter (codeRuntime functions depth) (fuel + 1) p).run m).1
              = .ok ()))) := by
  have hrt := codeRuntime_guardedCalls functions depth
  constructor
  · intro m hm
    induction hm with
    | start m h =>
      refine ⟨fun p pr hp _ => ?_, fun p pr hp => ?_⟩ <;>
      · rw [h] at hp
        simp at hp
    | newPromise m executor _ ih => exact (guards_NewPromise _ hrt executor m).1 ih
    | thenCall m p resolve reject _ ih => exact (guards_then p resolve reject m).1 ih
    | resolve m p v _ ih => exact (guards_resolve p v m).1 ih
    | reject m p v _ ih => exact (guards_reject p v m).1 ih
    | resolver m fuel p _ ih => exact (guards_invokeResolver _ hrt fuel p m).1 ih
    | rejecter m fuel p _ ih => exact (guards_invokeRejecter _ hrt fuel p m).1 ih
    | drain m fuel _ ih => exact (guards_drainOne _ hrt fuel m).1 ih
  · intro m hinv fuel p pr hp
    refine ⟨(guards_invokeResolver _ hrt fuel p m).1 hinv,
      (guards_invokeRejecter _ hrt fuel p m).1 hinv, fun target hto => ?_,
      fun hto r s2 => ⟨fun hfunc hcall => ?_, fun hfunc hcall => ?_⟩⟩
    · obtain ⟨tr, ht⟩ := (hinv.2 p pr hp).2 target hto
      refine ⟨tr, ht, ?_, ?_, ?_, ?_⟩
      · simp only [Promise.invokeResolver, Eval.run_bind, run_promise m p pr hp, hto,
          run_updatePromise m target tr _ ht]
      · simp only [Promise.invokeRejecter, Eval.run_bind, run_promise m p pr hp, hto,
          run_updatePromise m target tr _ ht]
      · exact (guarded_setPromise m target tr { tr with resolvedValue := pr.resolvedValue } ht
          rfl rfl rfl (fun hs t2 ht2 => (hs target tr ht).2 t2 ht2)).1 hinv
      · exact (guarded_setPromise m target tr { tr with rejectedValue := pr.rejectedValue } ht
          rfl rfl rfl (fun hs t2 ht2 => (hs target tr ht).2 t2 ht2)).1 hinv
    · obtain ⟨np0, _, hn0, _⟩ := hinv.1 p pr hp (Or.inl hfunc)
      have hstep : Guarded m s2 := by
        have h1 : Guarded m { m with contexts :=
            m.contexts ++ [⟨"--promise-resolve--", none, [], false, .nil⟩] } :=
          guarded_of_heap rfl
        have h2 := hrt m.contexts.length pr.resolvedFunc [pr.resolvedValue]
          { m with contexts :=
              m.contexts ++ [⟨"--promise-resolve--", none, [], false, .nil⟩] }
        simp only [List.map] at h2
        rw [hcall] at h2
        exact guarded_trans h1 h2
      obtain ⟨pr2, hp2, hkept⟩ := hstep.2 p pr hp
      have hsome : pr2.thenPromise ≠ none := hkept (by rw [hn0]; simp)
      obtain ⟨np, hnp⟩ := Option.ne_none_iff_exists'.mp hsome
      obtain ⟨d, hd⟩ := ((hstep.1 hinv).2 p pr2 hp2).1 np hnp
      refine ⟨⟨pr2, np, d, hp2, hnp, hd⟩, ?_⟩
      have hnc : (Machine.NewContext "--promise-resolve--" none).run m
          = (.ok m.contexts.length, { m with contexts :=
              m.contexts ++ [⟨"--promise-resolve--", none, [], false, .nil⟩] }) := rfl
      rcases asPromise_cases r s2 with ⟨q, qr, hr, hq⟩ | hr
      · simp only [Promise.invokeResolver, Eval.run_bind, run_promise m p pr hp, hto, hfunc,
          if_false, hnc, hcall, run_promise s2 p pr2 hp2, hr, run_updatePromise s2 q qr _ hq]
      · simp only [Promise.invokeResolver, Eval.run_bind, run_promise m p pr hp, hto, hfunc,
          if_false, hnc, hcall, run_promise s2 p pr2 hp2, hr, hnp,
          Promise.run_resolve np r s2 d hd]
    · obtain ⟨np0, _, hn0, _⟩ := hinv.1 p pr hp (Or.inr hfunc)
      have hstep : Guarded m s2 := by
        have h1 : Guarded m { m with contexts :=
            m.contexts ++ [⟨"--promise-reject--", none, [], false, .nil⟩] } :=
          guarded_of_heap rfl
        have h2 := hrt m.contexts.length pr.rejectedFunc [pr.rejectedValue]
          { m with contexts :=
              m.contexts ++ [⟨"--promise-reject--", none, [], false, .nil⟩] }
        simp only [List.map] at h2
        rw [hcall] at h2
        exact guarded_trans h1 h2
      obtain ⟨pr2, hp2, hkept⟩ := hstep.2 p pr hp
      have hsome : pr2.thenPromise ≠ none := hkept (by rw [hn0]; simp)
      obtain ⟨np, hnp⟩ := Option.ne_none_iff_exists'.mp hsome
      obtain ⟨d, hd⟩ := ((hstep.1 hinv).2 p pr2 hp2).1 np hnp
      refine ⟨⟨pr2, np, d, hp2, hnp, hd⟩, ?_⟩
      have hnc : (Machine.NewContext "--promise-reject--" none).run m
          = (.ok m.contexts.length, { m with contexts :=
              m.contexts ++ [⟨"--promise-reject--", none, [], false, .nil⟩] }) := rfl
      rcases asPromise_cases r s2 with ⟨q, qr, hr, hq⟩ | hr
      · simp only [Promise.invokeRejecter, Eval.run_bind, run_promise m p pr hp, hto, hfunc,
          if_false, hnc, hcall, run_promise s2 p pr2 hp2, hr, run_updatePromise s2 q qr _ hq]
      · simp only [Promise.invokeRejecter, Eval.run_bind, run_promise m p pr hp, hto, hfunc,
          if_false, hnc, hcall, run_promise s2 p pr2 hp2, hr, hnp,
          Promise.run_reject np r s2 d hd]

/-- Witness of C24: the program `chainProgram` with calls two deep.  The
executor resolves its promise through the native `resolve`, the handler
returns a new promise, and the continuation forwards it onto the derived
promise. -/
theorem derived_promise_present_witness :
    PromiseInvariant chainForwarded ∧
    chainForwarded.heap.get? 2
      = some (.promise ⟨.nil, .nil, some (.number 7), none, none, some 1⟩) ∧
    PromiseInvariant
      ((Promise.invokeResolver (codeRuntime chainProgram 2) 2 2).run chainForwarded).2 ∧
    ((Promise.invokeResolver (codeRuntime chainProgram 2) 1 0).run chainThened).1 = .ok () :=
  ⟨(derived_promise_present chainProgram 2).1 chainForwarded
      (Reachable.drain _ 3 (Reachable.thenCall _ 0 (.function 0 1) .nil
        (Reachable.newPromise _ (.function 0 0) (Reachable.start ⟨[], [], [], []⟩ rfl)))),
   rfl,
   ((derived_promise_present chainProgram 2).2 chainForwarded
      ((derived_promise_present chainProgram 2).1 chainForwarded
        (Reachable.drain _ 3 (Reachable.thenCall _ 0 (.function 0 1) .nil
          (Reachable.newPromise _ (.function 0 0) (Reachable.start ⟨[], [], [], []⟩ rfl)))))
      2 2 ⟨.nil, .nil, some (.number 7), none, none, some 1⟩ rfl).1,
   (((derived_promise_present chainProgram 2).2 chainThened
      ((derived_promise_present chainProgram 2).1 chainThened
        (Reachable.thenCall _ 0 (.function 0 1) .nil
          (Reachable.newPromise _ (.function 0 0) (Reachable.start ⟨[], [], [], []⟩ rfl))))
      0 0 ⟨.function 0 1, .nil, some (.number 5), none, some 1, none⟩ rfl).2.2.2 rfl
      (.object 2)
      ((CallFunc (codeRuntime chainProgram 2) chainThened.contexts.length
          (valueExpression (codeRuntime chainProgram 2) (.function 0 1))
          [pointerExpression (codeRuntime chainProgram 2) (some (.number 5))]).run
          { chainThened with contexts :=
              chainThened.contexts ++ [⟨"--promise-resolve--", none, [], false, .nil⟩] }).2).1
      (by decide) rfl |>.2⟩

end Taolang
